import Mathlib

/-!
# Lightweight dynamic symmetry breaking (`gecode/int/ldsb.cpp`), trace filters and registry

A shallow embedding of the literal-image computation (`symmetric`) of the four
symmetry implementations, of `findVar`, of the binding functions `createIntSym` and
`createBoolSym`, of the functions that declare a symmetry and of the reference counting
of the symmetry handle; of the decision function of a trace filter object
(`gecode/kernel/trace-filter.hpp`); and of the poster registry and the integer
comparison posters (`gecode/flatzinc/registry.cpp`); followed by the properties proved
about them.

Conventions of the embedding.

* C++ `int` is `Int`, `unsigned int` is `Nat`.  Every size that occurs (array
  lengths, numbers of sequences) is an `int` or `unsigned int` of a live array, so
  products and sums of in-range indices stay below `2^31`; the one conversion that
  can leave that range (the `int` lookup entry turned into an `unsigned int`) is
  modelled with its reduction modulo `2^32`.
* A function that reads an array returns `Option`: `none` stands for a read outside
  the array (undefined behaviour in the C++), `some r` for the returned value.
* `ArgArray<Literal>` and the `DynamicStack` turned into one are lists, in the
  order in which the code writes the entries.
-/

namespace Gecode

/-! ## Data model -/

/-- A literal `Literal(_variable, _value)`: a variable position and a value, both `int`. -/
structure Literal where
  var : Int
  value : Int
deriving DecidableEq

/-- Modelled from the spec: a view of the live variable array, which answers "is it
assigned?" and, if so, "to what value?" (the view classes `IntView` / `BoolView` are
not among the sources).  `none` is an unassigned view, `some v` a view assigned to `v`. -/
abbrev View := Option Int

/-- Query `assigned()` of a view. -/
def View.assigned (v : View) : Bool := v.isSome

/-- Query `val()` of a view; the code calls it on assigned views only. -/
def View.val (v : View) : Int := v.getD 0

/-- The live variable array `ViewArray<View>`. -/
abbrev ViewArray := List View

/-- Modelled from the spec: the set of member positions (or of values) of a static
symmetry is a bit set with an offset (`Support::BitSetOffset`, not among the sources):
bit `j` of `bits` stands for the integer `offset + j`. -/
structure BitSetOffset where
  offset : Int
  bits : List Bool
deriving DecidableEq

/-- Range test `valid(i)`: is `i` one of the integers the bit set has a bit for? -/
def BitSetOffset.valid (b : BitSetOffset) (i : Int) : Bool :=
  decide (b.offset ≤ i) && decide (i < b.offset + (b.bits.length : Int))

/-- Bit test `get(i)`; `none` when `i` has no bit. -/
def BitSetOffset.get (b : BitSetOffset) (i : Int) : Option Bool :=
  if i < b.offset then none else b.bits[(i - b.offset).toNat]?

/-- The value iterator `Iter::Values::BitSetOffset`: the integers whose bit is set,
from the lowest bit to the highest. -/
def BitSetOffset.vals (b : BitSetOffset) : List Int :=
  ((List.range b.bits.length).filter (fun j => b.bits[j]? == some true)).map
    (fun (j : Nat) => b.offset + (j : Int))

/-- Bit `set(i)`: no effect on the other bits. -/
def BitSetOffset.set (b : BitSetOffset) (i : Int) : BitSetOffset :=
  { b with bits := b.bits.set (i - b.offset).toNat true }

/-- Membership as `symmetric` tests it: `valid(i) && get(i)`. -/
def BitSetOffset.member (b : BitSetOffset) (i : Int) : Prop :=
  b.valid i = true ∧ b.get i = some true

instance (b : BitSetOffset) (i : Int) : Decidable (b.member i) := by
  unfold BitSetOffset.member; infer_instance

/-- Runtime of a variable symmetry: the bit set of member positions. -/
structure VariableSymmetryImp where
  indices : BitSetOffset
deriving DecidableEq

/-- Runtime of a value symmetry: the bit set of values. -/
structure ValueSymmetryImp where
  values : BitSetOffset
deriving DecidableEq

/-- The function `VariableSymmetryImp<Int::IntView>::symmetric` (ldsb.cpp 196-213).
The first loop counts the set bits, the second writes one literal per set bit. -/
def VariableSymmetryImp.symmetric (s : VariableSymmetryImp) (l : Literal)
    (_x : ViewArray) : Option (List Literal) :=
  if s.indices.valid l.var then
    match s.indices.get l.var with
    | none => none
    | some true => some (s.indices.vals.map (fun i => Literal.mk i l.value))
    | some false => some []
  else some []

/-- The function `ValueSymmetryImp<Int::IntView>::symmetric` (ldsb.cpp 233-250). -/
def ValueSymmetryImp.symmetric (s : ValueSymmetryImp) (l : Literal)
    (_x : ViewArray) : Option (List Literal) :=
  if s.values.valid l.value then
    match s.values.get l.value with
    | none => none
    | some true => some (s.values.vals.map (fun i => Literal.mk l.var i))
    | some false => some []
  else some []

/-! ## The two sequence symmetries -/

/-- Conversion of an `int` to `unsigned int` (reduction modulo `2^32`). -/
def toU32 (i : Int) : Nat := (i % 4294967296).toNat

/-- Runtime of a variable sequence symmetry: the flat array `indices` of positions
(`n_seqs` blocks of `seq_size`), and the table `lookup` of `lookup_size` entries that
maps a position to its index in `indices`, or to `-1`. -/
structure VariableSequenceSymmetryImp where
  indices : List Nat
  seq_size : Nat
  n_seqs : Nat
  lookup : List Int
  lookup_size : Nat
deriving DecidableEq

/-- Modelled from the spec: `getVal(sequence, position)` is the position stored at
`(sequence, position)`, that is `indices[sequence*seq_size + position]` (the member
function is declared in a header that is not among the sources). -/
def VariableSequenceSymmetryImp.getVal (s : VariableSequenceSymmetryImp)
    (sequence position : Nat) : Option Nat :=
  s.indices[sequence * s.seq_size + position]?

/-- The test of ldsb.cpp 296-297 on the two views at one offset: both unassigned, or
both assigned to equal values. -/
def sameState (xv yv : View) : Bool :=
  (!xv.assigned && !yv.assigned) ||
    (xv.assigned && yv.assigned && decide (xv.val = yv.val))

/-- The inner loop of ldsb.cpp 293-303, from offset `i` with `fuel` iterations left:
`some true` when every offset passes, `some false` at the first offset that does not
(the `break`), `none` when a read leaves an array. `firstSeq` and `secondSeq` are
the start indices of the two blocks in `indices`. -/
def VariableSequenceSymmetryImp.activeFrom (s : VariableSequenceSymmetryImp)
    (x : ViewArray) (firstSeq secondSeq : Nat) : Nat → Nat → Option Bool
  | 0, _ => some true
  | fuel + 1, i =>
    match s.indices[firstSeq + i]? with
    | none => none
    | some a =>
      match s.indices[secondSeq + i]? with
      | none => none
      | some b =>
        match x[a]? with
        | none => none
        | some xv =>
          match x[b]? with
          | none => none
          | some yv =>
            if sameState xv yv then s.activeFrom x firstSeq secondSeq fuel (i + 1)
            else some false

/-- One iteration of the outer loop of ldsb.cpp 283-308 for the sequence `seq`:
`some (some lit)` when a literal is pushed, `some none` when the iteration pushes
nothing, `none` when a read leaves an array. -/
def VariableSequenceSymmetryImp.step (s : VariableSequenceSymmetryImp) (l : Literal)
    (x : ViewArray) (seqNum seqPos seq : Nat) : Option (Option Literal) :=
  if seq = seqNum then some none
  else
    match s.getVal seq seqPos with
    | none => none
    | some p =>
      match x[p]? with
      | none => none
      | some v =>
        if v.assigned then some none
        else
          match s.activeFrom x (seqNum * s.seq_size) (seq * s.seq_size) s.seq_size 0 with
          | none => none
          | some false => some none
          | some true =>
            match s.indices[seq * s.seq_size + seqPos]? with
            | none => none
            | some q => some (some (Literal.mk (q : Int) l.value))

/-- The outer loop over `seq = from, from+1, ...` (`fuel` iterations), pushing onto
the stack in that order. -/
def VariableSequenceSymmetryImp.loop (s : VariableSequenceSymmetryImp) (l : Literal)
    (x : ViewArray) (seqNum seqPos : Nat) : Nat → Nat → Option (List Literal)
  | 0, _ => some []
  | fuel + 1, seq =>
    match s.step l x seqNum seqPos seq with
    | none => none
    | some r =>
      match s.loop l x seqNum seqPos fuel (seq + 1) with
      | none => none
      | some rest => some (r.toList ++ rest)

/-- The function `VariableSequenceSymmetryImp<View>::symmetric` (ldsb.cpp 271-311). -/
def VariableSequenceSymmetryImp.symmetric (s : VariableSequenceSymmetryImp)
    (l : Literal) (x : ViewArray) : Option (List Literal) :=
  if l.var < (s.lookup_size : Int) then
    if l.var < 0 then none
    else
      match s.lookup[l.var.toNat]? with
      | none => none
      | some posIt =>
        if posIt = -1 then some []
        else
          if s.seq_size = 0 then none
          else
            s.loop l x (toU32 posIt / s.seq_size) (toU32 posIt % s.seq_size) s.n_seqs 0
  else some []

/-- The function `findVar` (ldsb.cpp 383-398), from index `i` with `fuel` iterations
left and the running counters `seq` and `pos`. -/
def findVarFrom (indices : List Int) (seq_size : Nat) (index : Int) :
    Nat → Nat → Nat → Nat → Option (Int × Int)
  | 0, _, _, _ => some (-1, -1)
  | fuel + 1, i, seq, pos =>
    match indices[i]? with
    | none => none
    | some v =>
      if v = index then some ((seq : Int), (pos : Int))
      else if pos + 1 = seq_size then findVarFrom indices seq_size index fuel (i + 1) (seq + 1) 0
      else findVarFrom indices seq_size index fuel (i + 1) seq (pos + 1)

/-- The function `findVar(indices, n_values, seq_size, index)` (ldsb.cpp 383-398). -/
def findVar (indices : List Int) (n_values seq_size : Nat) (index : Int) :
    Option (Int × Int) :=
  findVarFrom indices seq_size index n_values 0 0 0

/-- Runtime of a value sequence symmetry: the flat array `values` (`n_seqs` blocks of
`seq_size`, `n_values` entries) and the bit set `dead_sequences`, one bit per sequence. -/
structure ValueSequenceSymmetryImp where
  values : List Int
  n_values : Nat
  seq_size : Nat
  n_seqs : Nat
  dead_sequences : List Bool
deriving DecidableEq

/-- Modelled from the spec: `getVal(sequence, position)` is the value stored at
`(sequence, position)`, that is `values[sequence*seq_size + position]` (declared in a
header that is not among the sources). -/
def ValueSequenceSymmetryImp.getVal (s : ValueSequenceSymmetryImp)
    (sequence position : Nat) : Option Int :=
  s.values[sequence * s.seq_size + position]?

/-- The loop of ldsb.cpp 323-327 over `seq = from, from+1, ...` (`fuel` iterations). -/
def ValueSequenceSymmetryImp.loop (s : ValueSequenceSymmetryImp) (l : Literal)
    (seqNum seqPos : Nat) : Nat → Nat → Option (List Literal)
  | 0, _ => some []
  | fuel + 1, seq =>
    if seq = seqNum then s.loop l seqNum seqPos fuel (seq + 1)
    else
      match s.dead_sequences[seq]? with
      | none => none
      | some true => s.loop l seqNum seqPos fuel (seq + 1)
      | some false =>
        match s.getVal seq seqPos with
        | none => none
        | some w =>
          match s.loop l seqNum seqPos fuel (seq + 1) with
          | none => none
          | some rest => some (Literal.mk l.var w :: rest)

/-- The function `ValueSequenceSymmetryImp<Int::IntView>::symmetric` (ldsb.cpp 313-329). -/
def ValueSequenceSymmetryImp.symmetric (s : ValueSequenceSymmetryImp) (l : Literal)
    (_x : ViewArray) : Option (List Literal) :=
  match findVar s.values s.n_values s.seq_size l.value with
  | none => none
  | some location =>
    if location.1 = -1 then some []
    else s.loop l (toU32 location.1) (toU32 location.2) s.n_seqs 0

/-! ## Binding a declaration: `createIntSym` -/

/-- Identity of a model variable (`VarImpBase*`). -/
abbrev VarImpBase := Nat

/-- The map `Branch::VariableMap` from variable identities to positions; `none` is
`variableMap.end()`. -/
abbrev VariableMap := VarImpBase → Option Int

/-- Modelled from the spec: an integer set `IntSet` (class not among the sources) is
the set of its values; `vals` lists them as the iterator `IntSetValues` does, in
ascending order and without repetition. -/
structure IntSet where
  vals : List Int
deriving DecidableEq

/-- Modelled from the spec: the set `IntSet(vs)` of the values of an integer array. -/
def IntSet.ofArgs (vs : List Int) : IntSet :=
  ⟨(vs.insertionSort (· ≤ ·)).dedup⟩

/-- Number of values `size()` of an integer set. -/
def IntSet.size (s : IntSet) : Nat := s.vals.length

/-- Modelled from the spec: the four symmetry object classes `VariableSymmetryObject`,
`ValueSymmetryObject`, `VariableSequenceSymmetryObject` and `ValueSequenceSymmetryObject`
(declared in a header that is not among the sources), as the data of an object that
exists: the members that `createIntSym` reads from it (`xs` with `nxs` its length,
`values`, `seq_size`; ldsb.cpp 103-141).  A value of the type says nothing on what the
C++ constructors accept: they are `VariableSymmetryObject.construct` and its three
companions below, which can refuse their arguments. -/
inductive SymmetryObject where
  | VariableSymmetryObject (xs : List VarImpBase)
  | ValueSymmetryObject (values : IntSet)
  | VariableSequenceSymmetryObject (xs : List VarImpBase) (seq_size : Int)
  | ValueSequenceSymmetryObject (values : List Int) (seq_size : Int)
deriving DecidableEq

/-- The object that the handle returned by `ValueSymmetry(IntArgs vs)` refers to
(ldsb.cpp 69-71): the value group of the set `IntSet(vs)`.  Whether the object's
constructor accepts that set is `ValueSymmetry.declare`. -/
def ValueSymmetry (vs : List Int) : SymmetryObject :=
  SymmetryObject.ValueSymmetryObject (IntSet.ofArgs vs)

/-- The four runtimes `SymmetryImp<IntView>`. -/
inductive SymmetryImp where
  | variable (s : VariableSymmetryImp)
  | value (s : ValueSymmetryImp)
  | variableSequence (s : VariableSequenceSymmetryImp)
  | valueSequence (s : ValueSequenceSymmetryImp)
deriving DecidableEq

/-- Modelled from the spec: the runtime of a static symmetry holds the set of the
positions (values) handed to its constructor (constructors not among the sources).
The bit set starts at the least entry, reaches the greatest and has the bit of every
entry set.  `none` for an empty array, whose first entry the constructor reads. -/
def BitSetOffset.ofArray (a : List Int) : Option BitSetOffset :=
  match a with
  | [] => none
  | first :: rest =>
    let maximum := rest.foldl (fun m v => if v > m then v else m) first
    let minimum := rest.foldl (fun m v => if v < m then v else m) first
    some (a.foldl BitSetOffset.set
      ⟨minimum, List.replicate (maximum - minimum + 1).toNat false⟩)

/-- Modelled from the spec: the lookup table of a variable sequence runtime is built
once by inverting `indices`: `lookup_size` is the greatest position plus one, every
entry starts at `-1`, and a position that occurs in `indices` is mapped to the index
of its first occurrence (constructor not among the sources).  This is the loop that
fills the table, from index `i`. -/
def fillLookup : List Nat → Nat → List Int → List Int
  | [], _, lookup => lookup
  | p :: ps, i, lookup =>
    if lookup[p]? = some (-1) then fillLookup ps (i + 1) (lookup.set p (i : Int))
    else fillLookup ps (i + 1) lookup

/-- Modelled from the spec: constructor of the variable sequence runtime from the bound
positions `_indices` and the sequence length (constructor not among the sources): it
copies the positions, sets `n_seqs = n / seqsize` and inverts the positions into the
lookup table.  `none` for an empty array or the sequence length zero. -/
def VariableSequenceSymmetryImp.create (_indices : List Int) (seqsize : Nat) :
    Option VariableSequenceSymmetryImp :=
  match _indices with
  | [] => none
  | first :: _ =>
    if seqsize = 0 then none
    else
      let indices := _indices.map toU32
      let max_index := indices.foldl (fun m v => if v > m then v else m) (toU32 first)
      some { indices := indices
             seq_size := seqsize
             n_seqs := _indices.length / seqsize
             lookup := fillLookup indices 0 (List.replicate (max_index + 1) (-1))
             lookup_size := max_index + 1 }

/-- Modelled from the spec: constructor of the value sequence runtime (not among the
sources): it copies the value array and starts with no dead sequence.  `none` for the
sequence length zero. -/
def ValueSequenceSymmetryImp.create (_values : List Int) (seqsize : Nat) :
    Option ValueSequenceSymmetryImp :=
  if seqsize = 0 then none
  else
    some { values := _values
           n_values := _values.length
           seq_size := seqsize
           n_seqs := _values.length / seqsize
           dead_sequences := List.replicate (_values.length / seqsize) false }

/-- The exception `LDSBBranchingException` with its location string. -/
structure LDSBBranchingException where
  what : String
deriving DecidableEq

/-- The loops of ldsb.cpp 106-111 and 127-132: look every variable up in the map,
throw at the first one without an entry. -/
def resolve (where_ : String) (variableMap : VariableMap) :
    List VarImpBase → Except LDSBBranchingException (List Int)
  | [] => Except.ok []
  | v :: vs =>
    match variableMap v with
    | none => Except.error ⟨where_⟩
    | some index =>
      match resolve where_ variableMap vs with
      | Except.error e => Except.error e
      | Except.ok rest => Except.ok (index :: rest)

/-- The function `createIntSym` (ldsb.cpp 97-144).  The outer `Option` is `none` when a
runtime constructor reads outside its array; the `Except` carries the exception. -/
def createIntSym (s : SymmetryObject) (variableMap : VariableMap) :
    Option (Except LDSBBranchingException SymmetryImp) :=
  match s with
  | SymmetryObject.VariableSymmetryObject xs =>
    match resolve "VariableSymmetryObject::createInt" variableMap xs with
    | Except.error e => some (Except.error e)
    | Except.ok indices =>
      (BitSetOffset.ofArray indices).map (fun b => Except.ok (SymmetryImp.variable ⟨b⟩))
  | SymmetryObject.ValueSymmetryObject values =>
    (BitSetOffset.ofArray values.vals).map (fun b => Except.ok (SymmetryImp.value ⟨b⟩))
  | SymmetryObject.VariableSequenceSymmetryObject xs seq_size =>
    match resolve "VariableSequenceSymmetryObject::createInt" variableMap xs with
    | Except.error e => some (Except.error e)
    | Except.ok indices =>
      (VariableSequenceSymmetryImp.create indices (toU32 seq_size)).map
        (fun r => Except.ok (SymmetryImp.variableSequence r))
  | SymmetryObject.ValueSequenceSymmetryObject values seq_size =>
    (ValueSequenceSymmetryImp.create values (toU32 seq_size)).map
      (fun r => Except.ok (SymmetryImp.valueSequence r))

/-- The function `createBoolSym` (ldsb.cpp 146-193): the text of `createIntSym` with
`BoolView` runtimes and its own location strings.  The runtime data do not depend on
the view type, so the result type is shared. -/
def createBoolSym (s : SymmetryObject) (variableMap : VariableMap) :
    Option (Except LDSBBranchingException SymmetryImp) :=
  match s with
  | SymmetryObject.VariableSymmetryObject xs =>
    match resolve "VariableSymmetryObject::createBool" variableMap xs with
    | Except.error e => some (Except.error e)
    | Except.ok indices =>
      (BitSetOffset.ofArray indices).map (fun b => Except.ok (SymmetryImp.variable ⟨b⟩))
  | SymmetryObject.ValueSymmetryObject values =>
    (BitSetOffset.ofArray values.vals).map (fun b => Except.ok (SymmetryImp.value ⟨b⟩))
  | SymmetryObject.VariableSequenceSymmetryObject xs seq_size =>
    match resolve "VariableSequenceSymmetryObject::createBool" variableMap xs with
    | Except.error e => some (Except.error e)
    | Except.ok indices =>
      (VariableSequenceSymmetryImp.create indices (toU32 seq_size)).map
        (fun r => Except.ok (SymmetryImp.variableSequence r))
  | SymmetryObject.ValueSequenceSymmetryObject values seq_size =>
    (ValueSequenceSymmetryImp.create values (toU32 seq_size)).map
      (fun r => Except.ok (SymmetryImp.valueSequence r))

/-! ## Declaring a symmetry -/

/-- Modelled from the spec: a model variable as the declaration functions use it (class
`IntVar` not among the sources): its identity `varimp()` and its domain, a list of
values without which `min()` and `max()` have no meaning. -/
structure IntVar where
  varimp : VarImpBase
  dom : List Int
deriving DecidableEq

/-- Modelled from the spec: `min()` is the least value of the domain. -/
def IntVar.min (v : IntVar) : Int :=
  match v.dom with
  | [] => 0
  | d :: ds => ds.foldl (fun m w => if w < m then w else m) d

/-- Modelled from the spec: `max()` is the greatest value of the domain. -/
def IntVar.max (v : IntVar) : Int :=
  match v.dom with
  | [] => 0
  | d :: ds => ds.foldl (fun m w => if w > m then w else m) d

/-- Modelled from the spec: the set `IntSet(n, m)` of the contiguous integers from `n`
to `m` (empty when `m < n`). -/
def IntSet.ofRange (n m : Int) : IntSet :=
  ⟨(List.range (m - n + 1).toNat).map (fun (j : Nat) => n + (j : Int))⟩

/-- The object that the handle returned by `VariableSymmetry(IntVarArgs vars)` refers to
(ldsb.cpp 57-62; the overload for `BoolVarArgs`, 63-68, has the same text): the variable
group of the copied variable implementations.  Whether the object's constructor accepts
them is `VariableSymmetry.declare`. -/
def VariableSymmetry (vars : List IntVar) : SymmetryObject :=
  SymmetryObject.VariableSymmetryObject (vars.map IntVar.varimp)

/-- The object that the handle returned by `ValueSymmetry(IntSet vs)` refers to
(ldsb.cpp 72-74); whether the constructor accepts the set is `ValueSymmetryOfSet.declare`. -/
def ValueSymmetryOfSet (vs : IntSet) : SymmetryObject :=
  SymmetryObject.ValueSymmetryObject vs

/-- The object that the handle returned by `VariableSequenceSymmetry(IntVarArgs vars, int ss)`
refers to (ldsb.cpp 75-80; the overload for `BoolVarArgs`, 81-86, has the same text): the
copied variable implementations and `ss`.  Whether the object's constructor accepts them
is `VariableSequenceSymmetry.declare`. -/
def VariableSequenceSymmetry (vars : List IntVar) (ss : Int) : SymmetryObject :=
  SymmetryObject.VariableSequenceSymmetryObject (vars.map IntVar.varimp) ss

/-- The object that the handle returned by `ValueSequenceSymmetry(IntArgs vs, int ss)`
refers to (ldsb.cpp 87-89); whether the object's constructor accepts the arguments is
`ValueSequenceSymmetry.declare`. -/
def ValueSequenceSymmetry (vs : List Int) (ss : Int) : SymmetryObject :=
  SymmetryObject.ValueSequenceSymmetryObject vs ss

/-- Modelled from the spec: the error `InvalidGroupShape` with which the construction of
a declaration is refused (no such exception is among the sources). -/
inductive InvalidGroupShape where
  | mk
deriving DecidableEq

/-- Modelled from the spec: the constructor of `VariableSymmetryObject` (class not among
the sources).  Construction "fails with InvalidGroupShape if ... the member/value set is
empty"; an object that is built holds the members it was given. -/
def VariableSymmetryObject.construct (vars : List VarImpBase) :
    Except InvalidGroupShape SymmetryObject :=
  if vars.length = 0 then Except.error InvalidGroupShape.mk
  else Except.ok (SymmetryObject.VariableSymmetryObject vars)

/-- Modelled from the spec: the constructor of `ValueSymmetryObject` (class not among the
sources).  Construction "fails with InvalidGroupShape if ... the member/value set is
empty"; an object that is built holds the value set it was given. -/
def ValueSymmetryObject.construct (vs : IntSet) : Except InvalidGroupShape SymmetryObject :=
  if vs.size = 0 then Except.error InvalidGroupShape.mk
  else Except.ok (SymmetryObject.ValueSymmetryObject vs)

/-- Modelled from the spec: the constructor of `VariableSequenceSymmetryObject` (class not
among the sources).  Construction "validates the block-size invariant and fails with
InvalidGroupShape if members.len() % seq_len != 0 or seq_len < 1 or the member/value set
is empty"; an object that is built holds the members and the sequence length it was
given. -/
def VariableSequenceSymmetryObject.construct (vars : List VarImpBase) (ss : Int) :
    Except InvalidGroupShape SymmetryObject :=
  if (vars.length : Int) % ss ≠ 0 ∨ ss < 1 ∨ vars.length = 0 then
    Except.error InvalidGroupShape.mk
  else Except.ok (SymmetryObject.VariableSequenceSymmetryObject vars ss)

/-- Modelled from the spec: the constructor of `ValueSequenceSymmetryObject` (class not
among the sources).  Construction "validates the block-size invariant and fails with
InvalidGroupShape if members.len() % seq_len != 0 or seq_len < 1 or the member/value set
is empty"; an object that is built holds the values and the sequence length it was
given. -/
def ValueSequenceSymmetryObject.construct (vs : List Int) (ss : Int) :
    Except InvalidGroupShape SymmetryObject :=
  if (vs.length : Int) % ss ≠ 0 ∨ ss < 1 ∨ vs.length = 0 then
    Except.error InvalidGroupShape.mk
  else Except.ok (SymmetryObject.ValueSequenceSymmetryObject vs ss)

/-- The call `VariableSymmetry(vars)` (ldsb.cpp 57-62, and 63-68 for `BoolVarArgs`) as an
operation that can be refused: the loop copies the variable implementations into `a`, and
the object is constructed from `a`. -/
def VariableSymmetry.declare (vars : List IntVar) : Except InvalidGroupShape SymmetryObject :=
  VariableSymmetryObject.construct (vars.map IntVar.varimp)

/-- The call `ValueSymmetry(IntArgs vs)` (ldsb.cpp 69-71) as an operation that can be
refused: the object is constructed from `IntSet(vs)`. -/
def ValueSymmetry.declare (vs : List Int) : Except InvalidGroupShape SymmetryObject :=
  ValueSymmetryObject.construct (IntSet.ofArgs vs)

/-- The call `ValueSymmetry(IntSet vs)` (ldsb.cpp 72-74) as an operation that can be
refused: the object is constructed from `vs`. -/
def ValueSymmetryOfSet.declare (vs : IntSet) : Except InvalidGroupShape SymmetryObject :=
  ValueSymmetryObject.construct vs

/-- The call `VariableSequenceSymmetry(vars, ss)` (ldsb.cpp 75-80, and 81-86 for
`BoolVarArgs`) as an operation that can be refused: the loop copies the variable
implementations into `a`, and the object is constructed from `a` and `ss`. -/
def VariableSequenceSymmetry.declare (vars : List IntVar) (ss : Int) :
    Except InvalidGroupShape SymmetryObject :=
  VariableSequenceSymmetryObject.construct (vars.map IntVar.varimp) ss

/-- The call `ValueSequenceSymmetry(vs, ss)` (ldsb.cpp 87-89) as an operation that can be
refused: the object is constructed from `vs` and `ss`. -/
def ValueSequenceSymmetry.declare (vs : List Int) (ss : Int) :
    Except InvalidGroupShape SymmetryObject :=
  ValueSequenceSymmetryObject.construct vs ss

/-- The function `variables_interchange` (ldsb.cpp 351-354). -/
def variables_interchange (vars : List IntVar) : SymmetryObject :=
  VariableSymmetry vars

/-- The loop of ldsb.cpp 364-365, `xs[i] = vars[indices[i]]`; `none` when an index is
outside `vars`. -/
def selectVars (vars : List IntVar) : List Int → Option (List IntVar)
  | [] => some []
  | i :: rest =>
    if i < 0 then none
    else
      match vars[i.toNat]? with
      | none => none
      | some v =>
        match selectVars vars rest with
        | none => none
        | some xs => some (v :: xs)

/-- The function `variables_indices_interchange` (ldsb.cpp 361-367). -/
def variables_indices_interchange (vars : List IntVar) (indices : List Int) :
    Option SymmetryObject :=
  (selectVars vars indices).map VariableSymmetry

/-- The function `values_interchange` (ldsb.cpp 369-378); `none` for an empty array, whose
first entry the code reads. -/
def values_interchange (vars : List IntVar) : Option SymmetryObject :=
  match vars with
  | [] => none
  | first :: rest =>
    let min := rest.foldl (fun m v => if v.min < m then v.min else m) first.min
    let max := rest.foldl (fun m v => if m < v.max then v.max else m) first.max
    some (ValueSymmetryOfSet (IntSet.ofRange min max))

/-! ## Reference counting of the symmetry handle -/

/-- The shared symmetry object as far as the handle touches it: the counter `nrefs`, and
the number of times `delete` has run on it. -/
structure RefObject where
  nrefs : Int
  deleted : Nat
deriving DecidableEq

/-- A symmetry handle: `ref` is `none` for `NULL`, `some ()` when it refers to the shared
object. -/
structure SymmetryHandle where
  ref : Option Unit
deriving DecidableEq

/-- The function `SymmetryHandle::increment` (ldsb.cpp 45-48); `none` when `ref` is null
or refers to an object that has been deleted. -/
def SymmetryHandle.increment (h : SymmetryHandle) (o : RefObject) : Option RefObject :=
  match h.ref with
  | none => none
  | some _ => if o.deleted ≠ 0 then none else some { o with nrefs := o.nrefs + 1 }

/-- The function `SymmetryHandle::decrement` (ldsb.cpp 49-55): the handle and the object
after the call; `none` when `ref` is null or refers to an object that has been deleted. -/
def SymmetryHandle.decrement (h : SymmetryHandle) (o : RefObject) :
    Option (SymmetryHandle × RefObject) :=
  match h.ref with
  | none => none
  | some _ =>
    if o.deleted ≠ 0 then none
    else
      if o.nrefs - 1 = 0 then some (⟨none⟩, { nrefs := o.nrefs - 1, deleted := o.deleted + 1 })
      else some (⟨none⟩, { o with nrefs := o.nrefs - 1 })

/-- The handles of a program and the object they share. -/
structure HandleState where
  handles : List SymmetryHandle
  obj : RefObject
deriving DecidableEq

/-- The two events in the life of a handle: handle `i` is copied, handle `i` is dropped. -/
inductive HandleOp where
  | copy (i : Nat)
  | drop (i : Nat)
deriving DecidableEq

/-- Modelled from the spec: copying a handle shares the representation (a new handle with
the same `ref`, and `increment` when it is not null); dropping a handle releases it
(`decrement` when it is not null).  The copy constructor and the destructor are not
among the sources. An event on a handle that does not exist changes nothing. -/
def HandleState.step (st : HandleState) : HandleOp → Option HandleState
  | HandleOp.copy i =>
    match st.handles[i]? with
    | none => some st
    | some h =>
      match h.ref with
      | none => some { st with handles := st.handles ++ [h] }
      | some _ =>
        match h.increment st.obj with
        | none => none
        | some o => some { handles := st.handles ++ [h], obj := o }
  | HandleOp.drop i =>
    match st.handles[i]? with
    | none => some st
    | some h =>
      match h.ref with
      | none => some st
      | some _ =>
        match h.decrement st.obj with
        | none => none
        | some (h', o) => some { handles := st.handles.set i h', obj := o }

/-- A sequence of events, from left to right. -/
def HandleState.run (st : HandleState) : List HandleOp → Option HandleState
  | [] => some st
  | op :: ops =>
    match st.step op with
    | none => none
    | some st' => st'.run ops

/-- The number of handles that refer to the shared object. -/
def HandleState.live (st : HandleState) : Nat :=
  (st.handles.filter (fun h => h.ref.isSome)).length

/-! ## The `BoolView` specialisations of `symmetric` -/

/-- The function `VariableSymmetryImp<Int::BoolView>::symmetric` (ldsb.cpp 214-231). -/
def VariableSymmetryImp.symmetricBool (s : VariableSymmetryImp) (l : Literal)
    (_x : ViewArray) : Option (List Literal) :=
  if s.indices.valid l.var then
    match s.indices.get l.var with
    | none => none
    | some true => some (s.indices.vals.map (fun i => Literal.mk i l.value))
    | some false => some []
  else some []

/-- The function `ValueSymmetryImp<Int::BoolView>::symmetric` (ldsb.cpp 251-268). -/
def ValueSymmetryImp.symmetricBool (s : ValueSymmetryImp) (l : Literal)
    (_x : ViewArray) : Option (List Literal) :=
  if s.values.valid l.value then
    match s.values.get l.value with
    | none => none
    | some true => some (s.values.vals.map (fun i => Literal.mk l.var i))
    | some false => some []
  else some []

/-- The function `ValueSequenceSymmetryImp<Int::BoolView>::symmetric` (ldsb.cpp 330-346). -/
def ValueSequenceSymmetryImp.symmetricBool (s : ValueSequenceSymmetryImp) (l : Literal)
    (_x : ViewArray) : Option (List Literal) :=
  match findVar s.values s.n_values s.seq_size l.value with
  | none => none
  | some location =>
    if location.1 = -1 then some []
    else s.loop l (toU32 location.1) (toU32 location.2) s.n_seqs 0

/-! ## Trace filters (`gecode/kernel/trace-filter.hpp`) -/

/-- An actor group (`Group`, `PropagatorGroup`, `BrancherGroup`), known by its identity.
The class is declared outside the sources at hand; its inclusion test `in` is a
parameter of the definitions below. -/
structure Group where
  id : Nat
deriving DecidableEq

/-- The kinds of execution information, `ExecInfo::What`. -/
inductive What where
  | PROPAGATOR
  | BRANCHER
  | POST
  | OTHER
deriving DecidableEq

/-- An execution information `ExecInfo`: its kind and, for a propagator, a brancher or a
post function, the group it runs for (`propagator().group()`, `brancher().group()`,
`post()`). -/
inductive ExecInfo where
  | propagator (g : Group)
  | brancher (g : Group)
  | post (g : Group)
  | other
deriving DecidableEq

/-- The kind `what()` of an execution information. -/
def ExecInfo.what : ExecInfo → What
  | ExecInfo.propagator _ => What.PROPAGATOR
  | ExecInfo.brancher _ => What.BRANCHER
  | ExecInfo.post _ => What.POST
  | ExecInfo.other => What.OTHER

/-- A filter entry `TraceFilter::TFO::Filter`: the group, whether the filter is negative,
and the bit set `what` of the kinds it considers. -/
structure Filter where
  g : Group
  neg : Bool
  what : Nat
deriving DecidableEq

/-- The trace filter object `TraceFilter::TFO`: the array `f` of its `n` filters. -/
structure TFO where
  f : List Filter
deriving DecidableEq

/-- Number of filters `n`. -/
def TFO.n (o : TFO) : Nat := o.f.length

/-- The constructor `TFO(void)` (trace-filter.hpp 253-254). -/
def TFO.empty : TFO := ⟨[]⟩

/-- The constructor `TFO(PropagatorGroup g)` (trace-filter.hpp 262-268); `code` gives
the value of each enumerator of `ExecInfo::What`. -/
def TFO.ofPropagatorGroup (code : What → Nat) (g : Group) : TFO :=
  ⟨[{ g := g, neg := false, what := 1 <<< code What.PROPAGATOR }]⟩

/-- The constructor `TFO(BrancherGroup g)` (trace-filter.hpp 269-275). -/
def TFO.ofBrancherGroup (code : What → Nat) (g : Group) : TFO :=
  ⟨[{ g := g, neg := false, what := 1 <<< code What.BRANCHER }]⟩

/-- The body of the loop of `TFO::operator()` (trace-filter.hpp 291-311) for one entry:
`true` when the entry makes the function return `true`. -/
def Filter.accepts (inGroup : Group → Group → Bool) (code : What → Nat) (f : Filter)
    (ei : ExecInfo) : Bool :=
  if f.what &&& (1 <<< code ei.what) ≠ 0 then
    match ei with
    | ExecInfo.propagator g => inGroup f.g g != f.neg
    | ExecInfo.brancher g => inGroup f.g g != f.neg
    | ExecInfo.post g => inGroup f.g g != f.neg
    | ExecInfo.other => true
  else false

/-- The loop `for (int i=n; i--; )` of `TFO::operator()` over the entries that are still
to be visited, given in the order of the visit. -/
def TFO.scan (inGroup : Group → Group → Bool) (code : What → Nat) (ei : ExecInfo) :
    List Filter → Bool
  | [] => false
  | f :: rest => if f.accepts inGroup code ei then true else TFO.scan inGroup code ei rest

/-- The function `TraceFilter::TFO::operator()` (trace-filter.hpp 286-313): the entries
are visited from the last to the first. -/
def TFO.call (inGroup : Group → Group → Bool) (code : What → Nat) (o : TFO)
    (ei : ExecInfo) : Bool :=
  if o.n = 0 then true else TFO.scan inGroup code ei o.f.reverse

/-! ## The FlatZinc registry (`gecode/flatzinc/registry.cpp`) -/

/-- The error `FlatZinc::Error(where, what)`. -/
structure FlatZincError where
  location : String
  what : String
deriving DecidableEq

/-- A constraint expression `ConExpr`: its identifier and its arguments. -/
structure ConExpr (Arg : Type) where
  id : String
  args : List Arg

/-- The registry: the map `r` from identifiers to posters; `none` is `r.end()`.  A
poster is a function of the space, the constraint expression and the annotation; `R` is
what running it yields. -/
structure Registry (S Arg Ann R : Type) where
  r : String → Option (S → ConExpr Arg → Ann → R)

/-- The registry without any poster. -/
def Registry.init {S Arg Ann R : Type} : Registry S Arg Ann R := ⟨fun _ => none⟩

/-- The function `Registry::add` (registry.cpp 62-65): `r[id] = p`. -/
def Registry.add {S Arg Ann R : Type} (reg : Registry S Arg Ann R) (id : String)
    (p : S → ConExpr Arg → Ann → R) : Registry S Arg Ann R :=
  ⟨fun k => if k = id then some p else reg.r k⟩

/-- The function `Registry::post` (registry.cpp 52-60). -/
def Registry.post {S Arg Ann R : Type} (reg : Registry S Arg Ann R) (s : S)
    (ce : ConExpr Arg) (ann : Ann) : Except FlatZincError R :=
  match reg.r ce.id with
  | none => Except.error ⟨"Registry", "Constraint " ++ ce.id ++ " not found"⟩
  | some p => Except.ok (p s ce ann)

/-- A sequence of registrations, from left to right. -/
def Registry.addAll {S Arg Ann R : Type} (reg : Registry S Arg Ann R) :
    List (String × (S → ConExpr Arg → Ann → R)) → Registry S Arg Ann R
  | [] => reg
  | (id, p) :: rest => (reg.add id p).addAll rest

/-- The relation types `IntRelType` that the registry uses. -/
inductive IntRelType where
  | IRT_EQ
  | IRT_NQ
  | IRT_LQ
  | IRT_LE
  | IRT_GQ
  | IRT_GR
deriving DecidableEq

/-- The relation a relation type stands for.  The enumeration is declared outside the
sources at hand; the registry posts `IRT_LQ` for `int_le`, `IRT_LE` for `int_lt`,
`IRT_GQ` for `int_ge` and `IRT_GR` for `int_gt` (registry.cpp 287-304). -/
def IntRelType.holds : IntRelType → Int → Int → Prop
  | IntRelType.IRT_EQ, a, b => a = b
  | IntRelType.IRT_NQ, a, b => a ≠ b
  | IntRelType.IRT_LQ, a, b => a ≤ b
  | IntRelType.IRT_LE, a, b => a < b
  | IntRelType.IRT_GQ, a, b => a ≥ b
  | IntRelType.IRT_GR, a, b => a > b

instance (r : IntRelType) (a b : Int) : Decidable (r.holds a b) := by
  cases r <;> unfold IntRelType.holds <;> infer_instance

/-- The function `swap` (registry.cpp 84-93). -/
def swap (irt : IntRelType) : IntRelType :=
  match irt with
  | IntRelType.IRT_LQ => IntRelType.IRT_GQ
  | IntRelType.IRT_LE => IntRelType.IRT_GR
  | IntRelType.IRT_GQ => IntRelType.IRT_LQ
  | IntRelType.IRT_GR => IntRelType.IRT_LE
  | _ => irt

/-- The function `neg` (registry.cpp 95-108). -/
def neg (irt : IntRelType) : IntRelType :=
  match irt with
  | IntRelType.IRT_EQ => IntRelType.IRT_NQ
  | IntRelType.IRT_NQ => IntRelType.IRT_EQ
  | IntRelType.IRT_LQ => IntRelType.IRT_GR
  | IntRelType.IRT_LE => IntRelType.IRT_GQ
  | IntRelType.IRT_GQ => IntRelType.IRT_LE
  | IntRelType.IRT_GR => IntRelType.IRT_LQ

/-- An argument node `AST::Node` as the integer comparisons read it: an integer
variable, an integer literal, a Boolean variable or a Boolean literal. -/
inductive Node where
  | intVar (i : Nat)
  | int (c : Int)
  | boolVar (i : Nat)
  | bool (b : Bool)
deriving DecidableEq

/-- Test `isIntVar()`. -/
def Node.isIntVar : Node → Bool
  | Node.intVar _ => true
  | _ => false

/-- Test `isBool()`. -/
def Node.isBool : Node → Bool
  | Node.bool _ => true
  | _ => false

/-- Accessor `getInt()`; `none` stands for the type error of a node that is no integer
literal. -/
def Node.getInt : Node → Option Int
  | Node.int c => some c
  | _ => none

/-- An integer variable handed to `rel`: a variable of the space (`s.iv[i]`) or a new
variable fixed to a constant (`IntVar(s, c, c)`). -/
inductive IntTerm where
  | var (i : Nat)
  | const (c : Int)
deriving DecidableEq

/-- A Boolean variable handed to `rel`: a variable of the space or a new variable fixed
to a constant. -/
inductive BoolTerm where
  | var (i : Nat)
  | const (b : Bool)
deriving DecidableEq

/-- The function `getIntVar` (registry.cpp 249-257). -/
def getIntVar (n : Node) : Option IntTerm :=
  match n with
  | Node.intVar i => some (IntTerm.var i)
  | _ => n.getInt.map IntTerm.const

/-- The function `getBoolVar` (registry.cpp 238-247); `none` stands for the type error
of a node that is neither a Boolean literal nor a Boolean variable. -/
def getBoolVar (n : Node) : Option BoolTerm :=
  match n with
  | Node.bool b => some (BoolTerm.const b)
  | Node.boolVar i => some (BoolTerm.var i)
  | _ => none

/-- The constraint a call of `rel` posts: `x irt y`, or `(x irt y) <-> b` when reified. -/
inductive Posted where
  | rel (x : IntTerm) (irt : IntRelType) (y : IntTerm)
  | relReif (x : IntTerm) (irt : IntRelType) (y : IntTerm) (b : BoolTerm)
deriving DecidableEq

/-- The function `p_int_CMP` (registry.cpp 273-286): the constraint it posts. -/
def p_int_CMP (irt : IntRelType) (ce : List Node) : Option Posted :=
  match ce[0]?, ce[1]? with
  | some c0, some c1 =>
    if c0.isIntVar then
      if c1.isIntVar then
        match getIntVar c0, getIntVar c1 with
        | some x, some y => some (Posted.rel x irt y)
        | _, _ => none
      else
        match getIntVar c0, c1.getInt with
        | some x, some c => some (Posted.rel x irt (IntTerm.const c))
        | _, _ => none
    else
      match getIntVar c1, c0.getInt with
      | some x, some c => some (Posted.rel x (swap irt) (IntTerm.const c))
      | _, _ => none
  | _, _ => none

/-- The function `p_int_CMP_reif` (registry.cpp 305-327): the constraint it posts. -/
def p_int_CMP_reif (irt : IntRelType) (ce : List Node) : Option Posted :=
  match ce[2]? with
  | none => none
  | some c2 =>
    match c2 with
    | Node.bool true => p_int_CMP irt ce
    | Node.bool false => p_int_CMP (neg irt) ce
    | _ =>
      match ce[0]?, ce[1]? with
      | some c0, some c1 =>
        if c0.isIntVar then
          if c1.isIntVar then
            match getIntVar c0, getIntVar c1, getBoolVar c2 with
            | some x, some y, some b => some (Posted.relReif x irt y b)
            | _, _, _ => none
          else
            match getIntVar c0, c1.getInt, getBoolVar c2 with
            | some x, some c, some b => some (Posted.relReif x irt (IntTerm.const c) b)
            | _, _, _ => none
        else
          match getIntVar c1, c0.getInt, getBoolVar c2 with
          | some x, some c, some b =>
            some (Posted.relReif x (swap irt) (IntTerm.const c) b)
          | _, _, _ => none
      | _, _ => none

/-- The value of an integer term under an assignment of the variables of the space. -/
def IntTerm.eval (iv : Nat → Int) : IntTerm → Int
  | IntTerm.var i => iv i
  | IntTerm.const c => c

/-- The value of a Boolean term under an assignment. -/
def BoolTerm.eval (bv : Nat → Bool) : BoolTerm → Bool
  | BoolTerm.var i => bv i
  | BoolTerm.const b => b

/-- An assignment satisfies a posted constraint. -/
def Posted.holds (iv : Nat → Int) (bv : Nat → Bool) : Posted → Prop
  | Posted.rel x irt y => irt.holds (x.eval iv) (y.eval iv)
  | Posted.relReif x irt y b => (irt.holds (x.eval iv) (y.eval iv) ↔ b.eval bv = true)

/-! ## Reference descriptions of the two sequence images

These two definitions are written from the statement of the properties, not from the
code; the theorems below compare them with `symmetric`. -/

/-- Reference description: the sequences of a value sequence runtime that give an image,
in ascending order: every `seq` below `n_seqs` other than `seq0` that is not dead. -/
def liveSeqs (dead : List Bool) (n_seqs seq0 : Nat) : List Nat :=
  (List.range n_seqs).filter (fun seq => decide (seq ≠ seq0) && (dead[seq]? == some false))

/-- Reference description: the image taken from the sequence `seq` at the offset `off0`,
the literal `(l.variable, values[seq*seq_size + off0])`. -/
def ValueSequenceSymmetryImp.image (s : ValueSequenceSymmetryImp) (l : Literal)
    (off0 seq : Nat) : Literal :=
  ⟨l.var, s.values.getD (seq * s.seq_size + off0) 0⟩

/-- Reference description: the variable position stored at offset `i` of sequence `seq`. -/
def VariableSequenceSymmetryImp.posAt (s : VariableSequenceSymmetryImp) (seq i : Nat) : Nat :=
  s.indices.getD (seq * s.seq_size + i) 0

/-- Reference description: two views are either both unassigned or both assigned to
equal values. -/
def bothUnassignedOrEqual (xv yv : View) : Bool :=
  match xv, yv with
  | none, none => true
  | some a, some b => decide (a = b)
  | _, _ => false

/-- Reference description: the sequence `seq` is a partner of `seq0` for the offset
`off0`: it is another sequence, its variable at `off0` is unassigned, and at every
offset the variables of the two sequences are both unassigned or both assigned to
equal values. -/
def VariableSequenceSymmetryImp.partner (s : VariableSequenceSymmetryImp) (x : ViewArray)
    (seq0 off0 seq : Nat) : Bool :=
  decide (seq ≠ seq0) && (x.getD (s.posAt seq off0) none == none) &&
    (List.range s.seq_size).all (fun i =>
      bothUnassignedOrEqual (x.getD (s.posAt seq0 i) none) (x.getD (s.posAt seq i) none))

/-- Reference description: the images of the literal `l` found at `(seq0, off0)`: in
ascending order of `seq`, the literal `(indices[seq*seq_size + off0], l.value)` of every
partner `seq` below `n_seqs`. -/
def VariableSequenceSymmetryImp.images (s : VariableSequenceSymmetryImp) (l : Literal)
    (x : ViewArray) (seq0 off0 : Nat) : List Literal :=
  ((List.range s.n_seqs).filter (s.partner x seq0 off0)).map
    (fun seq => Literal.mk (s.posAt seq off0 : Int) l.value)

/-! ## Properties: the two static symmetries -/

theorem BitSetOffset.mem_vals (b : BitSetOffset) (m : Int) : m ∈ b.vals ↔ b.member m := by
  unfold BitSetOffset.vals BitSetOffset.member BitSetOffset.valid BitSetOffset.get
  simp only [List.mem_map, List.mem_filter, List.mem_range, beq_iff_eq, Bool.and_eq_true,
    decide_eq_true_eq]
  constructor
  · rintro ⟨j, ⟨hj, hb⟩, rfl⟩
    refine ⟨⟨by omega, by omega⟩, ?_⟩
    have h1 : ¬ (b.offset + (j : Int) < b.offset) := by omega
    have h2 : (b.offset + (j : Int) - b.offset).toNat = j := by simp
    rw [if_neg h1, h2]; exact hb
  · rintro ⟨⟨h1, h2⟩, h3⟩
    have h4 : ¬ (m < b.offset) := by omega
    rw [if_neg h4] at h3
    refine ⟨(m - b.offset).toNat, ⟨by omega, h3⟩, by omega⟩

theorem BitSetOffset.vals_sorted (b : BitSetOffset) : b.vals.Pairwise (· < ·) := by
  unfold BitSetOffset.vals
  rw [List.pairwise_map]
  have h : (List.range b.bits.length).Pairwise (· < ·) := List.pairwise_lt_range _
  exact (h.sublist (List.filter_sublist _)).imp (by intro a c hac; omega)

theorem BitSetOffset.vals_nodup (b : BitSetOffset) : b.vals.Nodup :=
  (b.vals_sorted).imp (fun h => ne_of_lt h)

theorem BitSetOffset.ncard_member (b : BitSetOffset) :
    Set.ncard {m : Int | b.member m} = b.vals.length := by
  have h : {m : Int | b.member m} = (b.vals.toFinset : Set Int) := by
    ext m; simp [BitSetOffset.mem_vals]
  rw [h, Set.ncard_coe_Finset, List.toFinset_card_of_nodup b.vals_nodup]

theorem BitSetOffset.count_map_left (b : BitSetOffset) (m k : Int) (hm : b.member m) :
    (b.vals.map (fun i => Literal.mk i k)).count ⟨m, k⟩ = 1 := by
  have hinj : Function.Injective (fun i : Int => Literal.mk i k) := by
    intro a c h; simpa using h
  have h := List.count_map_of_injective b.vals (fun i : Int => Literal.mk i k) hinj m
  simp only at h
  rw [h]
  exact List.count_eq_one_of_mem b.vals_nodup ((b.mem_vals m).2 hm)

theorem BitSetOffset.count_map_right (b : BitSetOffset) (v m : Int) (hm : b.member m) :
    (b.vals.map (fun i => Literal.mk v i)).count ⟨v, m⟩ = 1 := by
  have hinj : Function.Injective (fun i : Int => Literal.mk v i) := by
    intro a c h; simpa using h
  have h := List.count_map_of_injective b.vals (fun i : Int => Literal.mk v i) hinj m
  simp only at h
  rw [h]
  exact List.count_eq_one_of_mem b.vals_nodup ((b.mem_vals m).2 hm)

theorem VariableSymmetryImp.symmetric_of_member_var (s : VariableSymmetryImp) (l : Literal)
    (x : ViewArray) (h : s.indices.member l.var) :
    s.symmetric l x = some (s.indices.vals.map (fun i => Literal.mk i l.value)) := by
  unfold VariableSymmetryImp.symmetric
  rw [if_pos h.1, h.2]

theorem ValueSymmetryImp.symmetric_of_member_value (s : ValueSymmetryImp) (l : Literal)
    (x : ViewArray) (h : s.values.member l.value) :
    s.symmetric l x = some (s.values.vals.map (fun i => Literal.mk l.var i)) := by
  unfold ValueSymmetryImp.symmetric
  rw [if_pos h.1, h.2]

theorem BitSetOffset.get_of_valid (b : BitSetOffset) (i : Int) (h : b.valid i = true) :
    ∃ r, b.get i = some r := by
  unfold BitSetOffset.valid at h
  simp only [Bool.and_eq_true, decide_eq_true_eq] at h
  unfold BitSetOffset.get
  have h1 : ¬ (i < b.offset) := by omega
  have h2 : (i - b.offset).toNat < b.bits.length := by omega
  rw [if_neg h1]
  exact ⟨b.bits[(i - b.offset).toNat], List.getElem?_eq_getElem h2⟩

theorem VariableSymmetryImp.symmetric_of_not_member_var (s : VariableSymmetryImp) (l : Literal)
    (x : ViewArray) (h : ¬ s.indices.member l.var) : s.symmetric l x = some [] := by
  unfold VariableSymmetryImp.symmetric
  by_cases hv : s.indices.valid l.var = true
  · rw [if_pos hv]
    obtain ⟨r, hr⟩ := s.indices.get_of_valid l.var hv
    rw [hr]
    cases r with
    | false => rfl
    | true => exact absurd ⟨hv, hr⟩ h
  · rw [if_neg hv]

theorem ValueSymmetryImp.symmetric_of_not_member_value (s : ValueSymmetryImp) (l : Literal)
    (x : ViewArray) (h : ¬ s.values.member l.value) : s.symmetric l x = some [] := by
  unfold ValueSymmetryImp.symmetric
  by_cases hv : s.values.valid l.value = true
  · rw [if_pos hv]
    obtain ⟨r, hr⟩ := s.values.get_of_valid l.value hv
    rw [hr]
    cases r with
    | false => rfl
    | true => exact absurd ⟨hv, hr⟩ h
  · rw [if_neg hv]

/-- Claim C1: for a variable-group runtime with member position set `M` and a literal
`(v, k)` with `v` in `M`, `symmetric` returns a list of length `|M|` in which every
`(m, k)` with `m` in `M` occurs exactly once, `(v, k)` included, and in which every
literal is some `(m, k)` with `m` in `M`. -/
theorem variableSymmetry_symmetric_exact (s : VariableSymmetryImp) (x : ViewArray)
    (v k : Int) (hv : s.indices.member v) :
    ∃ res, s.symmetric ⟨v, k⟩ x = some res ∧
      res.length = Set.ncard {m : Int | s.indices.member m} ∧
      (∀ m, s.indices.member m → res.count ⟨m, k⟩ = 1) ∧
      res.count ⟨v, k⟩ = 1 ∧
      (∀ lit ∈ res, lit.value = k ∧ s.indices.member lit.var) := by
  refine ⟨_, s.symmetric_of_member_var ⟨v, k⟩ x hv, ?_, ?_, ?_, ?_⟩
  · rw [List.length_map, BitSetOffset.ncard_member]
  · intro m hm; exact s.indices.count_map_left m k hm
  · exact s.indices.count_map_left v k hv
  · intro lit hlit
    obtain ⟨m, hm, rfl⟩ := List.mem_map.1 hlit
    exact ⟨rfl, (s.indices.mem_vals m).1 hm⟩

theorem variableSymmetry_symmetric_exact_witness :
    (VariableSymmetryImp.mk ⟨3, [true, false, true]⟩).indices.member 5 ∧
    ∃ res, (VariableSymmetryImp.mk ⟨3, [true, false, true]⟩).symmetric ⟨5, 7⟩ [] = some res ∧
      res.length = Set.ncard
        {m : Int | (VariableSymmetryImp.mk ⟨3, [true, false, true]⟩).indices.member m} ∧
      (∀ m, (VariableSymmetryImp.mk ⟨3, [true, false, true]⟩).indices.member m →
        res.count ⟨m, 7⟩ = 1) ∧
      res.count ⟨5, 7⟩ = 1 ∧
      (∀ lit ∈ res, lit.value = 7 ∧
        (VariableSymmetryImp.mk ⟨3, [true, false, true]⟩).indices.member lit.var) :=
  ⟨by decide, variableSymmetry_symmetric_exact _ [] 5 7 (by decide)⟩

/-- Claim C2: for a value-group runtime with value set `V` and a literal `(v, k)` with
`k` in `V`, `symmetric` returns a list of length `|V|` in which every `(v, w)` with `w`
in `V` occurs exactly once, and in which every literal is some `(v, w)` with `w` in
`V` (so every literal has the variable of the input literal). -/
theorem valueSymmetry_symmetric_exact (s : ValueSymmetryImp) (x : ViewArray)
    (v k : Int) (hk : s.values.member k) :
    ∃ res, s.symmetric ⟨v, k⟩ x = some res ∧
      res.length = Set.ncard {w : Int | s.values.member w} ∧
      (∀ w, s.values.member w → res.count ⟨v, w⟩ = 1) ∧
      (∀ lit ∈ res, lit.var = v ∧ s.values.member lit.value) := by
  refine ⟨_, s.symmetric_of_member_value ⟨v, k⟩ x hk, ?_, ?_, ?_⟩
  · rw [List.length_map, BitSetOffset.ncard_member]
  · intro w hw; exact s.values.count_map_right v w hw
  · intro lit hlit
    obtain ⟨w, hw, rfl⟩ := List.mem_map.1 hlit
    exact ⟨rfl, (s.values.mem_vals w).1 hw⟩

theorem valueSymmetry_symmetric_exact_witness :
    (ValueSymmetryImp.mk ⟨-1, [true, true, false, true]⟩).values.member 2 ∧
    ∃ res, (ValueSymmetryImp.mk ⟨-1, [true, true, false, true]⟩).symmetric ⟨4, 2⟩ [] =
        some res ∧
      res.length = Set.ncard
        {w : Int | (ValueSymmetryImp.mk ⟨-1, [true, true, false, true]⟩).values.member w} ∧
      (∀ w, (ValueSymmetryImp.mk ⟨-1, [true, true, false, true]⟩).values.member w →
        res.count ⟨4, w⟩ = 1) ∧
      (∀ lit ∈ res, lit.var = 4 ∧
        (ValueSymmetryImp.mk ⟨-1, [true, true, false, true]⟩).values.member lit.value) :=
  ⟨by decide, valueSymmetry_symmetric_exact _ [] 4 2 (by decide)⟩

/-- Claim C3: `symmetric` of a variable-group runtime on a literal whose variable is not
a member position returns the empty sequence, and `symmetric` of a value-group runtime
on a literal whose value is not in the value set returns the empty sequence; both hold
in particular when the variable (value) is outside the valid range of the bit set. -/
theorem static_symmetric_outside_empty (vs : VariableSymmetryImp) (ws : ValueSymmetryImp)
    (l : Literal) (x : ViewArray) :
    (¬ vs.indices.member l.var → vs.symmetric l x = some []) ∧
    (¬ ws.values.member l.value → ws.symmetric l x = some []) ∧
    (vs.indices.valid l.var = false → vs.symmetric l x = some []) ∧
    (ws.values.valid l.value = false → ws.symmetric l x = some []) := by
  refine ⟨vs.symmetric_of_not_member_var l x, ws.symmetric_of_not_member_value l x, ?_, ?_⟩
  · intro h; exact vs.symmetric_of_not_member_var l x (fun hm => by simp [hm.1] at h)
  · intro h; exact ws.symmetric_of_not_member_value l x (fun hm => by simp [hm.1] at h)

theorem static_symmetric_outside_empty_witness :
    (¬ (VariableSymmetryImp.mk ⟨3, [true, false, true]⟩).indices.member 4 ∧
      (VariableSymmetryImp.mk ⟨3, [true, false, true]⟩).symmetric ⟨4, 9⟩ [] = some []) ∧
    (¬ (ValueSymmetryImp.mk ⟨3, [true, false, true]⟩).values.member 9 ∧
      (ValueSymmetryImp.mk ⟨3, [true, false, true]⟩).symmetric ⟨4, 9⟩ [] = some []) ∧
    ((VariableSymmetryImp.mk ⟨3, [true, false, true]⟩).indices.valid 2 = false ∧
      (VariableSymmetryImp.mk ⟨3, [true, false, true]⟩).symmetric ⟨2, 9⟩ [] = some []) ∧
    ((ValueSymmetryImp.mk ⟨3, [true, false, true]⟩).values.valid 6 = false ∧
      (ValueSymmetryImp.mk ⟨3, [true, false, true]⟩).symmetric ⟨4, 6⟩ [] = some []) :=
  ⟨⟨by decide, (static_symmetric_outside_empty ⟨⟨3, [true, false, true]⟩⟩
      ⟨⟨3, [true, false, true]⟩⟩ ⟨4, 9⟩ []).1 (by decide)⟩,
   ⟨by decide, (static_symmetric_outside_empty ⟨⟨3, [true, false, true]⟩⟩
      ⟨⟨3, [true, false, true]⟩⟩ ⟨4, 9⟩ []).2.1 (by decide)⟩,
   ⟨by decide, (static_symmetric_outside_empty ⟨⟨3, [true, false, true]⟩⟩
      ⟨⟨3, [true, false, true]⟩⟩ ⟨2, 9⟩ []).2.2.1 (by decide)⟩,
   ⟨by decide, (static_symmetric_outside_empty ⟨⟨3, [true, false, true]⟩⟩
      ⟨⟨3, [true, false, true]⟩⟩ ⟨4, 6⟩ []).2.2.2 (by decide)⟩⟩

/-! ## Properties: the bit set built by the constructor -/

theorem foldl_max_ge (rest : List Int) (init : Int) :
    init ≤ rest.foldl (fun m v => if v > m then v else m) init ∧
    ∀ v ∈ rest, v ≤ rest.foldl (fun m v => if v > m then v else m) init := by
  induction rest generalizing init with
  | nil => simp
  | cons a t ih =>
    simp only [List.foldl_cons, List.mem_cons, forall_eq_or_imp]
    split_ifs with hc
    · obtain ⟨h1, h2⟩ := ih a
      exact ⟨by omega, h1, h2⟩
    · obtain ⟨h1, h2⟩ := ih init
      exact ⟨h1, by omega, h2⟩

theorem foldl_min_le (rest : List Int) (init : Int) :
    rest.foldl (fun m v => if v < m then v else m) init ≤ init ∧
    ∀ v ∈ rest, rest.foldl (fun m v => if v < m then v else m) init ≤ v := by
  induction rest generalizing init with
  | nil => simp
  | cons a t ih =>
    simp only [List.foldl_cons, List.mem_cons, forall_eq_or_imp]
    split_ifs with hc
    · obtain ⟨h1, h2⟩ := ih a
      exact ⟨by omega, h1, h2⟩
    · obtain ⟨h1, h2⟩ := ih init
      exact ⟨h1, by omega, h2⟩

theorem BitSetOffset.foldl_set_spec (l : List Int) (b : BitSetOffset) :
    (l.foldl BitSetOffset.set b).offset = b.offset ∧
    (l.foldl BitSetOffset.set b).bits.length = b.bits.length ∧
    ∀ j, ((l.foldl BitSetOffset.set b).bits[j]? = some true ↔
      (b.bits[j]? = some true ∨
        (j < b.bits.length ∧ ∃ v ∈ l, (v - b.offset).toNat = j))) := by
  induction l generalizing b with
  | nil => simp
  | cons a t ih =>
    obtain ⟨h1, h2, h3⟩ := ih (b.set a)
    simp only [List.foldl_cons]
    refine ⟨by rw [h1]; rfl, by rw [h2]; simp [BitSetOffset.set], ?_⟩
    intro j
    rw [h3 j]
    simp only [BitSetOffset.set, List.length_set, List.mem_cons, exists_eq_or_imp]
    rw [List.getElem?_set]
    by_cases hj : (a - b.offset).toNat = j
    · by_cases hlt : j < b.bits.length
      · simp [hj, hlt]
      · have : b.bits[j]? = none := List.getElem?_eq_none (by omega)
        simp [hj, hlt, this]
    · simp [hj]

theorem BitSetOffset.ofArray_member (a : List Int) (b : BitSetOffset)
    (h : BitSetOffset.ofArray a = some b) (m : Int) : b.member m ↔ m ∈ a := by
  cases a with
  | nil => simp [BitSetOffset.ofArray] at h
  | cons first rest =>
    simp only [BitSetOffset.ofArray, Option.some.injEq] at h
    obtain ⟨hmax1, hmax2⟩ := foldl_max_ge rest first
    obtain ⟨hmin1, hmin2⟩ := foldl_min_le rest first
    generalize hmx : rest.foldl (fun m v => if v > m then v else m) first = mx at h hmax1 hmax2
    generalize hmn : rest.foldl (fun m v => if v < m then v else m) first = mn at h hmin1 hmin2
    obtain ⟨h1, h2, h3⟩ := BitSetOffset.foldl_set_spec (first :: rest)
      ⟨mn, List.replicate (mx - mn + 1).toNat false⟩
    rw [h] at h1 h2 h3
    simp only [List.length_replicate] at h1 h2 h3
    have hb : ∀ v ∈ first :: rest, mn ≤ v ∧ v ≤ mx := by
      intro v hv
      rcases List.mem_cons.1 hv with rfl | hv
      · exact ⟨hmin1, hmax1⟩
      · exact ⟨hmin2 v hv, hmax2 v hv⟩
    unfold BitSetOffset.member BitSetOffset.valid BitSetOffset.get
    rw [h1, h2]
    simp only [Bool.and_eq_true, decide_eq_true_eq]
    constructor
    · rintro ⟨⟨hlo, hhi⟩, hg⟩
      rw [if_neg (by omega)] at hg
      rcases (h3 _).1 hg with hrep | ⟨_, v, hv, hveq⟩
      · simp [List.getElem?_replicate] at hrep
      · obtain ⟨hv1, hv2⟩ := hb v hv
        have : v = m := by omega
        rw [← this]; exact hv
    · intro hm
      obtain ⟨hm1, hm2⟩ := hb m hm
      refine ⟨⟨hm1, by omega⟩, ?_⟩
      rw [if_neg (by omega)]
      exact (h3 _).2 (Or.inr ⟨by omega, m, hm, rfl⟩)

theorem BitSetOffset.ofArray_isSome (a : List Int) (h : a ≠ []) :
    ∃ b, BitSetOffset.ofArray a = some b := by
  cases a with
  | nil => exact absurd rfl h
  | cons first rest => exact ⟨_, rfl⟩

theorem BitSetOffset.ofArray_vals_perm (a : List Int) (b : BitSetOffset)
    (h : BitSetOffset.ofArray a = some b) (hd : a.Nodup) : b.vals.Perm a :=
  (List.perm_ext_iff_of_nodup b.vals_nodup hd).2
    (fun m => (b.mem_vals m).trans (BitSetOffset.ofArray_member a b h m))

theorem BitSetOffset.ofArray_vals_sorted (a : List Int) (b : BitSetOffset)
    (h : BitSetOffset.ofArray a = some b) (hs : a.Pairwise (· < ·)) : b.vals = a :=
  List.eq_of_perm_of_sorted
    (BitSetOffset.ofArray_vals_perm a b h (hs.imp (fun h => ne_of_lt h)))
    b.vals_sorted hs

theorem BitSetOffset.ofArray_vals_perm_of_mem (a a' : List Int) (b : BitSetOffset)
    (h : BitSetOffset.ofArray a = some b) (hd : a'.Nodup) (hmem : ∀ m, m ∈ a ↔ m ∈ a') :
    b.vals.Perm a' :=
  (List.perm_ext_iff_of_nodup b.vals_nodup hd).2
    (fun m => ((b.mem_vals m).trans (BitSetOffset.ofArray_member a b h m)).trans (hmem m))

theorem resolve_ok (w : String) (variableMap : VariableMap) (xs : List VarImpBase)
    (ps : List Int) (h : xs.map variableMap = ps.map some) :
    resolve w variableMap xs = Except.ok ps := by
  induction xs generalizing ps with
  | nil =>
    cases ps with
    | nil => rfl
    | cons p t => simp at h
  | cons v vs ih =>
    cases ps with
    | nil => simp at h
    | cons p t =>
      simp only [List.map_cons, List.cons.injEq] at h
      simp only [resolve, h.1, ih t h.2]

/-- Claim C9: on a member literal, `symmetric` of a variable-group runtime lists the
images in strictly ascending order of position, and `symmetric` of a value-group runtime
lists them in strictly ascending order of value.  The runtime built from the positions
`0, 1, 2` maps the literal `(1, 7)` to `[(0,7), (1,7), (2,7)]`. -/
theorem static_symmetric_ascending (vs : VariableSymmetryImp) (ws : ValueSymmetryImp)
    (l : Literal) (x : ViewArray) :
    (vs.indices.member l.var →
      ∃ res, vs.symmetric l x = some res ∧ res.Pairwise (fun a c => a.var < c.var)) ∧
    (ws.values.member l.value →
      ∃ res, ws.symmetric l x = some res ∧ res.Pairwise (fun a c => a.value < c.value)) ∧
    ((BitSetOffset.ofArray [0, 1, 2]).bind
      (fun b => (VariableSymmetryImp.mk b).symmetric ⟨1, 7⟩ x) =
        some [⟨0, 7⟩, ⟨1, 7⟩, ⟨2, 7⟩]) := by
  refine ⟨?_, ?_, rfl⟩
  · intro h
    refine ⟨_, vs.symmetric_of_member_var l x h, ?_⟩
    rw [List.pairwise_map]
    exact vs.indices.vals_sorted
  · intro h
    refine ⟨_, ws.symmetric_of_member_value l x h, ?_⟩
    rw [List.pairwise_map]
    exact ws.values.vals_sorted

theorem static_symmetric_ascending_witness :
    ((VariableSymmetryImp.mk ⟨3, [true, false, true]⟩).indices.member 5 ∧
      ∃ res, (VariableSymmetryImp.mk ⟨3, [true, false, true]⟩).symmetric ⟨5, 8⟩ [] = some res ∧
        res.Pairwise (fun a c => a.var < c.var)) ∧
    ((ValueSymmetryImp.mk ⟨6, [true, true, true]⟩).values.member 8 ∧
      ∃ res, (ValueSymmetryImp.mk ⟨6, [true, true, true]⟩).symmetric ⟨5, 8⟩ [] = some res ∧
        res.Pairwise (fun a c => a.value < c.value)) :=
  ⟨⟨by decide, (static_symmetric_ascending ⟨⟨3, [true, false, true]⟩⟩
      ⟨⟨6, [true, true, true]⟩⟩ ⟨5, 8⟩ []).1 (by decide)⟩,
   ⟨by decide, (static_symmetric_ascending ⟨⟨3, [true, false, true]⟩⟩
      ⟨⟨6, [true, true, true]⟩⟩ ⟨5, 8⟩ []).2.1 (by decide)⟩⟩

/-- Claim C10, refuted as stated: the variable group declared with members bound, in
declared order, to the positions `2, 0, 1` answers the member literal `(2, 7)` with
`[(0,7), (1,7), (2,7)]`, not with the declared order `[(2,7), (0,7), (1,7)]`; the value
group declared from the value list `3, 1, 2` answers `(0, 3)` with
`[(0,1), (0,2), (0,3)]`, not with `[(0,3), (0,1), (0,2)]`. -/
theorem symmetric_declared_order_counterexample :
    (∃ rt, createIntSym (SymmetryObject.VariableSymmetryObject [10, 11, 12])
        (fun v => if v = 10 then some 2 else if v = 11 then some 0
          else if v = 12 then some 1 else none) =
          some (Except.ok (SymmetryImp.variable rt)) ∧
        rt.symmetric ⟨2, 7⟩ [] = some [⟨0, 7⟩, ⟨1, 7⟩, ⟨2, 7⟩] ∧
        rt.symmetric ⟨2, 7⟩ [] ≠ some [⟨2, 7⟩, ⟨0, 7⟩, ⟨1, 7⟩]) ∧
    (∃ rt, createIntSym (ValueSymmetry [3, 1, 2]) (fun _ => none) =
          some (Except.ok (SymmetryImp.value rt)) ∧
        rt.symmetric ⟨0, 3⟩ [] = some [⟨0, 1⟩, ⟨0, 2⟩, ⟨0, 3⟩] ∧
        rt.symmetric ⟨0, 3⟩ [] ≠ some [⟨0, 3⟩, ⟨0, 1⟩, ⟨0, 2⟩]) :=
  ⟨⟨⟨⟨0, [true, true, true]⟩⟩, rfl, rfl, by decide⟩,
   ⟨⟨⟨1, [true, true, true]⟩⟩, rfl, rfl, by decide⟩⟩

/-- Claim C10, amended: a variable group declared with members bound to the distinct
positions `ps` binds to a runtime whose `symmetric`, on a member literal `(p, k)`,
returns the literals `(q, k)` of all declared positions `q`, each once, in strictly
ascending order of position; a value group declared from a list `ws` of distinct values
returns, on `(v, w)` with `w` declared, the literals `(v, u)` of all declared values,
each once, in strictly ascending order of value.  The result is the declared order when
the declared positions (values) are themselves ascending. -/
theorem symmetric_order_ascending (xs : List VarImpBase) (variableMap : VariableMap)
    (ps : List Int) (hbound : xs.map variableMap = ps.map some) (hps : ps ≠ [])
    (hpd : ps.Nodup) (ws : List Int) (hws : ws ≠ []) (hwd : ws.Nodup)
    (x : ViewArray) (k v : Int) :
    (∃ rt, createIntSym (SymmetryObject.VariableSymmetryObject xs) variableMap =
          some (Except.ok (SymmetryImp.variable rt)) ∧
        ∀ p ∈ ps, ∃ res, rt.symmetric ⟨p, k⟩ x = some res ∧
          res.Perm (ps.map (fun q => Literal.mk q k)) ∧
          res.Pairwise (fun a c => a.var < c.var) ∧
          (ps.Pairwise (· < ·) → res = ps.map (fun q => Literal.mk q k))) ∧
    (∃ rt, createIntSym (ValueSymmetry ws) variableMap =
          some (Except.ok (SymmetryImp.value rt)) ∧
        ∀ w ∈ ws, ∃ res, rt.symmetric ⟨v, w⟩ x = some res ∧
          res.Perm (ws.map (fun u => Literal.mk v u)) ∧
          res.Pairwise (fun a c => a.value < c.value) ∧
          (ws.Pairwise (· < ·) → res = ws.map (fun u => Literal.mk v u))) := by
  constructor
  · obtain ⟨b, hb⟩ := BitSetOffset.ofArray_isSome ps hps
    refine ⟨⟨b⟩, ?_, ?_⟩
    · simp only [createIntSym, resolve_ok _ variableMap xs ps hbound, hb, Option.map_some']
    · intro p hp
      have hm : b.member p := (BitSetOffset.ofArray_member ps b hb p).2 hp
      refine ⟨_, VariableSymmetryImp.symmetric_of_member_var ⟨b⟩ ⟨p, k⟩ x hm, ?_, ?_, ?_⟩
      · exact (BitSetOffset.ofArray_vals_perm ps b hb hpd).map _
      · rw [List.pairwise_map]; exact b.vals_sorted
      · intro hs; rw [BitSetOffset.ofArray_vals_sorted ps b hb hs]
  · have hmem : ∀ m, m ∈ (ws.insertionSort (· ≤ ·)).dedup ↔ m ∈ ws := by
      intro m; rw [List.mem_dedup]; exact (List.perm_insertionSort _ ws).mem_iff
    have hne : (ws.insertionSort (· ≤ ·)).dedup ≠ [] := by
      obtain ⟨w, hw⟩ := List.exists_mem_of_ne_nil ws hws
      exact List.ne_nil_of_mem ((hmem w).2 hw)
    obtain ⟨b, hb⟩ := BitSetOffset.ofArray_isSome _ hne
    have hperm : b.vals.Perm ws := BitSetOffset.ofArray_vals_perm_of_mem _ ws b hb hwd hmem
    refine ⟨⟨b⟩, ?_, ?_⟩
    · simp only [createIntSym, ValueSymmetry, IntSet.ofArgs, hb, Option.map_some']
    · intro w hw
      have hm : b.member w := (b.mem_vals w).1 (hperm.mem_iff.2 hw)
      refine ⟨_, ValueSymmetryImp.symmetric_of_member_value ⟨b⟩ ⟨v, w⟩ x hm, ?_, ?_, ?_⟩
      · exact hperm.map _
      · rw [List.pairwise_map]; exact b.vals_sorted
      · intro hs
        rw [List.eq_of_perm_of_sorted hperm b.vals_sorted hs]

theorem symmetric_order_ascending_witness :
    ([10, 11, 12].map (fun v : VarImpBase => if v = 10 then some (2 : Int)
        else if v = 11 then some 0 else if v = 12 then some 1 else none) =
      [2, 0, 1].map some ∧ ([2, 0, 1] : List Int) ≠ [] ∧ ([2, 0, 1] : List Int).Nodup ∧
      ([3, 1, 2] : List Int) ≠ [] ∧ ([3, 1, 2] : List Int).Nodup) ∧
    ((∃ rt, createIntSym (SymmetryObject.VariableSymmetryObject [10, 11, 12])
          (fun v => if v = 10 then some 2 else if v = 11 then some 0
            else if v = 12 then some 1 else none) =
          some (Except.ok (SymmetryImp.variable rt)) ∧
        ∀ p ∈ ([2, 0, 1] : List Int), ∃ res, rt.symmetric ⟨p, 7⟩ [] = some res ∧
          res.Perm (([2, 0, 1] : List Int).map (fun q => Literal.mk q 7)) ∧
          res.Pairwise (fun a c => a.var < c.var) ∧
          (([2, 0, 1] : List Int).Pairwise (· < ·) →
            res = ([2, 0, 1] : List Int).map (fun q => Literal.mk q 7))) ∧
    (∃ rt, createIntSym (ValueSymmetry [3, 1, 2])
          (fun v => if v = 10 then some 2 else if v = 11 then some 0
            else if v = 12 then some 1 else none) =
          some (Except.ok (SymmetryImp.value rt)) ∧
        ∀ w ∈ ([3, 1, 2] : List Int), ∃ res, rt.symmetric ⟨0, w⟩ [] = some res ∧
          res.Perm (([3, 1, 2] : List Int).map (fun u => Literal.mk 0 u)) ∧
          res.Pairwise (fun a c => a.value < c.value) ∧
          (([3, 1, 2] : List Int).Pairwise (· < ·) →
            res = ([3, 1, 2] : List Int).map (fun u => Literal.mk 0 u)))) :=
  ⟨⟨by decide, by decide, by decide, by decide, by decide⟩,
   symmetric_order_ascending [10, 11, 12] _ [2, 0, 1] (by decide) (by decide) (by decide)
     [3, 1, 2] (by decide) (by decide) [] 7 0⟩

/-! ## Properties: `findVar` and the value sequence symmetry -/

theorem sameState_eq (xv yv : View) : sameState xv yv = bothUnassignedOrEqual xv yv := by
  cases xv <;> cases yv <;> simp [sameState, bothUnassignedOrEqual, View.assigned, View.val]

theorem toU32_natCast (n : Nat) (h : n < 4294967296) : toU32 (n : Int) = n := by
  unfold toU32
  have : ((n : Int) % 4294967296) = (n : Int) := Int.emod_eq_of_lt (by omega) (by omega)
  rw [this]; simp

theorem findVarFrom_absent (indices : List Int) (seq_size : Nat) (index : Int)
    (fuel i seq pos : Nat) (hlen : i + fuel ≤ indices.length)
    (habs : ∀ j, i ≤ j → j < i + fuel → indices[j]? ≠ some index) :
    findVarFrom indices seq_size index fuel i seq pos = some (-1, -1) := by
  induction fuel generalizing i seq pos with
  | zero => rfl
  | succ n ih =>
    unfold findVarFrom
    have hi : i < indices.length := by omega
    rw [List.getElem?_eq_getElem hi]
    have hne : indices[i] ≠ index := by
      intro h
      exact habs i (le_refl _) (by omega) (by rw [List.getElem?_eq_getElem hi, h])
    simp only [if_neg hne]
    split_ifs
    · exact ih (i + 1) (seq + 1) 0 (by omega) (fun j h1 h2 => habs j (by omega) (by omega))
    · exact ih (i + 1) seq (pos + 1) (by omega) (fun j h1 h2 => habs j (by omega) (by omega))

theorem findVarFrom_found (indices : List Int) (seq_size : Nat) (index : Int)
    (hss : 1 ≤ seq_size) (fuel i seq pos j : Nat) (hinv : i = seq * seq_size + pos)
    (hpos : pos < seq_size) (hij : i ≤ j) (hj : j < i + fuel)
    (hjv : indices[j]? = some index)
    (hfirst : ∀ j', i ≤ j' → j' < j → indices[j']? ≠ some index) :
    findVarFrom indices seq_size index fuel i seq pos =
      some (((j / seq_size : Nat) : Int), ((j % seq_size : Nat) : Int)) := by
  induction fuel generalizing i seq pos with
  | zero => omega
  | succ n ih =>
    unfold findVarFrom
    have hjl : j < indices.length := by
      by_contra hc
      rw [List.getElem?_eq_none (by omega)] at hjv
      exact absurd hjv (by simp)
    have hi : i < indices.length := by omega
    rw [List.getElem?_eq_getElem hi]
    by_cases heq : indices[i] = index
    · have hji : j = i := by
        by_contra hc
        exact hfirst i (le_refl _) (by omega) (by rw [List.getElem?_eq_getElem hi, heq])
      subst hji
      simp only [if_pos heq]
      have h1 : (seq * seq_size + pos) / seq_size = seq := by
        rw [Nat.add_comm, Nat.add_mul_div_right _ _ (by omega), Nat.div_eq_of_lt hpos]
        omega
      have h2 : (seq * seq_size + pos) % seq_size = pos := by
        rw [Nat.add_comm, Nat.add_mul_mod_self_right, Nat.mod_eq_of_lt hpos]
      rw [hinv, h1, h2]
    · have hlt : i < j := by
        rcases Nat.lt_or_ge i j with h | h
        · exact h
        · have hji : j = i := by omega
          subst hji
          rw [List.getElem?_eq_getElem hi] at hjv
          exact absurd (Option.some.inj hjv) heq
      simp only [if_neg heq]
      split_ifs with hp
      · exact ih (i + 1) (seq + 1) 0 (by rw [hinv, Nat.add_mul]; omega) (by omega)
          (by omega) (by omega) (fun j' h1 h2 => hfirst j' (by omega) h2)
      · exact ih (i + 1) seq (pos + 1) (by omega) (by omega) (by omega) (by omega)
          (fun j' h1 h2 => hfirst j' (by omega) h2)

theorem findVar_found (values : List Int) (n_values seq_size : Nat) (index : Int)
    (hss : 1 ≤ seq_size) (hn : n_values = values.length) (i0 : Nat)
    (hv : values[i0]? = some index) (hfirst : ∀ j, j < i0 → values[j]? ≠ some index) :
    findVar values n_values seq_size index =
      some (((i0 / seq_size : Nat) : Int), ((i0 % seq_size : Nat) : Int)) := by
  have hlt : i0 < values.length := by
    by_contra hc
    rw [List.getElem?_eq_none (by omega)] at hv
    exact absurd hv (by simp)
  exact findVarFrom_found values seq_size index hss n_values 0 0 0 i0 (by simp) (by omega)
    (Nat.zero_le _) (by omega) hv (fun j _ h2 => hfirst j h2)

theorem findVar_absent (values : List Int) (n_values seq_size : Nat) (index : Int)
    (hn : n_values = values.length) (habs : index ∉ values) :
    findVar values n_values seq_size index = some (-1, -1) := by
  refine findVarFrom_absent values seq_size index n_values 0 0 0 (by omega) ?_
  intro j _ _ hj
  exact habs (List.getElem?_mem hj)

theorem ValueSequenceSymmetryImp.loop_eq_liveSeqs (s : ValueSequenceSymmetryImp) (l : Literal)
    (seqNum seqPos fuel start : Nat) (hpos : seqPos < s.seq_size)
    (hdead : start + fuel ≤ s.dead_sequences.length)
    (hlen : (start + fuel) * s.seq_size ≤ s.values.length) :
    s.loop l seqNum seqPos fuel start =
      some (((List.range' start fuel).filter
        (fun seq => decide (seq ≠ seqNum) && (s.dead_sequences[seq]? == some false))).map
          (s.image l seqPos)) := by
  induction fuel generalizing start with
  | zero => rfl
  | succ n ih =>
    have hstep : start + 1 + n = start + (n + 1) := by omega
    have ih' := ih (start + 1) (by omega) (by rw [hstep]; exact hlen)
    unfold ValueSequenceSymmetryImp.loop
    rw [List.range'_succ, List.filter_cons]
    by_cases hseq : start = seqNum
    · subst hseq
      simp [ih']
    · have hd : start < s.dead_sequences.length := by omega
      simp only [if_neg hseq, List.getElem?_eq_getElem hd, ih']
      cases hb : s.dead_sequences[start] with
      | true => simp [hseq]
      | false =>
        have hidx : start * s.seq_size + seqPos < s.values.length := by
          have : (start + 1) * s.seq_size ≤ (start + (n + 1)) * s.seq_size :=
            Nat.mul_le_mul_right _ (by omega)
          rw [Nat.add_mul] at this
          omega
        simp [hseq, ValueSequenceSymmetryImp.getVal, ValueSequenceSymmetryImp.image,
          List.getElem?_eq_getElem hidx, List.getD_eq_getElem _ _ hidx]

theorem ValueSequenceSymmetryImp.symmetric_of_first_occurrence (s : ValueSequenceSymmetryImp)
    (l : Literal) (x : ViewArray) (hss : 1 ≤ s.seq_size)
    (hlen : s.values.length = s.n_seqs * s.seq_size) (hn : s.n_values = s.values.length)
    (hdead : s.dead_sequences.length = s.n_seqs) (hsz : s.values.length < 2147483648)
    (i0 : Nat) (hv : s.values[i0]? = some l.value)
    (hfirst : ∀ j, j < i0 → s.values[j]? ≠ some l.value) :
    s.symmetric l x = some ((liveSeqs s.dead_sequences s.n_seqs (i0 / s.seq_size)).map
      (s.image l (i0 % s.seq_size))) := by
  have hlt : i0 < s.values.length := by
    by_contra hc
    rw [List.getElem?_eq_none (by omega)] at hv
    exact absurd hv (by simp)
  have hdiv : i0 / s.seq_size < 4294967296 :=
    lt_of_le_of_lt (Nat.div_le_self _ _) (by omega)
  have hmod : i0 % s.seq_size < 4294967296 :=
    lt_of_le_of_lt (Nat.mod_le _ _) (by omega)
  have hne : ((i0 / s.seq_size : Nat) : Int) ≠ -1 := by
    have h0 : (0 : Int) ≤ ((i0 / s.seq_size : Nat) : Int) := Int.natCast_nonneg _
    omega
  unfold ValueSequenceSymmetryImp.symmetric
  rw [findVar_found s.values s.n_values s.seq_size l.value hss hn i0 hv hfirst]
  simp only [if_neg hne, toU32_natCast _ hdiv, toU32_natCast _ hmod]
  rw [s.loop_eq_liveSeqs l _ _ s.n_seqs 0 (Nat.mod_lt _ (by omega)) (by omega)
    (by rw [Nat.zero_add, hlen])]
  rw [liveSeqs, List.range_eq_range']

theorem ValueSequenceSymmetryImp.symmetric_of_absent_value (s : ValueSequenceSymmetryImp)
    (l : Literal) (x : ViewArray) (hn : s.n_values = s.values.length)
    (habs : l.value ∉ s.values) : s.symmetric l x = some [] := by
  unfold ValueSequenceSymmetryImp.symmetric
  rw [findVar_absent s.values s.n_values s.seq_size l.value hn habs]
  rfl

theorem liveSeqs_grow (D D' : List Bool) (n seq0 : Nat) (hD : D.length = n)
    (hsub : ∀ j : Nat, D[j]? = some true → D'[j]? = some true) :
    liveSeqs D' n seq0 = (liveSeqs D n seq0).filter (fun (j : Nat) => D'[j]? == some false) := by
  unfold liveSeqs
  rw [List.filter_filter]
  apply List.filter_congr
  intro j hj
  have hjn : j < D.length := by rw [hD]; exact List.mem_range.1 hj
  have hDj : D[j]? = some D[j] := List.getElem?_eq_getElem hjn
  cases hb : D[j] with
  | true =>
    have := hsub j (by rw [hDj, hb])
    simp [this]
  | false =>
    rw [hDj, hb]
    simp [Bool.and_comm]

/-- Claim C5: for a value sequence runtime whose value array has `n_seqs` blocks of
`seq_size >= 1` entries, and a literal `l` whose value first occurs at index `i0`
(block `seq0 = i0 / seq_size`, offset `off0 = i0 % seq_size`), `symmetric` returns, in
ascending order of `seq`, exactly the literals `(l.variable, values[seq*seq_size+off0])`
of the sequences `seq < n_seqs` with `seq != seq0` that are not dead (every such read is
inside the array); the result does not depend on the live variables; it is empty when
the value does not occur.  For the values `[10,20,30,40]` with sequence length 2 and no
dead sequence, the literal `(x, 10)` gives `[(x, 30)]`. -/
theorem valueSequence_symmetric_exact (s : ValueSequenceSymmetryImp) (l : Literal)
    (x : ViewArray) (hss : 1 ≤ s.seq_size)
    (hlen : s.values.length = s.n_seqs * s.seq_size) (hn : s.n_values = s.values.length)
    (hdead : s.dead_sequences.length = s.n_seqs) (hsz : s.values.length < 2147483648) :
    (∀ i0, s.values[i0]? = some l.value → (∀ j, j < i0 → s.values[j]? ≠ some l.value) →
      s.symmetric l x = some ((liveSeqs s.dead_sequences s.n_seqs (i0 / s.seq_size)).map
        (s.image l (i0 % s.seq_size))) ∧
      ∀ seq, seq < s.n_seqs → seq * s.seq_size + i0 % s.seq_size < s.values.length) ∧
    (l.value ∉ s.values → s.symmetric l x = some []) ∧
    (∀ x', s.symmetric l x' = s.symmetric l x) ∧
    ((ValueSequenceSymmetryImp.create [10, 20, 30, 40] 2).bind
      (fun r => r.symmetric ⟨l.var, 10⟩ x) = some [⟨l.var, 30⟩]) := by
  refine ⟨?_, s.symmetric_of_absent_value l x hn, fun _ => rfl, rfl⟩
  intro i0 hv hfirst
  refine ⟨s.symmetric_of_first_occurrence l x hss hlen hn hdead hsz i0 hv hfirst, ?_⟩
  intro seq hseq
  have h1 : i0 % s.seq_size < s.seq_size := Nat.mod_lt _ (by omega)
  have h2 : (seq + 1) * s.seq_size ≤ s.n_seqs * s.seq_size :=
    Nat.mul_le_mul_right _ (by omega)
  rw [Nat.add_mul] at h2
  omega

theorem valueSequence_symmetric_exact_witness :
    (1 ≤ (ValueSequenceSymmetryImp.mk [10, 20, 30, 40, 50, 20] 6 2 3
        [false, true, false]).seq_size ∧
      ([10, 20, 30, 40, 50, 20] : List Int)[1]? = some 20 ∧
      (∀ j, j < 1 → ([10, 20, 30, 40, 50, 20] : List Int)[j]? ≠ some 20) ∧
      (41 : Int) ∉ ([10, 20, 30, 40, 50, 20] : List Int)) ∧
    (ValueSequenceSymmetryImp.mk [10, 20, 30, 40, 50, 20] 6 2 3
        [false, true, false]).symmetric ⟨7, 20⟩ [] = some [⟨7, 20⟩] ∧
    (ValueSequenceSymmetryImp.mk [10, 20, 30, 40, 50, 20] 6 2 3
        [false, true, false]).symmetric ⟨7, 41⟩ [] = some [] :=
  ⟨⟨by decide, by decide, by decide, by decide⟩,
   ((valueSequence_symmetric_exact ⟨[10, 20, 30, 40, 50, 20], 6, 2, 3, [false, true, false]⟩
      ⟨7, 20⟩ [] (by decide) (by decide) (by decide) (by decide) (by decide)).1 1
      (by decide) (by decide)).1,
   (valueSequence_symmetric_exact ⟨[10, 20, 30, 40, 50, 20], 6, 2, 3, [false, true, false]⟩
      ⟨7, 41⟩ [] (by decide) (by decide) (by decide) (by decide) (by decide)).2.1
      (by decide)⟩

/-- Claim C7: dead-set monotonicity of the value sequence `symmetric`.  For dead sets
`D` and `D'` (one bit per sequence) with `D` contained in `D'`, the result under `D'` is
a sublist of the result under `D`: it is the list of the images of the sequences that
give an image under `D`, with the sequences that are dead in `D'` deleted, in the same
order; so no sequence that gives an image under `D'` is dead in `D'`. -/
theorem valueSequence_dead_monotone (s : ValueSequenceSymmetryImp) (l : Literal)
    (x : ViewArray) (D D' : List Bool) (hss : 1 ≤ s.seq_size)
    (hlen : s.values.length = s.n_seqs * s.seq_size) (hn : s.n_values = s.values.length)
    (hsz : s.values.length < 2147483648)
    (hD : D.length = s.n_seqs) (hD' : D'.length = s.n_seqs)
    (hsub : ∀ j : Nat, D[j]? = some true → D'[j]? = some true) :
    ∃ res res', ({ s with dead_sequences := D }).symmetric l x = some res ∧
      ({ s with dead_sequences := D' }).symmetric l x = some res' ∧
      res'.Sublist res ∧
      (l.value ∉ s.values → res' = []) ∧
      (∀ i0, s.values[i0]? = some l.value →
        (∀ j, j < i0 → s.values[j]? ≠ some l.value) →
        res = (liveSeqs D s.n_seqs (i0 / s.seq_size)).map (s.image l (i0 % s.seq_size)) ∧
        res' = ((liveSeqs D s.n_seqs (i0 / s.seq_size)).filter
          (fun (j : Nat) => D'[j]? == some false)).map (s.image l (i0 % s.seq_size)) ∧
        ∀ j ∈ (liveSeqs D s.n_seqs (i0 / s.seq_size)).filter
          (fun (j : Nat) => D'[j]? == some false), D'[j]? ≠ some true) := by
  by_cases hmem : l.value ∈ s.values
  · obtain ⟨i0, hv, hfirst⟩ : ∃ i0 : Nat, s.values[i0]? = some l.value ∧
        ∀ j, j < i0 → s.values[j]? ≠ some l.value := by
      have hex : ∃ i : Nat, s.values[i]? = some l.value := by
        obtain ⟨i, hi, h⟩ := List.getElem_of_mem hmem
        exact ⟨i, by rw [List.getElem?_eq_getElem hi, h]⟩
      exact ⟨Nat.find hex, Nat.find_spec hex, fun j hj => Nat.find_min hex hj⟩
    have hres := ValueSequenceSymmetryImp.symmetric_of_first_occurrence { s with dead_sequences := D } l x
      hss hlen hn hD hsz i0 hv hfirst
    have hres' := ValueSequenceSymmetryImp.symmetric_of_first_occurrence { s with dead_sequences := D' } l x
      hss hlen hn hD' hsz i0 hv hfirst
    simp only at hres hres'
    rw [liveSeqs_grow D D' s.n_seqs _ hD hsub] at hres'
    refine ⟨_, _, hres, hres', ?_, fun h => absurd hmem h, ?_⟩
    · exact (List.filter_sublist _).map _
    · intro i1 hv1 hfirst1
      have hi : i1 = i0 := by
        rcases Nat.lt_trichotomy i1 i0 with h | h | h
        · exact absurd hv1 (hfirst i1 h)
        · exact h
        · exact absurd hv (hfirst1 i0 h)
      subst hi
      refine ⟨rfl, rfl, ?_⟩
      intro j hj
      have := (List.mem_filter.1 hj).2
      simp only [beq_iff_eq] at this
      rw [this]; simp
  · have hres := ValueSequenceSymmetryImp.symmetric_of_absent_value { s with dead_sequences := D } l x
      hn hmem
    have hres' := ValueSequenceSymmetryImp.symmetric_of_absent_value { s with dead_sequences := D' } l x
      hn hmem
    refine ⟨[], [], hres, hres', List.Sublist.refl _, fun _ => rfl, ?_⟩
    intro i0 hv _
    exact absurd (List.getElem?_mem hv) hmem

theorem valueSequence_dead_monotone_witness :
    (1 ≤ (ValueSequenceSymmetryImp.mk [10, 20, 30, 40, 50, 60] 6 2 3 []).seq_size ∧
      (∀ j : Nat, ([false, false, false] : List Bool)[j]? = some true →
        ([false, true, false] : List Bool)[j]? = some true)) ∧
    ∃ res res',
      ({ ValueSequenceSymmetryImp.mk [10, 20, 30, 40, 50, 60] 6 2 3 [] with
          dead_sequences := [false, false, false] }).symmetric ⟨7, 10⟩ [] = some res ∧
      ({ ValueSequenceSymmetryImp.mk [10, 20, 30, 40, 50, 60] 6 2 3 [] with
          dead_sequences := [false, true, false] }).symmetric ⟨7, 10⟩ [] = some res' ∧
      res'.Sublist res :=
  ⟨⟨by decide, by intro j h; rcases j with _ | _ | _ | j <;> simp at h⟩,
    (valueSequence_dead_monotone ⟨[10, 20, 30, 40, 50, 60], 6, 2, 3, []⟩ ⟨7, 10⟩ []
      [false, false, false] [false, true, false] (by decide) (by decide) (by decide)
      (by decide) (by decide) (by decide)
      (by intro j h; rcases j with _ | _ | _ | j <;> simp at h)).imp
      (fun _ h => h.imp (fun _ h' => ⟨h'.1, h'.2.1, h'.2.2.1⟩))⟩

/-! ## Properties: the variable sequence symmetry -/

theorem VariableSequenceSymmetryImp.activeFrom_eq (s : VariableSequenceSymmetryImp)
    (x : ViewArray) (f g fuel i : Nat)
    (hf : f + (i + fuel) ≤ s.indices.length) (hg : g + (i + fuel) ≤ s.indices.length)
    (hx : ∀ q ∈ s.indices, q < x.length) :
    s.activeFrom x f g fuel i = some ((List.range' i fuel).all (fun i' =>
      bothUnassignedOrEqual (x.getD (s.indices.getD (f + i') 0) none)
        (x.getD (s.indices.getD (g + i') 0) none))) := by
  induction fuel generalizing i with
  | zero => rfl
  | succ n ih =>
    have h1 : f + i < s.indices.length := by omega
    have h2 : g + i < s.indices.length := by omega
    have h3 : s.indices[f + i] < x.length := hx _ (List.getElem_mem h1)
    have h4 : s.indices[g + i] < x.length := hx _ (List.getElem_mem h2)
    unfold VariableSequenceSymmetryImp.activeFrom
    simp only [List.getElem?_eq_getElem h1, List.getElem?_eq_getElem h2,
      List.getElem?_eq_getElem h3, List.getElem?_eq_getElem h4, sameState_eq,
      List.range'_succ, List.all_cons, List.getD_eq_getElem _ _ h1,
      List.getD_eq_getElem _ _ h2, List.getD_eq_getElem _ _ h3, List.getD_eq_getElem _ _ h4]
    rw [ih (i + 1) (by omega) (by omega)]
    cases bothUnassignedOrEqual x[s.indices[f + i]] x[s.indices[g + i]] <;> simp

theorem block_index_lt (n ss seq i : Nat) (hseq : seq < n) (hi : i ≤ ss) :
    seq * ss + i ≤ n * ss := by
  have h : (seq + 1) * ss ≤ n * ss := Nat.mul_le_mul_right _ (by omega)
  rw [Nat.add_mul] at h
  omega

theorem VariableSequenceSymmetryImp.step_eq (s : VariableSequenceSymmetryImp)
    (l : Literal) (x : ViewArray) (seq0 off0 seq : Nat)
    (hlen : s.indices.length = s.n_seqs * s.seq_size)
    (hx : ∀ q ∈ s.indices, q < x.length)
    (hseq0 : seq0 < s.n_seqs) (hoff : off0 < s.seq_size) (hseq : seq < s.n_seqs) :
    s.step l x seq0 off0 seq =
      some (if s.partner x seq0 off0 seq
        then some (Literal.mk (s.posAt seq off0 : Int) l.value) else none) := by
  unfold VariableSequenceSymmetryImp.step VariableSequenceSymmetryImp.partner
  by_cases hne : seq = seq0
  · simp [hne]
  · have h1 : seq * s.seq_size + off0 < s.indices.length := by
      have := block_index_lt s.n_seqs s.seq_size seq (off0 + 1) hseq (by omega)
      omega
    have h2 : s.indices[seq * s.seq_size + off0] < x.length := hx _ (List.getElem_mem h1)
    have hA := s.activeFrom_eq x (seq0 * s.seq_size) (seq * s.seq_size) s.seq_size 0
      (by have := block_index_lt s.n_seqs s.seq_size seq0 s.seq_size hseq0 (le_refl _); omega)
      (by have := block_index_lt s.n_seqs s.seq_size seq s.seq_size hseq (le_refl _); omega)
      hx
    rw [← List.range_eq_range'] at hA
    simp only [if_neg hne, VariableSequenceSymmetryImp.getVal, List.getElem?_eq_getElem h1,
      List.getElem?_eq_getElem h2, hA, VariableSequenceSymmetryImp.posAt,
      List.getD_eq_getElem _ _ h1, List.getD_eq_getElem _ _ h2]
    cases hv : x[s.indices[seq * s.seq_size + off0]] with
    | some v => simp [View.assigned, hne]
    | none =>
      simp only [View.assigned, Option.isSome_none, Bool.false_eq_true, if_false, ne_eq, hne,
        not_false_eq_true, decide_True, beq_self_eq_true, Bool.and_self, Bool.true_and]
      cases (List.range s.seq_size).all (fun i =>
        bothUnassignedOrEqual (x.getD (s.indices.getD (seq0 * s.seq_size + i) 0) none)
          (x.getD (s.indices.getD (seq * s.seq_size + i) 0) none)) <;> simp

theorem VariableSequenceSymmetryImp.loop_eq_partners (s : VariableSequenceSymmetryImp)
    (l : Literal) (x : ViewArray) (seq0 off0 fuel start : Nat)
    (hlen : s.indices.length = s.n_seqs * s.seq_size)
    (hx : ∀ q ∈ s.indices, q < x.length)
    (hseq0 : seq0 < s.n_seqs) (hoff : off0 < s.seq_size) (hfuel : start + fuel ≤ s.n_seqs) :
    s.loop l x seq0 off0 fuel start =
      some (((List.range' start fuel).filter (s.partner x seq0 off0)).map
        (fun seq => Literal.mk (s.posAt seq off0 : Int) l.value)) := by
  induction fuel generalizing start with
  | zero => rfl
  | succ n ih =>
    unfold VariableSequenceSymmetryImp.loop
    rw [s.step_eq l x seq0 off0 start hlen hx hseq0 hoff (by omega), ih (start + 1) (by omega),
      List.range'_succ, List.filter_cons]
    cases s.partner x seq0 off0 start <;> simp

theorem VariableSequenceSymmetryImp.symmetric_of_lookup (s : VariableSequenceSymmetryImp)
    (l : Literal) (x : ViewArray) (v p : Nat) (hss : 1 ≤ s.seq_size)
    (hlen : s.indices.length = s.n_seqs * s.seq_size)
    (hsz : s.indices.length < 2147483648)
    (hx : ∀ q ∈ s.indices, q < x.length)
    (hvar : l.var = (v : Int)) (hv : v < s.lookup_size)
    (hlk : s.lookup[v]? = some (p : Int)) (hp : p < s.indices.length) :
    s.symmetric l x = some (s.images l x (p / s.seq_size) (p % s.seq_size)) := by
  have hp32 : p < 4294967296 := by omega
  have h1 : l.var < (s.lookup_size : Int) := by rw [hvar]; exact_mod_cast hv
  have h2 : ¬ l.var < 0 := by rw [hvar]; omega
  have h3 : ¬ ((p : Int) = -1) := by omega
  have h4 : ¬ s.seq_size = 0 := by omega
  have h5 : l.var.toNat = v := by rw [hvar]; simp
  have h6 : p / s.seq_size < s.n_seqs := by
    rw [hlen, Nat.mul_comm] at hp
    exact Nat.div_lt_of_lt_mul hp
  unfold VariableSequenceSymmetryImp.symmetric
  simp only [if_pos h1, if_neg h2, h5, hlk, if_neg h3, if_neg h4, toU32_natCast p hp32]
  rw [s.loop_eq_partners l x _ _ s.n_seqs 0 hlen hx h6 (Nat.mod_lt _ (by omega)) (by omega)]
  rw [VariableSequenceSymmetryImp.images, List.range_eq_range']

theorem VariableSequenceSymmetryImp.symmetric_of_no_lookup (s : VariableSequenceSymmetryImp)
    (l : Literal) (x : ViewArray)
    (h : (s.lookup_size : Int) ≤ l.var ∨
      ∃ v : Nat, l.var = (v : Int) ∧ v < s.lookup_size ∧ s.lookup[v]? = some (-1)) :
    s.symmetric l x = some [] := by
  unfold VariableSequenceSymmetryImp.symmetric
  rcases h with h | ⟨v, hvar, hv, hlk⟩
  · rw [if_neg (by omega)]
  · have h1 : l.var < (s.lookup_size : Int) := by rw [hvar]; exact_mod_cast hv
    have h2 : ¬ l.var < 0 := by rw [hvar]; omega
    have h5 : l.var.toNat = v := by rw [hvar]; simp
    simp only [if_pos h1, if_neg h2, h5, hlk, if_true]

theorem bothUnassignedOrEqual_iff (xv yv : View) :
    bothUnassignedOrEqual xv yv = true ↔
      (xv = none ∧ yv = none) ∨ ∃ a, xv = some a ∧ yv = some a := by
  cases xv <;> cases yv <;> simp [bothUnassignedOrEqual, eq_comm]

theorem VariableSequenceSymmetryImp.partner_iff (s : VariableSequenceSymmetryImp)
    (x : ViewArray) (seq0 off0 seq : Nat) :
    s.partner x seq0 off0 seq = true ↔
      seq ≠ seq0 ∧ x.getD (s.posAt seq off0) none = none ∧
      ∀ i, i < s.seq_size →
        (x.getD (s.posAt seq0 i) none = none ∧ x.getD (s.posAt seq i) none = none) ∨
        ∃ a, x.getD (s.posAt seq0 i) none = some a ∧ x.getD (s.posAt seq i) none = some a := by
  unfold VariableSequenceSymmetryImp.partner
  simp only [Bool.and_eq_true, decide_eq_true_eq, beq_iff_eq, List.all_eq_true, List.mem_range,
    bothUnassignedOrEqual_iff, and_assoc]

/-- Claim C4: for a variable sequence runtime whose position array has `n_seqs` blocks of
`seq_size >= 1` entries, all of them positions of the live variable array `x`, and whose
lookup maps `l.variable` to an index `p` of the position array: with `seq0 = p / seq_size`
and `off0 = p % seq_size`, `symmetric(l, x)` is the list, in ascending order of `seq`, of
the literals `(indices[seq*seq_size + off0], l.value)` over the `seq < n_seqs` with
`seq != seq0`, `x[indices[seq*seq_size + off0]]` unassigned and, at every offset
`i < seq_size`, `x[indices[seq0*seq_size + i]]` and `x[indices[seq*seq_size + i]]` both
unassigned or both assigned to equal values (all these reads are inside the arrays).
If `l.variable` is at or beyond `lookup_size`, or is a position marked `-1`, the result
is empty. -/
theorem variableSequence_symmetric_exact (s : VariableSequenceSymmetryImp) (l : Literal)
    (x : ViewArray) (hss : 1 ≤ s.seq_size)
    (hlen : s.indices.length = s.n_seqs * s.seq_size)
    (hsz : s.indices.length < 2147483648)
    (hx : ∀ q ∈ s.indices, q < x.length) :
    (∀ v p : Nat, l.var = (v : Int) → v < s.lookup_size → s.lookup[v]? = some (p : Int) →
      p < s.indices.length →
      s.symmetric l x = some (s.images l x (p / s.seq_size) (p % s.seq_size))) ∧
    (∀ seq0 off0 seq, s.partner x seq0 off0 seq = true ↔
      seq ≠ seq0 ∧ x.getD (s.posAt seq off0) none = none ∧
      ∀ i, i < s.seq_size →
        (x.getD (s.posAt seq0 i) none = none ∧ x.getD (s.posAt seq i) none = none) ∨
        ∃ a, x.getD (s.posAt seq0 i) none = some a ∧ x.getD (s.posAt seq i) none = some a) ∧
    (∀ seq i, seq < s.n_seqs → i < s.seq_size →
      seq * s.seq_size + i < s.indices.length ∧ s.posAt seq i < x.length) ∧
    (((s.lookup_size : Int) ≤ l.var ∨
        ∃ v : Nat, l.var = (v : Int) ∧ v < s.lookup_size ∧ s.lookup[v]? = some (-1)) →
      s.symmetric l x = some []) := by
  refine ⟨?_, s.partner_iff x, ?_, s.symmetric_of_no_lookup l x⟩
  · intro v p hvar hv hlk hp
    exact s.symmetric_of_lookup l x v p hss hlen hsz hx hvar hv hlk hp
  · intro seq i hseq hi
    have h1 : seq * s.seq_size + i < s.indices.length := by
      have := block_index_lt s.n_seqs s.seq_size seq (i + 1) hseq (by omega)
      omega
    refine ⟨h1, ?_⟩
    rw [VariableSequenceSymmetryImp.posAt, List.getD_eq_getElem _ _ h1]
    exact hx _ (List.getElem_mem h1)

theorem variableSequence_symmetric_exact_witness :
    (1 ≤ (VariableSequenceSymmetryImp.mk [4, 1, 0, 3, 5, 2] 2 3 [2, 1, 5, 3, 0, 4] 6).seq_size ∧
      (∀ q ∈ (VariableSequenceSymmetryImp.mk [4, 1, 0, 3, 5, 2] 2 3
        [2, 1, 5, 3, 0, 4] 6).indices, q < [some 8, none, none, none, some 8, none].length)) ∧
    (VariableSequenceSymmetryImp.mk [4, 1, 0, 3, 5, 2] 2 3 [2, 1, 5, 3, 0, 4] 6).symmetric
      ⟨1, 9⟩ [some 8, none, none, none, some 8, none] = some [⟨3, 9⟩] ∧
    (VariableSequenceSymmetryImp.mk [4, 1, 0, 3, 5, 2] 2 3 [2, 1, 5, 3, 0, 4] 6).symmetric
      ⟨6, 9⟩ [some 8, none, none, none, some 8, none] = some [] :=
  ⟨⟨by decide, by decide⟩,
   (variableSequence_symmetric_exact ⟨[4, 1, 0, 3, 5, 2], 2, 3, [2, 1, 5, 3, 0, 4], 6⟩ ⟨1, 9⟩
      [some 8, none, none, none, some 8, none] (by decide) (by decide) (by decide)
      (by decide)).1 1 1 rfl (by decide) rfl (by decide),
   (variableSequence_symmetric_exact ⟨[4, 1, 0, 3, 5, 2], 2, 3, [2, 1, 5, 3, 0, 4], 6⟩ ⟨6, 9⟩
      [some 8, none, none, none, some 8, none] (by decide) (by decide) (by decide)
      (by decide)).2.2.2 (Or.inl (by decide))⟩

/-! ## Properties: the lookup table built by the constructor -/

theorem foldl_max_ge_nat (rest : List Nat) (init : Nat) :
    init ≤ rest.foldl (fun m v => if v > m then v else m) init ∧
    ∀ v ∈ rest, v ≤ rest.foldl (fun m v => if v > m then v else m) init := by
  induction rest generalizing init with
  | nil => simp
  | cons a t ih =>
    simp only [List.foldl_cons, List.mem_cons, forall_eq_or_imp]
    split_ifs with hc
    · obtain ⟨h1, h2⟩ := ih a
      exact ⟨by omega, h1, h2⟩
    · obtain ⟨h1, h2⟩ := ih init
      exact ⟨h1, by omega, h2⟩

theorem fillLookup_spec (ps : List Nat) (i : Nat) (lk : List Int) (hd : ps.Nodup)
    (hlt : ∀ p ∈ ps, p < lk.length) (hneg : ∀ p ∈ ps, lk[p]? = some (-1)) :
    (∀ j p : Nat, ps[j]? = some p → (fillLookup ps i lk)[p]? = some ((i + j : Nat) : Int)) ∧
    (∀ q, q ∉ ps → (fillLookup ps i lk)[q]? = lk[q]?) := by
  induction ps generalizing i lk with
  | nil => simp [fillLookup]
  | cons a t ih =>
    obtain ⟨hat, hdt⟩ := List.nodup_cons.1 hd
    have ha : lk[a]? = some (-1) := hneg a (List.mem_cons_self _ _)
    have hal : a < lk.length := hlt a (List.mem_cons_self _ _)
    have hset : ∀ q, q ≠ a → (lk.set a (i : Int))[q]? = lk[q]? := by
      intro q hq
      rw [List.getElem?_set]
      simp [Ne.symm hq]
    obtain ⟨ih1, ih2⟩ := ih (i + 1) (lk.set a (i : Int)) hdt
      (fun p hp => by rw [List.length_set]; exact hlt p (List.mem_cons_of_mem _ hp))
      (fun p hp => by
        rw [hset p (fun h => hat (h ▸ hp))]
        exact hneg p (List.mem_cons_of_mem _ hp))
    simp only [fillLookup, ha, if_true]
    constructor
    · intro j p hj
      cases j with
      | zero =>
        simp only [List.getElem?_cons_zero, Option.some.injEq] at hj
        subst hj
        rw [ih2 a hat, List.getElem?_set]
        simp [hal]
      | succ j =>
        simp only [List.getElem?_cons_succ] at hj
        rw [ih1 j p hj]
        congr 2
        omega
    · intro q hq
      rw [ih2 q (fun h => hq (List.mem_cons_of_mem _ h))]
      exact hset q (fun h => hq (h ▸ List.mem_cons_self _ _))

theorem VariableSequenceSymmetryImp.create_spec (ps : List Nat) (L : Nat) (hps : ps ≠ [])
    (hL : L ≠ 0) (h32 : ∀ p ∈ ps, p < 4294967296) (hd : ps.Nodup) :
    ∃ rt, VariableSequenceSymmetryImp.create (ps.map (fun (p : Nat) => (p : Int))) L = some rt ∧
      rt.indices = ps ∧ rt.seq_size = L ∧ rt.n_seqs = ps.length / L ∧
      ∀ j p : Nat, ps[j]? = some p → p < rt.lookup_size ∧ rt.lookup[p]? = some (j : Int) := by
  have hmap : (ps.map (fun (p : Nat) => (p : Int))).map toU32 = ps := by
    rw [List.map_map]
    conv_rhs => rw [← List.map_id ps]
    apply List.map_congr_left
    intro p hp
    exact toU32_natCast p (h32 p hp)
  cases ps with
  | nil => exact absurd rfl hps
  | cons first rest =>
    simp only [List.map_cons, List.cons.injEq] at hmap
    obtain ⟨hfirst, hrest⟩ := hmap
    have hc : VariableSequenceSymmetryImp.create
        ((first :: rest).map (fun (p : Nat) => (p : Int))) L =
        some { indices := first :: rest
               seq_size := L
               n_seqs := (first :: rest).length / L
               lookup := fillLookup (first :: rest) 0 (List.replicate
                 ((first :: rest).foldl (fun m v => if v > m then v else m) first + 1) (-1))
               lookup_size :=
                 (first :: rest).foldl (fun m v => if v > m then v else m) first + 1 } := by
      simp only [VariableSequenceSymmetryImp.create, List.map_cons, if_neg hL, hfirst, hrest,
        List.length_cons, List.length_map]
    refine ⟨_, hc, rfl, rfl, rfl, ?_⟩
    intro j p hj
    obtain ⟨_, hmax⟩ := foldl_max_ge_nat (first :: rest) first
    have hp : p ∈ first :: rest := List.getElem?_mem hj
    have hlt : ∀ q ∈ first :: rest, q < (List.replicate
        ((first :: rest).foldl (fun m v => if v > m then v else m) first + 1)
        (-1 : Int)).length := by
      intro q hq
      rw [List.length_replicate]
      exact Nat.lt_succ_of_le (hmax q hq)
    obtain ⟨h1, _⟩ := fillLookup_spec (first :: rest) 0 _ hd hlt (fun q hq => by
      have := hlt q hq
      rw [List.length_replicate] at this
      rw [List.getElem?_replicate, if_pos this])
    refine ⟨Nat.lt_succ_of_le (hmax p hp), ?_⟩
    simp only
    rw [h1 j p hj, Nat.zero_add]

theorem nodup_length_le_of_lt (ps : List Nat) (n : Nat) (hd : ps.Nodup)
    (h : ∀ q ∈ ps, q < n) : ps.length ≤ n := by
  have hsub : ps ⊆ List.range n := fun q hq => List.mem_range.2 (h q hq)
  have := (List.subperm_of_subset hd hsub).length_le
  rwa [List.length_range] at this

/-- Claim C6: for the variable sequence runtime built from two sequences `S0` and `S1` of
length `L` over pairwise distinct positions of the live array `x`: if at some offset
`i < L` the variable `S0[i]` is assigned and `S1[i]` is assigned to a different value,
then for every offset `off0 < L` and every value `k`, `symmetric` on `(S0[off0], k)`
returns a sequence that holds no literal whose variable is `S1[off0]`. -/
theorem variableSequence_misaligned_no_image (S0 S1 : List Nat) (L : Nat) (x : ViewArray)
    (hL0 : S0.length = L) (hL1 : S1.length = L) (hd : (S0 ++ S1).Nodup)
    (hx : ∀ q ∈ S0 ++ S1, q < x.length) (hxs : x.length < 2147483648)
    (i q0 q1 : Nat) (a b : Int) (hq0 : S0[i]? = some q0) (hq1 : S1[i]? = some q1)
    (ha : x[q0]? = some (some a)) (hb : x[q1]? = some (some b)) (hab : a ≠ b)
    (off0 p0 p1 : Nat) (hp0 : S0[off0]? = some p0) (_hp1 : S1[off0]? = some p1) (k : Int) :
    ∃ rt res,
      VariableSequenceSymmetryImp.create ((S0 ++ S1).map (fun (p : Nat) => (p : Int))) L =
        some rt ∧
      rt.symmetric ⟨(p0 : Int), k⟩ x = some res ∧ ∀ lit ∈ res, lit.var ≠ (p1 : Int) := by
  have hi : i < L := by
    rw [← hL0]; exact (List.getElem?_eq_some.1 hq0).1
  have hoff : off0 < L := by
    rw [← hL0]; exact (List.getElem?_eq_some.1 hp0).1
  have hne : S0 ++ S1 ≠ [] := by
    intro h
    have : (S0 ++ S1).length = 0 := by rw [h]; rfl
    rw [List.length_append] at this
    omega
  have hlen2 : (S0 ++ S1).length = L + L := by rw [List.length_append, hL0, hL1]
  have hle : (S0 ++ S1).length ≤ x.length := nodup_length_le_of_lt _ _ hd hx
  obtain ⟨rt, hrt, hind, hss, hns, hlk⟩ := VariableSequenceSymmetryImp.create_spec
    (S0 ++ S1) L hne (by omega) (fun q hq => by have := hx q hq; omega) hd
  have hns2 : rt.n_seqs = 2 := by
    rw [hns, hlen2]
    have : L + L = 2 * L := by omega
    rw [this, Nat.mul_div_cancel _ (by omega : 0 < L)]
  have hget0 : ∀ (j q : Nat), S0[j]? = some q → (S0 ++ S1)[j]? = some q := by
    intro j q h
    rw [List.getElem?_append_left (List.getElem?_eq_some.1 h).1]; exact h
  have hget1 : ∀ (j q : Nat), S1[j]? = some q → (S0 ++ S1)[L + j]? = some q := by
    intro j q h
    rw [List.getElem?_append_right (by omega), hL0, Nat.add_sub_cancel_left]; exact h
  obtain ⟨hlt0, hlk0⟩ := hlk off0 p0 (hget0 off0 p0 hp0)
  have hfound := rt.symmetric_of_lookup ⟨(p0 : Int), k⟩ x p0 off0 (by omega)
    (by rw [hind, hlen2, hns2, hss]; omega) (by rw [hind]; omega) (by rw [hind]; exact hx)
    rfl hlt0 hlk0 (by rw [hind, hlen2]; omega)
  rw [hss, Nat.div_eq_of_lt hoff, Nat.mod_eq_of_lt hoff] at hfound
  have hp1f : rt.partner x 0 off0 1 = false := by
    rw [Bool.eq_false_iff]
    intro h
    obtain ⟨_, _, hall⟩ := (rt.partner_iff x 0 off0 1).1 h
    have h0 : rt.posAt 0 i = q0 := by
      rw [VariableSequenceSymmetryImp.posAt, hind, hss, Nat.zero_mul, Nat.zero_add,
        List.getD_eq_getElem?_getD, hget0 i q0 hq0]; rfl
    have h1 : rt.posAt 1 i = q1 := by
      rw [VariableSequenceSymmetryImp.posAt, hind, hss, Nat.one_mul,
        List.getD_eq_getElem?_getD, hget1 i q1 hq1]; rfl
    have hxa : x.getD q0 none = some a := by rw [List.getD_eq_getElem?_getD, ha]; rfl
    have hxb : x.getD q1 none = some b := by rw [List.getD_eq_getElem?_getD, hb]; rfl
    rcases hall i (by rw [hss]; exact hi) with ⟨h2, _⟩ | ⟨c, h2, h3⟩
    · rw [h0, hxa] at h2; exact absurd h2 (by simp)
    · rw [h0, hxa] at h2
      rw [h1, hxb] at h3
      exact hab ((Option.some.inj h2).trans (Option.some.inj h3).symm)
  have hp0f : rt.partner x 0 off0 0 = false := by
    simp [VariableSequenceSymmetryImp.partner]
  have himg : rt.images ⟨(p0 : Int), k⟩ x 0 off0 = [] := by
    rw [VariableSequenceSymmetryImp.images, hns2]
    simp [List.range_succ, hp0f, hp1f]
  rw [himg] at hfound
  exact ⟨rt, [], hrt, hfound, fun lit h => absurd h (List.not_mem_nil _)⟩

theorem variableSequence_misaligned_no_image_witness :
    ((([4, 1] : List Nat) ++ [0, 3]).Nodup ∧
      (∀ q ∈ ([4, 1] : List Nat) ++ [0, 3], q < [some 8, none, none, none, some 6].length) ∧
      ([some 8, none, none, none, some 6] : ViewArray)[4]? = some (some 6) ∧
      ([some 8, none, none, none, some 6] : ViewArray)[0]? = some (some 8) ∧
      (6 : Int) ≠ 8) ∧
    ∃ rt res,
      VariableSequenceSymmetryImp.create
        ((([4, 1] : List Nat) ++ [0, 3]).map (fun (p : Nat) => (p : Int))) 2 = some rt ∧
      rt.symmetric ⟨((1 : Nat) : Int), 9⟩ [some 8, none, none, none, some 6] = some res ∧
      ∀ lit ∈ res, lit.var ≠ ((3 : Nat) : Int) :=
  ⟨⟨by decide, by decide, by decide, by decide, by decide⟩,
   variableSequence_misaligned_no_image [4, 1] [0, 3] 2 [some 8, none, none, none, some 6]
     rfl rfl (by decide) (by decide) (by decide) 0 4 0 6 8 rfl rfl rfl rfl (by decide)
     1 1 3 rfl rfl 9⟩

/-- Claim C8, refuted as stated: for the runtime built from the members `[a,b,c,d]`
(bound to the positions `0,1,2,3`) with sequence length 2, in the state where `a` and `c`
are assigned 5 and `b` and `d` are unassigned, `symmetric` on `(a, 9)` returns the empty
sequence, not `[(c, 9)]`: the candidate `c` is assigned, so its sequence is skipped. -/
theorem variableSequence_scenario_counterexample :
    ∃ rt, createIntSym (SymmetryObject.VariableSequenceSymmetryObject [10, 11, 12, 13] 2)
        (fun v => if v = 10 then some 0 else if v = 11 then some 1
          else if v = 12 then some 2 else if v = 13 then some 3 else none) =
          some (Except.ok (SymmetryImp.variableSequence rt)) ∧
      rt.symmetric ⟨0, 9⟩ [some 5, none, some 5, none] = some [] ∧
      rt.symmetric ⟨0, 9⟩ [some 5, none, some 5, none] ≠ some [⟨2, 9⟩] :=
  ⟨⟨[0, 1, 2, 3], 2, 2, [0, 1, 2, 3], 4⟩, rfl, rfl, by decide⟩

/-- Claim C8, amended: for the variable sequence runtime built from members `[a,b,c,d]`
bound to pairwise distinct positions, with sequence length 2, in a state where `a` and
`c` are assigned 5 and `b` and `d` are unassigned, `symmetric` on the literal `(a, 9)`
returns the empty sequence (the candidate `c` is assigned), and `symmetric` on the
literal `(b, 9)` returns exactly `[(d, 9)]`. -/
theorem variableSequence_scenario (xs : List VarImpBase) (variableMap : VariableMap)
    (a b c d : Nat) (x : ViewArray)
    (hbound : xs.map variableMap = [some (a : Int), some (b : Int), some (c : Int),
      some (d : Int)])
    (hd : [a, b, c, d].Nodup) (hxs : x.length < 2147483648)
    (ha : x[a]? = some (some 5)) (hb : x[b]? = some none)
    (hc : x[c]? = some (some 5)) (hdd : x[d]? = some none) :
    ∃ rt, createIntSym (SymmetryObject.VariableSequenceSymmetryObject xs 2) variableMap =
        some (Except.ok (SymmetryImp.variableSequence rt)) ∧
      rt.symmetric ⟨(a : Int), 9⟩ x = some [] ∧
      rt.symmetric ⟨(b : Int), 9⟩ x = some [⟨(d : Int), 9⟩] := by
  have hlt : ∀ q ∈ [a, b, c, d], q < x.length := by
    intro q hq
    simp only [List.mem_cons, List.mem_singleton, List.not_mem_nil, or_false] at hq
    rcases hq with rfl | rfl | rfl | rfl
    · exact (List.getElem?_eq_some.1 ha).1
    · exact (List.getElem?_eq_some.1 hb).1
    · exact (List.getElem?_eq_some.1 hc).1
    · exact (List.getElem?_eq_some.1 hdd).1
  obtain ⟨rt, hrt, hind, hss, hns, hlk⟩ := VariableSequenceSymmetryImp.create_spec
    [a, b, c, d] 2 (by simp) (by decide) (fun q hq => by have := hlt q hq; omega) hd
  have hns2 : rt.n_seqs = 2 := by rw [hns]; simp
  have hp00 : rt.posAt 0 0 = a := by simp [VariableSequenceSymmetryImp.posAt, hind]
  have hp01 : rt.posAt 0 1 = b := by simp [VariableSequenceSymmetryImp.posAt, hind]
  have hp10 : rt.posAt 1 0 = c := by simp [VariableSequenceSymmetryImp.posAt, hind, hss]
  have hp11 : rt.posAt 1 1 = d := by simp [VariableSequenceSymmetryImp.posAt, hind, hss]
  have hself : ∀ off, rt.partner x 0 off 0 = false := by
    intro off; simp [VariableSequenceSymmetryImp.partner]
  have hpA : rt.partner x 0 0 1 = false := by
    simp [VariableSequenceSymmetryImp.partner, hp10, hc]
  have hpB : rt.partner x 0 1 1 = true := by
    simp [VariableSequenceSymmetryImp.partner, hss, List.range_succ, hp00, hp01, hp10, hp11,
      ha, hb, hc, hdd, bothUnassignedOrEqual]
  refine ⟨rt, ?_, ?_, ?_⟩
  · have hres : resolve "VariableSequenceSymmetryObject::createInt" variableMap xs =
        Except.ok [(a : Int), (b : Int), (c : Int), (d : Int)] :=
      resolve_ok _ variableMap xs _ (by rw [hbound]; rfl)
    have h2 : toU32 2 = 2 := by decide
    simp only [createIntSym, hres, h2]
    simp only [List.map_cons, List.map_nil] at hrt
    rw [hrt]; rfl
  · obtain ⟨hlt0, hlk0⟩ := hlk 0 a rfl
    have hfound := rt.symmetric_of_lookup ⟨(a : Int), 9⟩ x a 0 (by omega)
      (by rw [hind, hns2, hss]; rfl) (by rw [hind]; simp) (by rw [hind]; exact hlt)
      rfl hlt0 hlk0 (by rw [hind]; simp)
    rw [hfound, hss]
    simp [VariableSequenceSymmetryImp.images, hns2, List.range_succ, List.filter, hself, hpA]
  · obtain ⟨hlt1, hlk1⟩ := hlk 1 b rfl
    have hfound := rt.symmetric_of_lookup ⟨(b : Int), 9⟩ x b 1 (by omega)
      (by rw [hind, hns2, hss]; rfl) (by rw [hind]; simp) (by rw [hind]; exact hlt)
      rfl hlt1 hlk1 (by rw [hind]; simp)
    rw [hfound, hss]
    simp [VariableSequenceSymmetryImp.images, hns2, List.range_succ, List.filter, hself, hpB,
      hp11]

theorem variableSequence_scenario_witness :
    (([10, 11, 12, 13] : List VarImpBase).map
        (fun v => if v = 10 then some (3 : Int) else if v = 11 then some 0
          else if v = 12 then some 1 else if v = 13 then some 4 else none) =
        [some ((3 : Nat) : Int), some ((0 : Nat) : Int), some ((1 : Nat) : Int),
          some ((4 : Nat) : Int)] ∧
      ([3, 0, 1, 4] : List Nat).Nodup) ∧
    ∃ rt, createIntSym (SymmetryObject.VariableSequenceSymmetryObject [10, 11, 12, 13] 2)
        (fun v => if v = 10 then some (3 : Int) else if v = 11 then some 0
          else if v = 12 then some 1 else if v = 13 then some 4 else none) =
        some (Except.ok (SymmetryImp.variableSequence rt)) ∧
      rt.symmetric ⟨((3 : Nat) : Int), 9⟩ [none, some 5, none, some 5, none] = some [] ∧
      rt.symmetric ⟨((0 : Nat) : Int), 9⟩ [none, some 5, none, some 5, none] =
        some [⟨((4 : Nat) : Int), 9⟩] :=
  ⟨⟨by decide, by decide⟩,
   variableSequence_scenario [10, 11, 12, 13] _ 3 0 1 4 [none, some 5, none, some 5, none]
     (by decide) (by decide) (by decide) rfl rfl rfl rfl⟩

/-! ## Properties: the image of the literal itself -/

theorem VariableSequenceSymmetryImp.step_some (s : VariableSequenceSymmetryImp)
    (l : Literal) (x : ViewArray) (seqNum seqPos seq : Nat) (lit : Literal)
    (h : s.step l x seqNum seqPos seq = some (some lit)) :
    seq ≠ seqNum ∧ ∃ q : Nat, s.indices[seq * s.seq_size + seqPos]? = some q ∧
      lit = ⟨(q : Int), l.value⟩ := by
  unfold VariableSequenceSymmetryImp.step at h
  by_cases hseq : seq = seqNum
  · simp [hseq] at h
  · refine ⟨hseq, ?_⟩
    simp only [if_neg hseq] at h
    cases h1 : s.getVal seq seqPos with
    | none => simp [h1] at h
    | some p =>
      cases h2 : x[p]? with
      | none => simp [h1, h2] at h
      | some v =>
        by_cases h3 : v.assigned = true
        · simp [h1, h2, h3] at h
        · cases h4 : s.activeFrom x (seqNum * s.seq_size) (seq * s.seq_size) s.seq_size 0 with
          | none => simp [h1, h2, h3, h4] at h
          | some act =>
            cases act with
            | false => simp [h1, h2, h3, h4] at h
            | true =>
              cases h5 : s.indices[seq * s.seq_size + seqPos]? with
              | none => simp [h1, h2, h3, h4, h5] at h
              | some q =>
                simp only [h1, h2, h3, h4, h5, Bool.false_eq_true, if_false, Option.some.injEq]
                  at h
                exact ⟨q, rfl, h.symm⟩

theorem VariableSequenceSymmetryImp.loop_mem (s : VariableSequenceSymmetryImp)
    (l : Literal) (x : ViewArray) (seqNum seqPos fuel start : Nat) (res : List Literal)
    (h : s.loop l x seqNum seqPos fuel start = some res) (lit : Literal) (hlit : lit ∈ res) :
    ∃ seq, seq ≠ seqNum ∧ ∃ q : Nat, s.indices[seq * s.seq_size + seqPos]? = some q ∧
      lit = ⟨(q : Int), l.value⟩ := by
  induction fuel generalizing start res with
  | zero =>
    simp only [VariableSequenceSymmetryImp.loop, Option.some.injEq] at h
    rw [← h] at hlit
    exact absurd hlit (List.not_mem_nil _)
  | succ n ih =>
    unfold VariableSequenceSymmetryImp.loop at h
    cases h1 : s.step l x seqNum seqPos start with
    | none => simp [h1] at h
    | some r =>
      cases h2 : s.loop l x seqNum seqPos n (start + 1) with
      | none => simp [h1, h2] at h
      | some rest =>
        simp only [h1, h2, Option.some.injEq] at h
        rw [← h, List.mem_append] at hlit
        rcases hlit with hl | hl
        · cases r with
          | none => simp at hl
          | some lit' =>
            simp only [Option.toList_some, List.mem_singleton] at hl
            subst hl
            exact ⟨start, s.step_some l x seqNum seqPos start lit h1⟩
        · exact ih (start + 1) rest h2 hl

theorem block_div_eq (seq ss r : Nat) (hr : r < ss) : (seq * ss + r) / ss = seq := by
  rw [Nat.add_comm, Nat.add_mul_div_right _ _ (by omega), Nat.div_eq_of_lt hr]
  omega

theorem VariableSequenceSymmetryImp.self_not_mem (s : VariableSequenceSymmetryImp)
    (l : Literal) (x : ViewArray) (hd : s.indices.Nodup)
    (hlk : ∀ (v : Nat) (p : Int), s.lookup[v]? = some p → p ≠ -1 →
      s.indices[toU32 p]? = some v)
    (res : List Literal) (h : s.symmetric l x = some res) : l ∉ res := by
  unfold VariableSequenceSymmetryImp.symmetric at h
  by_cases h1 : l.var < (s.lookup_size : Int)
  · by_cases h2 : l.var < 0
    · simp [h1, h2] at h
    · cases hlook : s.lookup[l.var.toNat]? with
      | none => simp [h1, h2, hlook] at h
      | some posIt =>
        by_cases h3 : posIt = -1
        · simp only [if_pos h1, if_neg h2, hlook, if_pos h3, Option.some.injEq] at h
          rw [← h]; exact List.not_mem_nil _
        · by_cases h4 : s.seq_size = 0
          · simp [h1, h2, hlook, h3, h4] at h
          · simp only [if_pos h1, if_neg h2, hlook, if_neg h3, if_neg h4] at h
            intro hmem
            obtain ⟨seq, hne, q, hq, hl⟩ := s.loop_mem l x _ _ _ _ res h l hmem
            have hvar : l.var = (q : Int) := by rw [hl]
            have hq' : l.var.toNat = q := by rw [hvar]; simp
            have hP := hlk l.var.toNat posIt hlook h3
            rw [hq'] at hP
            have hlt : toU32 posIt < s.indices.length := (List.getElem?_eq_some.1 hP).1
            have heq := List.getElem?_inj hlt hd (hP.trans hq.symm)
            apply hne
            have := block_div_eq seq s.seq_size (toU32 posIt % s.seq_size)
              (Nat.mod_lt _ (by omega))
            rw [← heq] at this
            exact this.symm
  · simp only [if_neg h1, Option.some.injEq] at h
    rw [← h]; exact List.not_mem_nil _

theorem ValueSequenceSymmetryImp.loop_mem_value (s : ValueSequenceSymmetryImp)
    (l : Literal) (seqNum seqPos fuel start : Nat) (res : List Literal)
    (h : s.loop l seqNum seqPos fuel start = some res) (lit : Literal) (hlit : lit ∈ res) :
    ∃ seq, seq ≠ seqNum ∧ s.values[seq * s.seq_size + seqPos]? = some lit.value ∧
      lit.var = l.var := by
  induction fuel generalizing start res with
  | zero =>
    simp only [ValueSequenceSymmetryImp.loop, Option.some.injEq] at h
    rw [← h] at hlit
    exact absurd hlit (List.not_mem_nil _)
  | succ n ih =>
    unfold ValueSequenceSymmetryImp.loop at h
    by_cases hseq : start = seqNum
    · rw [if_pos hseq] at h
      exact ih (start + 1) res h hlit
    · rw [if_neg hseq] at h
      cases h1 : s.dead_sequences[start]? with
      | none => simp [h1] at h
      | some dead =>
        cases dead with
        | true =>
          simp only [h1] at h
          exact ih (start + 1) res h hlit
        | false =>
          cases h2 : s.getVal start seqPos with
          | none => simp [h1, h2] at h
          | some w =>
            cases h3 : s.loop l seqNum seqPos n (start + 1) with
            | none => simp [h1, h2, h3] at h
            | some rest =>
              simp only [h1, h2, h3, Option.some.injEq] at h
              rw [← h, List.mem_cons] at hlit
              rcases hlit with hl | hl
              · subst hl
                exact ⟨start, hseq, h2, rfl⟩
              · exact ih (start + 1) rest h3 hl

theorem exists_first_index (values : List Int) (w : Int) (h : w ∈ values) :
    ∃ i0 : Nat, values[i0]? = some w ∧ ∀ j, j < i0 → values[j]? ≠ some w := by
  have hex : ∃ i : Nat, values[i]? = some w := by
    obtain ⟨i, hi, h'⟩ := List.getElem_of_mem h
    exact ⟨i, by rw [List.getElem?_eq_getElem hi, h']⟩
  exact ⟨Nat.find hex, Nat.find_spec hex, fun j hj => Nat.find_min hex hj⟩

theorem ValueSequenceSymmetryImp.self_not_mem_value (s : ValueSequenceSymmetryImp)
    (l : Literal) (x : ViewArray) (hss : 1 ≤ s.seq_size) (hn : s.n_values = s.values.length)
    (hsz : s.values.length < 2147483648) (hd : s.values.Nodup)
    (res : List Literal) (h : s.symmetric l x = some res) : l ∉ res := by
  by_cases hmem : l.value ∈ s.values
  · obtain ⟨i0, hv, hfirst⟩ := exists_first_index s.values l.value hmem
    have hlt : i0 < s.values.length := (List.getElem?_eq_some.1 hv).1
    have hdiv : i0 / s.seq_size < 4294967296 :=
      lt_of_le_of_lt (Nat.div_le_self _ _) (by omega)
    have hmod : i0 % s.seq_size < 4294967296 :=
      lt_of_le_of_lt (Nat.mod_le _ _) (by omega)
    have hne : ((i0 / s.seq_size : Nat) : Int) ≠ -1 := by
      have h0 : (0 : Int) ≤ ((i0 / s.seq_size : Nat) : Int) := Int.natCast_nonneg _
      omega
    unfold ValueSequenceSymmetryImp.symmetric at h
    rw [findVar_found s.values s.n_values s.seq_size l.value hss hn i0 hv hfirst] at h
    simp only [if_neg hne, toU32_natCast _ hdiv, toU32_natCast _ hmod] at h
    intro hl
    obtain ⟨seq, hseq, hval, _⟩ := s.loop_mem_value l _ _ _ _ res h l hl
    have heq := List.getElem?_inj hlt hd (hv.trans hval.symm)
    apply hseq
    have := block_div_eq seq s.seq_size (i0 % s.seq_size) (Nat.mod_lt _ (by omega))
    rw [← heq] at this
    exact this.symm
  · rw [s.symmetric_of_absent_value l x hn hmem] at h
    rw [← Option.some.inj h]; exact List.not_mem_nil _

/-- Claim C11, refuted as stated: the variable sequence runtime bound from the members
`[a, b, a, c]` with sequence length 2 (sequences `[a,b]` and `[a,c]`, all variables
unassigned) answers the literal `(a, 1)` with `[(a, 1)]`, the literal itself; the value
sequence runtime of the values `[1, 2, 1, 3]` with sequence length 2 answers `(0, 1)` with
`[(0, 1)]`. -/
theorem sequence_symmetric_self_counterexample :
    (∃ rt, createIntSym
        (VariableSequenceSymmetry [⟨10, [1, 2]⟩, ⟨11, [1, 2]⟩, ⟨10, [1, 2]⟩, ⟨12, [1, 2]⟩] 2)
        (fun v => if v = 10 then some 0 else if v = 11 then some 1
          else if v = 12 then some 2 else none) =
          some (Except.ok (SymmetryImp.variableSequence rt)) ∧
        ∃ res, rt.symmetric ⟨0, 1⟩ [none, none, none] = some res ∧ (⟨0, 1⟩ : Literal) ∈ res) ∧
    (∃ rt, createIntSym (ValueSequenceSymmetry [1, 2, 1, 3] 2) (fun _ => none) =
          some (Except.ok (SymmetryImp.valueSequence rt)) ∧
        ∃ res, rt.symmetric ⟨0, 1⟩ [] = some res ∧ (⟨0, 1⟩ : Literal) ∈ res) :=
  ⟨⟨⟨[0, 1, 0, 2], 2, 2, [0, 1, 3], 3⟩, rfl, [⟨0, 1⟩], rfl, by decide⟩,
   ⟨⟨[1, 2, 1, 3], 4, 2, 2, [false, false]⟩, rfl, [⟨0, 1⟩], rfl, by decide⟩⟩

/-- Claim C11, amended: for a variable sequence runtime whose position array holds
pairwise distinct positions and whose lookup is its inverse (every entry other than `-1`
is the index of its position), and for a value sequence runtime whose value array holds
pairwise distinct values (sequence length at least 1), for every literal `l`, every state
of the live variables and of the dead set, the result of `symmetric(l)` does not contain
`l`. -/
theorem sequence_symmetric_no_self (vs : VariableSequenceSymmetryImp)
    (ws : ValueSequenceSymmetryImp) (l : Literal) (x : ViewArray)
    (hvd : vs.indices.Nodup)
    (hlk : ∀ (v : Nat) (p : Int), vs.lookup[v]? = some p → p ≠ -1 →
      vs.indices[toU32 p]? = some v)
    (hss : 1 ≤ ws.seq_size) (hn : ws.n_values = ws.values.length)
    (hsz : ws.values.length < 2147483648) (hwd : ws.values.Nodup) :
    (∀ res, vs.symmetric l x = some res → l ∉ res) ∧
    (∀ res, ws.symmetric l x = some res → l ∉ res) :=
  ⟨vs.self_not_mem l x hvd hlk, ws.self_not_mem_value l x hss hn hsz hwd⟩

theorem sequence_symmetric_no_self_witness :
    (([4, 1, 0, 3, 5, 2] : List Nat).Nodup ∧ ([10, 20, 30, 40, 50, 60] : List Int).Nodup) ∧
    ((VariableSequenceSymmetryImp.mk [4, 1, 0, 3, 5, 2] 2 3 [2, 1, 5, 3, 0, 4] 6).symmetric
        ⟨1, 9⟩ [some 8, none, none, none, some 8, none] = some [⟨3, 9⟩] ∧
      (⟨1, 9⟩ : Literal) ∉ [(⟨3, 9⟩ : Literal)]) ∧
    ((ValueSequenceSymmetryImp.mk [10, 20, 30, 40, 50, 60] 6 2 3
        [false, true, false]).symmetric ⟨7, 20⟩ [] = some [⟨7, 60⟩] ∧
      (⟨7, 20⟩ : Literal) ∉ [(⟨7, 60⟩ : Literal)]) :=
  ⟨⟨by decide, by decide⟩,
   ⟨rfl, (sequence_symmetric_no_self
      ⟨[4, 1, 0, 3, 5, 2], 2, 3, [2, 1, 5, 3, 0, 4], 6⟩
      ⟨[10, 20, 30, 40, 50, 60], 6, 2, 3, [false, true, false]⟩ ⟨1, 9⟩
      [some 8, none, none, none, some 8, none] (by decide)
      (by
        intro v p h hp
        rcases v with _ | _ | _ | _ | _ | _ | v <;> simp at h <;> subst h <;> rfl)
      (by decide) (by decide) (by decide) (by decide)).1 _ rfl⟩,
   ⟨rfl, (sequence_symmetric_no_self
      ⟨[4, 1, 0, 3, 5, 2], 2, 3, [2, 1, 5, 3, 0, 4], 6⟩
      ⟨[10, 20, 30, 40, 50, 60], 6, 2, 3, [false, true, false]⟩ ⟨7, 20⟩
      [some 8, none, none, none, some 8, none] (by decide)
      (by
        intro v p h hp
        rcases v with _ | _ | _ | _ | _ | _ | v <;> simp at h <;> subst h <;> rfl)
      (by decide) (by decide) (by decide) (by decide)).2 _ rfl⟩⟩

/-! ## Properties: which reads of `symmetric` stay inside the arrays -/

theorem VariableSymmetryImp.symmetric_isSome (s : VariableSymmetryImp) (l : Literal)
    (x : ViewArray) : ∃ res, s.symmetric l x = some res := by
  by_cases h : s.indices.member l.var
  · exact ⟨_, s.symmetric_of_member_var l x h⟩
  · exact ⟨_, s.symmetric_of_not_member_var l x h⟩

theorem ValueSymmetryImp.symmetric_isSome_value (s : ValueSymmetryImp) (l : Literal)
    (x : ViewArray) : ∃ res, s.symmetric l x = some res := by
  by_cases h : s.values.member l.value
  · exact ⟨_, s.symmetric_of_member_value l x h⟩
  · exact ⟨_, s.symmetric_of_not_member_value l x h⟩

theorem ValueSequenceSymmetryImp.symmetric_isSome_valueSequence
    (s : ValueSequenceSymmetryImp) (l : Literal) (x : ViewArray)
    (hlen : s.values.length = s.n_seqs * s.seq_size) (hn : s.n_values = s.values.length)
    (hdead : s.dead_sequences.length = s.n_seqs) (hsz : s.values.length < 2147483648) :
    ∃ res, s.symmetric l x = some res := by
  by_cases hmem : l.value ∈ s.values
  · obtain ⟨i0, hv, hfirst⟩ := exists_first_index s.values l.value hmem
    have hss : 1 ≤ s.seq_size := by
      rcases Nat.eq_zero_or_pos s.seq_size with h0 | h0
      · rw [h0, Nat.mul_zero] at hlen
        rw [List.length_eq_zero.1 hlen] at hmem
        exact absurd hmem (List.not_mem_nil _)
      · exact h0
    exact ⟨_, s.symmetric_of_first_occurrence l x hss hlen hn hdead hsz i0 hv hfirst⟩
  · exact ⟨_, s.symmetric_of_absent_value l x hn hmem⟩

theorem VariableSequenceSymmetryImp.symmetric_isSome_of_nonneg
    (s : VariableSequenceSymmetryImp) (l : Literal) (x : ViewArray) (hss : 1 ≤ s.seq_size)
    (hlen : s.indices.length = s.n_seqs * s.seq_size)
    (hsz : s.indices.length < 2147483648)
    (hx : ∀ q ∈ s.indices, q < x.length)
    (hlksz : s.lookup.length = s.lookup_size)
    (hlkr : ∀ (v : Nat) (p : Int), s.lookup[v]? = some p →
      p = -1 ∨ ∃ i : Nat, p = (i : Int) ∧ i < s.indices.length)
    (hnonneg : 0 ≤ l.var) : ∃ res, s.symmetric l x = some res := by
  by_cases h1 : (s.lookup_size : Int) ≤ l.var
  · exact ⟨_, s.symmetric_of_no_lookup l x (Or.inl h1)⟩
  · have hvar : l.var = ((l.var.toNat : Nat) : Int) := by omega
    have hv : l.var.toNat < s.lookup_size := by omega
    have hget : s.lookup[l.var.toNat]? = some s.lookup[l.var.toNat] :=
      List.getElem?_eq_getElem (by omega)
    rcases hlkr _ _ hget with hm | ⟨i, hi, hilt⟩
    · exact ⟨_, s.symmetric_of_no_lookup l x (Or.inr ⟨_, hvar, hv, by rw [hget, hm]⟩)⟩
    · exact ⟨_, s.symmetric_of_lookup l x _ i hss hlen hsz hx hvar hv (by rw [hget, hi]) hilt⟩

theorem fillLookup_length (ps : List Nat) (i : Nat) (lk : List Int) :
    (fillLookup ps i lk).length = lk.length := by
  induction ps generalizing i lk with
  | nil => rfl
  | cons a t ih =>
    simp only [fillLookup]
    split_ifs
    · rw [ih, List.length_set]
    · exact ih _ _

theorem fillLookup_range (ps : List Nat) (i : Nat) (lk : List Int)
    (h : ∀ (v : Nat) (p : Int), lk[v]? = some p →
      p = -1 ∨ ∃ j : Nat, p = (j : Int) ∧ j < i) :
    ∀ (v : Nat) (p : Int), (fillLookup ps i lk)[v]? = some p →
      p = -1 ∨ ∃ j : Nat, p = (j : Int) ∧ j < i + ps.length := by
  induction ps generalizing i lk with
  | nil =>
    intro v p hp
    rcases h v p hp with h1 | ⟨j, hj, hlt⟩
    · exact Or.inl h1
    · exact Or.inr ⟨j, hj, by simpa using hlt⟩
  | cons a t ih =>
    intro v p hp
    simp only [fillLookup] at hp
    have hlen : i + 1 + t.length = i + (a :: t).length := by
      rw [List.length_cons]
      omega
    split_ifs at hp with hc
    · have hstep : ∀ (w : Nat) (q : Int), (lk.set a (i : Int))[w]? = some q →
          q = -1 ∨ ∃ j : Nat, q = (j : Int) ∧ j < i + 1 := by
        intro w q hq
        by_cases hw : a = w
        · subst hw
          have hlt : a < lk.length := (List.getElem?_eq_some.1 hc).1
          rw [List.getElem?_set_self hlt, Option.some.injEq] at hq
          exact Or.inr ⟨i, hq.symm, by omega⟩
        · rw [List.getElem?_set_ne hw] at hq
          rcases h w q hq with h1 | ⟨j, hj, hjlt⟩
          · exact Or.inl h1
          · exact Or.inr ⟨j, hj, by omega⟩
      have := ih (i + 1) (lk.set a (i : Int)) hstep v p hp
      rwa [hlen] at this
    · have hstep : ∀ (w : Nat) (q : Int), lk[w]? = some q →
          q = -1 ∨ ∃ j : Nat, q = (j : Int) ∧ j < i + 1 := by
        intro w q hq
        rcases h w q hq with h1 | ⟨j, hj, hjlt⟩
        · exact Or.inl h1
        · exact Or.inr ⟨j, hj, by omega⟩
      have := ih (i + 1) lk hstep v p hp
      rwa [hlen] at this

theorem VariableSequenceSymmetryImp.create_lookup_wf (ps : List Int) (L : Nat)
    (rt : VariableSequenceSymmetryImp)
    (h : VariableSequenceSymmetryImp.create ps L = some rt) :
    rt.lookup.length = rt.lookup_size ∧
    ∀ (v : Nat) (p : Int), rt.lookup[v]? = some p →
      p = -1 ∨ ∃ i : Nat, p = (i : Int) ∧ i < rt.indices.length := by
  cases ps with
  | nil => simp [VariableSequenceSymmetryImp.create] at h
  | cons first rest =>
    by_cases hL : L = 0
    · simp [VariableSequenceSymmetryImp.create, hL] at h
    · simp only [VariableSequenceSymmetryImp.create, if_neg hL, Option.some.injEq] at h
      rw [← h]
      refine ⟨by simp only [fillLookup_length, List.length_replicate], ?_⟩
      intro v p hp
      have hbase : ∀ (w : Nat) (q : Int),
          (List.replicate ((List.map toU32 (first :: rest)).foldl
            (fun m v => if v > m then v else m) (toU32 first) + 1) (-1 : Int))[w]? = some q →
          q = -1 ∨ ∃ j : Nat, q = (j : Int) ∧ j < 0 := by
        intro w q hq
        left
        exact (List.eq_of_mem_replicate (List.getElem?_mem hq))
      have := fillLookup_range _ 0 _ hbase v p hp
      rwa [Nat.zero_add] at this

/-- Claim C12, refuted as stated: the claim lets the literal carry any integer as its
variable position, a negative one included.  For the variable sequence runtime bound from
four members at the positions `0, 1, 2, 3` with sequence length 2 (its positions are
valid in the live array and its flat array holds `n_seqs * seq_size` entries), over four
unassigned variables, `symmetric` on the literal `(-1, 9)` passes the only test there is,
`l.variable < lookup_size`, and reads `lookup[-1]`, which is not an entry of the
zero-based table; the variable group runtime over the same positions answers the same
literal with the empty sequence. -/
theorem symmetric_negative_position_reads_outside :
    (∃ rt, createIntSym (SymmetryObject.VariableSequenceSymmetryObject [10, 11, 12, 13] 2)
        (fun v => if v = 10 then some 0 else if v = 11 then some 1
          else if v = 12 then some 2 else if v = 13 then some 3 else none) =
          some (Except.ok (SymmetryImp.variableSequence rt)) ∧
        rt.indices.length = rt.n_seqs * rt.seq_size ∧
        (∀ q ∈ rt.indices, q < [(none : View), none, none, none].length) ∧
        rt.symmetric ⟨-1, 9⟩ [none, none, none, none] = none) ∧
    (∃ rt, createIntSym (SymmetryObject.VariableSymmetryObject [10, 11, 12, 13])
        (fun v => if v = 10 then some 0 else if v = 11 then some 1
          else if v = 12 then some 2 else if v = 13 then some 3 else none) =
          some (Except.ok (SymmetryImp.variable rt)) ∧
        rt.symmetric ⟨-1, 9⟩ [none, none, none, none] = some []) :=
  ⟨⟨⟨[0, 1, 2, 3], 2, 2, [0, 1, 2, 3], 4⟩, rfl, rfl, by decide, rfl⟩,
   ⟨⟨⟨0, [true, true, true, true]⟩⟩, rfl, rfl⟩⟩

/-- Claim C12, amended: `symmetric` returns a (possibly empty) literal sequence, with every
array, lookup table and bit set read inside its bounds, for every literal whose variable
position is not negative, whatever its value and whether or not the position or the value
belongs to the group.  This holds for a variable group and a value group without any
condition (there also for a negative position), for a value sequence runtime whose flat
array holds `n_seqs * seq_size` entries with one dead bit per sequence, and for a
variable sequence runtime whose flat array holds `n_seqs * seq_size` entries, all of them
positions of the live array, and whose lookup table has `lookup_size` entries, each `-1`
or an index of the flat array.  The lookup table is zero-based and tested against its
upper bound only: a negative number, which is no position of the live array, is read
below the table. -/
theorem symmetric_total_nonneg_position (vs : VariableSymmetryImp) (ws : ValueSymmetryImp)
    (s : VariableSequenceSymmetryImp) (t : ValueSequenceSymmetryImp) (l : Literal)
    (x : ViewArray)
    (hlen : s.indices.length = s.n_seqs * s.seq_size)
    (hsz : s.indices.length < 2147483648)
    (hx : ∀ q ∈ s.indices, q < x.length)
    (hlksz : s.lookup.length = s.lookup_size)
    (hlkr : ∀ (v : Nat) (p : Int), s.lookup[v]? = some p →
      p = -1 ∨ ∃ i : Nat, p = (i : Int) ∧ i < s.indices.length)
    (htlen : t.values.length = t.n_seqs * t.seq_size) (htn : t.n_values = t.values.length)
    (htdead : t.dead_sequences.length = t.n_seqs) (htsz : t.values.length < 2147483648) :
    (∃ res, vs.symmetric l x = some res) ∧
    (∃ res, ws.symmetric l x = some res) ∧
    (0 ≤ l.var → ∃ res, s.symmetric l x = some res) ∧
    (l.var < 0 → s.symmetric l x = none) ∧
    (∃ res, t.symmetric l x = some res) := by
  refine ⟨vs.symmetric_isSome l x, ws.symmetric_isSome_value l x, ?_, ?_,
    t.symmetric_isSome_valueSequence l x htlen htn htdead htsz⟩
  · intro hnonneg
    rcases Nat.eq_zero_or_pos s.seq_size with h0 | h0
    · have hemp : s.indices.length = 0 := by rw [hlen, h0, Nat.mul_zero]
      by_cases h1 : (s.lookup_size : Int) ≤ l.var
      · exact ⟨_, s.symmetric_of_no_lookup l x (Or.inl h1)⟩
      · have hvar : l.var = ((l.var.toNat : Nat) : Int) := by omega
        have hv : l.var.toNat < s.lookup_size := by omega
        have hget : s.lookup[l.var.toNat]? = some s.lookup[l.var.toNat] :=
          List.getElem?_eq_getElem (by omega)
        rcases hlkr _ _ hget with hm | ⟨i, _, hilt⟩
        · exact ⟨_, s.symmetric_of_no_lookup l x (Or.inr ⟨_, hvar, hv, by rw [hget, hm]⟩)⟩
        · omega
    · exact s.symmetric_isSome_of_nonneg l x h0 hlen hsz hx hlksz hlkr hnonneg
  · intro hneg
    have hlt : l.var < (s.lookup_size : Int) := by omega
    unfold VariableSequenceSymmetryImp.symmetric
    rw [if_pos hlt, if_pos hneg]

theorem symmetric_total_nonneg_position_witness :
    ((VariableSequenceSymmetryImp.mk [4, 1, 0, 3, 5, 2] 2 3 [2, 1, 5, 3, 0, 4] 6).indices.length
        = 3 * 2 ∧
      (∀ q ∈ (VariableSequenceSymmetryImp.mk [4, 1, 0, 3, 5, 2] 2 3
        [2, 1, 5, 3, 0, 4] 6).indices, q < [some 8, none, none, none, some 8, none].length) ∧
      (0 : Int) ≤ (Literal.mk 1 20).var) ∧
    (∃ res, (VariableSymmetryImp.mk ⟨0, [true, true, true, true]⟩).symmetric ⟨1, 20⟩
      [some 8, none, none, none, some 8, none] = some res) ∧
    (∃ res, (ValueSymmetryImp.mk ⟨10, [true, false, true]⟩).symmetric ⟨1, 20⟩
      [some 8, none, none, none, some 8, none] = some res) ∧
    (∃ res, (VariableSequenceSymmetryImp.mk [4, 1, 0, 3, 5, 2] 2 3
      [2, 1, 5, 3, 0, 4] 6).symmetric ⟨1, 20⟩
      [some 8, none, none, none, some 8, none] = some res) ∧
    (∃ res, (ValueSequenceSymmetryImp.mk [10, 20, 30, 40, 50, 60] 6 2 3
      [false, true, false]).symmetric ⟨1, 20⟩
      [some 8, none, none, none, some 8, none] = some res) :=
  have h := symmetric_total_nonneg_position ⟨⟨0, [true, true, true, true]⟩⟩
    ⟨⟨10, [true, false, true]⟩⟩ ⟨[4, 1, 0, 3, 5, 2], 2, 3, [2, 1, 5, 3, 0, 4], 6⟩
    ⟨[10, 20, 30, 40, 50, 60], 6, 2, 3, [false, true, false]⟩ ⟨1, 20⟩
    [some 8, none, none, none, some 8, none] (by decide) (by decide) (by decide) (by decide)
    (by
      intro v p h
      rcases v with _ | _ | _ | _ | _ | _ | v <;> simp at h <;> subst h <;>
        first
          | exact Or.inr ⟨0, rfl, by decide⟩
          | exact Or.inr ⟨1, rfl, by decide⟩
          | exact Or.inr ⟨2, rfl, by decide⟩
          | exact Or.inr ⟨3, rfl, by decide⟩
          | exact Or.inr ⟨4, rfl, by decide⟩
          | exact Or.inr ⟨5, rfl, by decide⟩)
    (by decide) (by decide) (by decide) (by decide)
  ⟨⟨by decide, by decide, by decide⟩, h.1, h.2.1, h.2.2.1 (by decide), h.2.2.2.2⟩

/-! ## Properties: binding a declaration -/

theorem resolve_error_iff (w : String) (variableMap : VariableMap) (xs : List VarImpBase) :
    (∃ e, resolve w variableMap xs = Except.error e) ↔ ∃ v ∈ xs, variableMap v = none := by
  induction xs with
  | nil => simp [resolve]
  | cons a t ih =>
    simp only [resolve, List.mem_cons, exists_eq_or_imp]
    cases ha : variableMap a with
    | none => simp
    | some index =>
      simp only [false_or, reduceCtorEq]
      rw [← ih]
      cases hr : resolve w variableMap t with
      | error e => simp
      | ok rest => simp

theorem resolve_ok_map (w : String) (variableMap : VariableMap) (xs : List VarImpBase)
    (ps : List Int) (h : resolve w variableMap xs = Except.ok ps) :
    xs.map variableMap = ps.map some := by
  induction xs generalizing ps with
  | nil =>
    simp only [resolve, Except.ok.injEq] at h
    rw [← h]; rfl
  | cons a t ih =>
    simp only [resolve] at h
    cases ha : variableMap a with
    | none => simp [ha] at h
    | some index =>
      cases hr : resolve w variableMap t with
      | error e => simp [ha, hr] at h
      | ok rest =>
        simp only [ha, hr, Except.ok.injEq] at h
        rw [← h, List.map_cons, List.map_cons, ha, ih rest hr]

theorem resolve_total (w : String) (variableMap : VariableMap) (xs : List VarImpBase)
    (h : ∀ v ∈ xs, variableMap v ≠ none) :
    ∃ ps, resolve w variableMap xs = Except.ok ps ∧ ps.length = xs.length := by
  cases hr : resolve w variableMap xs with
  | error e =>
    obtain ⟨v, hv, hnone⟩ := (resolve_error_iff w variableMap xs).1 ⟨e, hr⟩
    exact absurd hnone (h v hv)
  | ok ps =>
    refine ⟨ps, rfl, ?_⟩
    have := congrArg List.length (resolve_ok_map w variableMap xs ps hr)
    simpa using this.symm

theorem VariableSequenceSymmetryImp.create_fields (ps : List Int) (L : Nat)
    (rt : VariableSequenceSymmetryImp)
    (h : VariableSequenceSymmetryImp.create ps L = some rt) :
    rt.indices = ps.map toU32 ∧ rt.seq_size = L ∧ rt.n_seqs = ps.length / L ∧ L ≠ 0 ∧
      ps ≠ [] := by
  cases ps with
  | nil => simp [VariableSequenceSymmetryImp.create] at h
  | cons first rest =>
    by_cases hL : L = 0
    · simp [VariableSequenceSymmetryImp.create, hL] at h
    · simp only [VariableSequenceSymmetryImp.create, if_neg hL, Option.some.injEq] at h
      rw [← h]
      exact ⟨rfl, rfl, rfl, hL, by simp⟩

theorem VariableSequenceSymmetryImp.create_isSome (ps : List Int) (L : Nat) (hps : ps ≠ [])
    (hL : L ≠ 0) : ∃ rt, VariableSequenceSymmetryImp.create ps L = some rt := by
  cases ps with
  | nil => exact absurd rfl hps
  | cons first rest =>
    simp only [VariableSequenceSymmetryImp.create, if_neg hL]
    exact ⟨_, rfl⟩

theorem toU32_ne_zero (ss : Int) (h1 : 1 ≤ ss) (h2 : ss < 4294967296) : toU32 ss ≠ 0 := by
  unfold toU32
  rw [Int.emod_eq_of_lt (by omega) h2]
  omega

/-- Claim C13: binding a variable group or a variable sequence group, with `createIntSym`
or `createBoolSym`, ends with the exception `LDSBBranchingException` if and only if some
declared member has no entry in the variable map; in that case no runtime is returned;
when every member of a declaration with at least one member (and a sequence length of
at least 1) has an entry, the binding returns a runtime. -/
theorem createSym_throws_iff_unbound (xs : List VarImpBase) (ss : Int)
    (variableMap : VariableMap) :
    ((∃ e, createIntSym (SymmetryObject.VariableSymmetryObject xs) variableMap =
        some (Except.error e)) ↔ ∃ v ∈ xs, variableMap v = none) ∧
    ((∃ e, createIntSym (SymmetryObject.VariableSequenceSymmetryObject xs ss) variableMap =
        some (Except.error e)) ↔ ∃ v ∈ xs, variableMap v = none) ∧
    ((∃ e, createBoolSym (SymmetryObject.VariableSymmetryObject xs) variableMap =
        some (Except.error e)) ↔ ∃ v ∈ xs, variableMap v = none) ∧
    ((∃ e, createBoolSym (SymmetryObject.VariableSequenceSymmetryObject xs ss) variableMap =
        some (Except.error e)) ↔ ∃ v ∈ xs, variableMap v = none) ∧
    ((∃ v ∈ xs, variableMap v = none) → ∀ rt,
      createIntSym (SymmetryObject.VariableSymmetryObject xs) variableMap ≠
        some (Except.ok rt) ∧
      createIntSym (SymmetryObject.VariableSequenceSymmetryObject xs ss) variableMap ≠
        some (Except.ok rt) ∧
      createBoolSym (SymmetryObject.VariableSymmetryObject xs) variableMap ≠
        some (Except.ok rt) ∧
      createBoolSym (SymmetryObject.VariableSequenceSymmetryObject xs ss) variableMap ≠
        some (Except.ok rt)) ∧
    ((∀ v ∈ xs, variableMap v ≠ none) → xs ≠ [] →
      (∃ rt, createIntSym (SymmetryObject.VariableSymmetryObject xs) variableMap =
        some (Except.ok (SymmetryImp.variable rt))) ∧
      (∃ rt, createBoolSym (SymmetryObject.VariableSymmetryObject xs) variableMap =
        some (Except.ok (SymmetryImp.variable rt))) ∧
      (1 ≤ ss → ss < 4294967296 →
        (∃ rt, createIntSym (SymmetryObject.VariableSequenceSymmetryObject xs ss)
          variableMap = some (Except.ok (SymmetryImp.variableSequence rt))) ∧
        (∃ rt, createBoolSym (SymmetryObject.VariableSequenceSymmetryObject xs ss)
          variableMap = some (Except.ok (SymmetryImp.variableSequence rt))))) := by
  have key : ∀ w : String, ∀ f : List Int → Option SymmetryImp,
      ((∃ e, (match resolve w variableMap xs with
          | Except.error e => some (Except.error e)
          | Except.ok indices => (f indices).map (fun r => Except.ok r)) =
            some (Except.error e)) ↔ ∃ v ∈ xs, variableMap v = none) := by
    intro w f
    rw [← resolve_error_iff w variableMap xs]
    cases hr : resolve w variableMap xs with
    | error e => simp
    | ok ps => cases hf : f ps <;> simp
  have hI1 := key "VariableSymmetryObject::createInt"
    (fun ps => (BitSetOffset.ofArray ps).map (fun b => SymmetryImp.variable ⟨b⟩))
  have hI2 := key "VariableSequenceSymmetryObject::createInt"
    (fun ps => (VariableSequenceSymmetryImp.create ps (toU32 ss)).map
      SymmetryImp.variableSequence)
  have hB1 := key "VariableSymmetryObject::createBool"
    (fun ps => (BitSetOffset.ofArray ps).map (fun b => SymmetryImp.variable ⟨b⟩))
  have hB2 := key "VariableSequenceSymmetryObject::createBool"
    (fun ps => (VariableSequenceSymmetryImp.create ps (toU32 ss)).map
      SymmetryImp.variableSequence)
  simp only [Option.map_map] at hI1 hI2 hB1 hB2
  have e1 : ((∃ e, createIntSym (SymmetryObject.VariableSymmetryObject xs) variableMap =
        some (Except.error e)) ↔ ∃ v ∈ xs, variableMap v = none) := by
    simpa only [createIntSym, Function.comp_def] using hI1
  have e2 : ((∃ e, createIntSym (SymmetryObject.VariableSequenceSymmetryObject xs ss)
        variableMap = some (Except.error e)) ↔ ∃ v ∈ xs, variableMap v = none) := by
    simpa only [createIntSym, Function.comp_def] using hI2
  have e3 : ((∃ e, createBoolSym (SymmetryObject.VariableSymmetryObject xs) variableMap =
        some (Except.error e)) ↔ ∃ v ∈ xs, variableMap v = none) := by
    simpa only [createBoolSym, Function.comp_def] using hB1
  have e4 : ((∃ e, createBoolSym (SymmetryObject.VariableSequenceSymmetryObject xs ss)
        variableMap = some (Except.error e)) ↔ ∃ v ∈ xs, variableMap v = none) := by
    simpa only [createBoolSym, Function.comp_def] using hB2
  refine ⟨e1, e2, e3, e4, ?_, ?_⟩
  · intro hun rt
    obtain ⟨a1, h1⟩ := e1.2 hun
    obtain ⟨a2, h2⟩ := e2.2 hun
    obtain ⟨a3, h3⟩ := e3.2 hun
    obtain ⟨a4, h4⟩ := e4.2 hun
    rw [h1, h2, h3, h4]
    simp
  · intro hb hne
    obtain ⟨ps, hps, hlen⟩ := resolve_total "VariableSymmetryObject::createInt" variableMap xs hb
    obtain ⟨ps2, hps2, hlen2⟩ :=
      resolve_total "VariableSequenceSymmetryObject::createInt" variableMap xs hb
    obtain ⟨ps3, hps3, hlen3⟩ :=
      resolve_total "VariableSymmetryObject::createBool" variableMap xs hb
    obtain ⟨ps4, hps4, hlen4⟩ :=
      resolve_total "VariableSequenceSymmetryObject::createBool" variableMap xs hb
    have hnil : ∀ qs : List Int, qs.length = xs.length → qs ≠ [] := by
      intro qs hq h
      rw [h] at hq
      exact hne (List.length_eq_zero.1 hq.symm)
    obtain ⟨b, hb1⟩ := BitSetOffset.ofArray_isSome ps (hnil ps hlen)
    obtain ⟨b3, hb3⟩ := BitSetOffset.ofArray_isSome ps3 (hnil ps3 hlen3)
    refine ⟨⟨⟨b⟩, by simp only [createIntSym, hps, hb1, Option.map_some']⟩,
      ⟨⟨b3⟩, by simp only [createBoolSym, hps3, hb3, Option.map_some']⟩, ?_⟩
    intro h1 h2
    have hz := toU32_ne_zero ss h1 h2
    obtain ⟨r2, hr2⟩ := VariableSequenceSymmetryImp.create_isSome ps2 _ (hnil ps2 hlen2) hz
    obtain ⟨r4, hr4⟩ := VariableSequenceSymmetryImp.create_isSome ps4 _ (hnil ps4 hlen4) hz
    exact ⟨⟨r2, by simp only [createIntSym, hps2, hr2, Option.map_some']⟩,
      ⟨r4, by simp only [createBoolSym, hps4, hr4, Option.map_some']⟩⟩

theorem createSym_throws_iff_unbound_witness :
    ((∃ v ∈ ([10, 11] : List VarImpBase),
        (fun v : VarImpBase => if v = 10 then some (0 : Int) else none) v = none) ∧
      ∃ e, createIntSym (SymmetryObject.VariableSymmetryObject [10, 11])
        (fun v => if v = 10 then some 0 else none) = some (Except.error e)) ∧
    ((∀ v ∈ ([10, 11] : List VarImpBase),
        (fun v : VarImpBase => if v = 10 then some (0 : Int) else some 1) v ≠ none) ∧
      ([10, 11] : List VarImpBase) ≠ [] ∧
      ∃ rt, createIntSym (SymmetryObject.VariableSymmetryObject [10, 11])
        (fun v => if v = 10 then some 0 else some 1) =
          some (Except.ok (SymmetryImp.variable rt))) :=
  ⟨⟨⟨11, by decide, by decide⟩,
    (createSym_throws_iff_unbound [10, 11] 2 (fun v => if v = 10 then some 0 else none)).1.2
      ⟨11, by decide, by decide⟩⟩,
   ⟨by decide, by decide,
    ((createSym_throws_iff_unbound [10, 11] 2
      (fun v => if v = 10 then some 0 else some 1)).2.2.2.2.2 (by decide) (by decide)).1⟩⟩

/-- Claim C14: when binding a variable sequence declaration with members
`m_0, ..., m_{n-1}` and sequence length `s` returns a runtime, the position array of the
runtime has length `n`, its `i`-th entry is the position the variable map gives for
`m_i`, the sequence length of the runtime is `s`, and the runtime counts `n / s`
sequences.  Positions and sequence length are non-negative `int`s. -/
theorem createIntSym_variableSequence_layout (xs : List VarImpBase) (ss : Int)
    (variableMap : VariableMap) (rt : VariableSequenceSymmetryImp)
    (h : createIntSym (SymmetryObject.VariableSequenceSymmetryObject xs ss) variableMap =
      some (Except.ok (SymmetryImp.variableSequence rt)))
    (hpos : ∀ v ∈ xs, ∀ p, variableMap v = some p → 0 ≤ p ∧ p < 4294967296)
    (hss : 0 ≤ ss) (hss' : ss < 4294967296) :
    rt.indices.length = xs.length ∧
    (∀ (i : Nat) (m : VarImpBase), xs[i]? = some m →
      ∃ p : Nat, variableMap m = some (p : Int) ∧ rt.indices[i]? = some p) ∧
    (rt.seq_size : Int) = ss ∧
    rt.n_seqs = xs.length / rt.seq_size := by
  simp only [createIntSym] at h
  cases hr : resolve "VariableSequenceSymmetryObject::createInt" variableMap xs with
  | error e => simp [hr] at h
  | ok ps =>
    cases hc : VariableSequenceSymmetryImp.create ps (toU32 ss) with
    | none => simp [hr, hc] at h
    | some rt' =>
      simp only [hr, hc, Option.map_some', Option.some.injEq, Except.ok.injEq,
        SymmetryImp.variableSequence.injEq] at h
      subst h
      obtain ⟨hind, hsz, hns, _, _⟩ := VariableSequenceSymmetryImp.create_fields ps _ rt' hc
      have hmap := resolve_ok_map _ variableMap xs ps hr
      have hlen : ps.length = xs.length := by
        have := congrArg List.length hmap
        simpa using this.symm
      have hu : toU32 ss = ss.toNat := by
        unfold toU32
        rw [Int.emod_eq_of_lt hss hss']
      refine ⟨by rw [hind, List.length_map, hlen], ?_, ?_, ?_⟩
      · intro i m hm
        have hi : i < xs.length := (List.getElem?_eq_some.1 hm).1
        have hpi : ps[i]? = some ps[i] := List.getElem?_eq_getElem (by omega)
        have h1 : (xs.map variableMap)[i]? = (ps.map some)[i]? := by rw [hmap]
        rw [List.getElem?_map, List.getElem?_map, hm, hpi] at h1
        simp only [Option.map_some', Option.some.injEq] at h1
        obtain ⟨h0, h32⟩ := hpos m (List.getElem?_mem hm) _ h1
        refine ⟨ps[i].toNat, by rw [h1]; congr 1; omega, ?_⟩
        rw [hind, List.getElem?_map, hpi, Option.map_some']
        congr 1
        unfold toU32
        rw [Int.emod_eq_of_lt h0 h32]
      · rw [hsz, hu]; omega
      · rw [hns, hlen, hsz]

theorem createIntSym_variableSequence_layout_witness :
    createIntSym (SymmetryObject.VariableSequenceSymmetryObject [10, 11, 12, 13] 2)
        (fun v => if v = 10 then some 3 else if v = 11 then some 0
          else if v = 12 then some 1 else some 4) =
        some (Except.ok (SymmetryImp.variableSequence
          ⟨[3, 0, 1, 4], 2, 2, [1, 2, -1, 0, 3], 5⟩)) ∧
    ([3, 0, 1, 4] : List Nat).length = ([10, 11, 12, 13] : List VarImpBase).length ∧
    (((2 : Nat) : Int) = 2) ∧ (2 : Nat) = ([10, 11, 12, 13] : List VarImpBase).length / 2 :=
  ⟨rfl,
   (createIntSym_variableSequence_layout [10, 11, 12, 13] 2
      (fun v => if v = 10 then some 3 else if v = 11 then some 0
        else if v = 12 then some 1 else some 4)
      ⟨[3, 0, 1, 4], 2, 2, [1, 2, -1, 0, 3], 5⟩ rfl
      (by
        intro v hv p hp
        simp only [List.mem_cons, List.mem_singleton, List.not_mem_nil, or_false] at hv
        rcases hv with rfl | rfl | rfl | rfl <;> simp at hp <;> omega)
      (by decide) (by decide)).1,
   rfl, rfl⟩

/-- Claim C15: binding a value group or a value sequence group never ends with an
exception and does not depend on the variable map; a value sequence group with sequence
length `s >= 1` binds to a runtime with the declared value array (same length, same
entries, same order), sequence length `s`, and no dead sequence; a value group with at
least one value binds to a runtime that holds exactly the declared values. -/
theorem createIntSym_value_groups (vals : IntSet) (values : List Int) (ss : Int)
    (variableMap variableMap' : VariableMap) :
    createIntSym (SymmetryObject.ValueSymmetryObject vals) variableMap =
      createIntSym (SymmetryObject.ValueSymmetryObject vals) variableMap' ∧
    createIntSym (SymmetryObject.ValueSequenceSymmetryObject values ss) variableMap =
      createIntSym (SymmetryObject.ValueSequenceSymmetryObject values ss) variableMap' ∧
    (∀ e, createIntSym (SymmetryObject.ValueSymmetryObject vals) variableMap ≠
        some (Except.error e) ∧
      createIntSym (SymmetryObject.ValueSequenceSymmetryObject values ss) variableMap ≠
        some (Except.error e)) ∧
    (vals.vals ≠ [] →
      ∃ rt, createIntSym (SymmetryObject.ValueSymmetryObject vals) (fun _ => none) =
          some (Except.ok (SymmetryImp.value rt)) ∧
        ∀ w, rt.values.member w ↔ w ∈ vals.vals) ∧
    (1 ≤ ss → ss < 4294967296 →
      ∃ rt, createIntSym (SymmetryObject.ValueSequenceSymmetryObject values ss)
          (fun _ => none) = some (Except.ok (SymmetryImp.valueSequence rt)) ∧
        rt.values = values ∧ rt.n_values = values.length ∧ (rt.seq_size : Int) = ss ∧
        rt.n_seqs = values.length / rt.seq_size ∧
        rt.dead_sequences = List.replicate rt.n_seqs false) := by
  refine ⟨rfl, rfl, ?_, ?_, ?_⟩
  · intro e
    constructor
    · simp only [createIntSym]
      cases BitSetOffset.ofArray vals.vals <;> simp
    · simp only [createIntSym]
      cases ValueSequenceSymmetryImp.create values (toU32 ss) <;> simp
  · intro hne
    obtain ⟨b, hb⟩ := BitSetOffset.ofArray_isSome vals.vals hne
    refine ⟨⟨b⟩, by simp only [createIntSym, hb, Option.map_some'], ?_⟩
    intro w
    exact BitSetOffset.ofArray_member vals.vals b hb w
  · intro h1 h2
    have hz := toU32_ne_zero ss h1 h2
    have hu : ((toU32 ss : Nat) : Int) = ss := by
      unfold toU32
      rw [Int.emod_eq_of_lt (by omega) h2]
      omega
    refine ⟨{ values := values, n_values := values.length, seq_size := toU32 ss,
              n_seqs := values.length / toU32 ss,
              dead_sequences := List.replicate (values.length / toU32 ss) false },
      by simp only [createIntSym, ValueSequenceSymmetryImp.create, if_neg hz,
        Option.map_some'], rfl, rfl, hu, rfl, rfl⟩

theorem createIntSym_value_groups_witness :
    ((IntSet.ofArgs [3, 1, 2]).vals ≠ [] ∧ (1 : Int) ≤ 2) ∧
    (∃ rt, createIntSym (SymmetryObject.ValueSymmetryObject (IntSet.ofArgs [3, 1, 2]))
        (fun _ => none) = some (Except.ok (SymmetryImp.value rt)) ∧
      ∀ w, rt.values.member w ↔ w ∈ (IntSet.ofArgs [3, 1, 2]).vals) ∧
    (∃ rt, createIntSym (SymmetryObject.ValueSequenceSymmetryObject [10, 20, 30, 40] 2)
        (fun _ => none) = some (Except.ok (SymmetryImp.valueSequence rt)) ∧
      rt.values = [10, 20, 30, 40] ∧ rt.n_values = ([10, 20, 30, 40] : List Int).length ∧
      (rt.seq_size : Int) = 2 ∧
      rt.n_seqs = ([10, 20, 30, 40] : List Int).length / rt.seq_size ∧
      rt.dead_sequences = List.replicate rt.n_seqs false) :=
  ⟨⟨by decide, by decide⟩,
   (createIntSym_value_groups (IntSet.ofArgs [3, 1, 2]) [10, 20, 30, 40] 2 (fun _ => none)
      (fun _ => none)).2.2.2.1 (by decide),
   (createIntSym_value_groups (IntSet.ofArgs [3, 1, 2]) [10, 20, 30, 40] 2 (fun _ => none)
      (fun _ => none)).2.2.2.2 (by decide) (by decide)⟩

/-! ## Properties: declaring a symmetry -/

theorem variable_declare_ok_iff (vars : List IntVar) (obj : SymmetryObject) :
    VariableSymmetry.declare vars = Except.ok obj ↔
      vars ≠ [] ∧ obj = VariableSymmetry vars := by
  unfold VariableSymmetry.declare VariableSymmetryObject.construct VariableSymmetry
  rw [List.length_map]
  cases vars with
  | nil => simp
  | cons v rest =>
    simp only [List.length_cons, Nat.succ_ne_zero, if_false, Except.ok.injEq, ne_eq,
      not_false_eq_true, true_and, reduceCtorEq]
    exact eq_comm

theorem value_declare_ok_iff (vs : IntSet) (obj : SymmetryObject) :
    ValueSymmetryOfSet.declare vs = Except.ok obj ↔
      vs.vals ≠ [] ∧ obj = ValueSymmetryOfSet vs := by
  unfold ValueSymmetryOfSet.declare ValueSymmetryObject.construct ValueSymmetryOfSet IntSet.size
  cases h : vs.vals with
  | nil => simp
  | cons v rest =>
    simp only [List.length_cons, Nat.succ_ne_zero, if_false, Except.ok.injEq, ne_eq,
      not_false_eq_true, true_and, reduceCtorEq]
    exact eq_comm

theorem variableSequence_declare_ok_iff (vars : List IntVar) (ss : Int)
    (obj : SymmetryObject) :
    VariableSequenceSymmetry.declare vars ss = Except.ok obj ↔
      vars ≠ [] ∧ 1 ≤ ss ∧ (vars.length : Int) % ss = 0 ∧
        obj = VariableSequenceSymmetry vars ss := by
  unfold VariableSequenceSymmetry.declare VariableSequenceSymmetryObject.construct
    VariableSequenceSymmetry
  rw [List.length_map]
  by_cases hc : (vars.length : Int) % ss ≠ 0 ∨ ss < 1 ∨ vars.length = 0
  · rw [if_pos hc]
    constructor
    · intro h
      cases h
    · rintro ⟨hne, h1, hm, _⟩
      rcases hc with hc | hc | hc
      · exact absurd hm hc
      · omega
      · exact absurd (List.length_eq_zero.1 hc) hne
  · rw [if_neg hc]
    simp only [not_or, not_not, not_lt] at hc
    obtain ⟨hm, h1, hne⟩ := hc
    constructor
    · intro h
      cases h
      exact ⟨fun h0 => hne (by rw [h0]; rfl), h1, hm, rfl⟩
    · rintro ⟨_, _, _, rfl⟩
      rfl

theorem valueSequence_declare_ok_iff (vs : List Int) (ss : Int) (obj : SymmetryObject) :
    ValueSequenceSymmetry.declare vs ss = Except.ok obj ↔
      vs ≠ [] ∧ 1 ≤ ss ∧ (vs.length : Int) % ss = 0 ∧
        obj = ValueSequenceSymmetry vs ss := by
  unfold ValueSequenceSymmetry.declare ValueSequenceSymmetryObject.construct
    ValueSequenceSymmetry
  by_cases hc : (vs.length : Int) % ss ≠ 0 ∨ ss < 1 ∨ vs.length = 0
  · rw [if_pos hc]
    constructor
    · intro h
      cases h
    · rintro ⟨hne, h1, hm, _⟩
      rcases hc with hc | hc | hc
      · exact absurd hm hc
      · omega
      · exact absurd (List.length_eq_zero.1 hc) hne
  · rw [if_neg hc]
    simp only [not_or, not_not, not_lt] at hc
    obtain ⟨hm, h1, hne⟩ := hc
    constructor
    · intro h
      cases h
      exact ⟨fun h0 => hne (by rw [h0]; rfl), h1, hm, rfl⟩
    · rintro ⟨_, _, _, rfl⟩
      rfl

/-- Claim C16: declaring a variable sequence group from a member list whose length is not
a multiple of the sequence length (`members.len() % seq_len != 0`) fails with
`InvalidGroupShape`, for every such pair, and returns no declaration.  The wrapper of
ldsb.cpp 75-86 hands the copied members and the sequence length to the object's
constructor, which is the part modelled from the spec. -/
theorem variableSequenceSymmetry_rejects_mismatch (vars : List IntVar) (ss : Int)
    (h : (vars.length : Int) % ss ≠ 0) :
    VariableSequenceSymmetry.declare vars ss = Except.error InvalidGroupShape.mk ∧
    ∀ obj, VariableSequenceSymmetry.declare vars ss ≠ Except.ok obj := by
  have he : VariableSequenceSymmetry.declare vars ss = Except.error InvalidGroupShape.mk := by
    unfold VariableSequenceSymmetry.declare VariableSequenceSymmetryObject.construct
    rw [List.length_map, if_pos (Or.inl h)]
  refine ⟨he, ?_⟩
  intro obj hobj
  rw [he] at hobj
  cases hobj

theorem variableSequenceSymmetry_rejects_mismatch_witness :
    ((([⟨0, [1]⟩, ⟨1, [1]⟩, ⟨2, [1]⟩, ⟨3, [1]⟩, ⟨4, [1]⟩] : List IntVar).length : Int) % 2
      ≠ 0) ∧
    VariableSequenceSymmetry.declare [⟨0, [1]⟩, ⟨1, [1]⟩, ⟨2, [1]⟩, ⟨3, [1]⟩, ⟨4, [1]⟩] 2 =
      Except.error InvalidGroupShape.mk ∧
    ∀ obj, VariableSequenceSymmetry.declare
      [⟨0, [1]⟩, ⟨1, [1]⟩, ⟨2, [1]⟩, ⟨3, [1]⟩, ⟨4, [1]⟩] 2 ≠ Except.ok obj :=
  ⟨by decide,
   variableSequenceSymmetry_rejects_mismatch
     [⟨0, [1]⟩, ⟨1, [1]⟩, ⟨2, [1]⟩, ⟨3, [1]⟩, ⟨4, [1]⟩] 2 (by decide)⟩

/-- Claim C17: each of the four declaration constructors refuses a degenerate shape.  With
an empty member list `VariableSymmetry` and `VariableSequenceSymmetry` fail with
`InvalidGroupShape`; with an empty value array `ValueSymmetry` and `ValueSequenceSymmetry`
do, and with an empty value set so does `ValueSymmetry` on a set; with a sequence length
below 1 the two sequence constructors fail with `InvalidGroupShape`, whatever the
collection.  The wrappers of ldsb.cpp 57-89 hand their arguments to the objects'
constructors, which are the part modelled from the spec. -/
theorem declaration_rejects_degenerate_shape (vars : List IntVar) (vs : List Int)
    (set : IntSet) (ss : Int) :
    (vars = [] →
      VariableSymmetry.declare vars = Except.error InvalidGroupShape.mk ∧
      VariableSequenceSymmetry.declare vars ss = Except.error InvalidGroupShape.mk) ∧
    (vs = [] →
      ValueSymmetry.declare vs = Except.error InvalidGroupShape.mk ∧
      ValueSequenceSymmetry.declare vs ss = Except.error InvalidGroupShape.mk) ∧
    (set.vals = [] → ValueSymmetryOfSet.declare set = Except.error InvalidGroupShape.mk) ∧
    (ss < 1 →
      VariableSequenceSymmetry.declare vars ss = Except.error InvalidGroupShape.mk ∧
      ValueSequenceSymmetry.declare vs ss = Except.error InvalidGroupShape.mk) := by
  refine ⟨?_, ?_, ?_, ?_⟩
  · intro h
    subst h
    constructor
    · rfl
    · unfold VariableSequenceSymmetry.declare VariableSequenceSymmetryObject.construct
      exact if_pos (Or.inr (Or.inr rfl))
  · intro h
    subst h
    constructor
    · rfl
    · unfold ValueSequenceSymmetry.declare ValueSequenceSymmetryObject.construct
      exact if_pos (Or.inr (Or.inr rfl))
  · intro h
    unfold ValueSymmetryOfSet.declare ValueSymmetryObject.construct IntSet.size
    rw [h]
    rfl
  · intro h
    constructor
    · unfold VariableSequenceSymmetry.declare VariableSequenceSymmetryObject.construct
      rw [if_pos (Or.inr (Or.inl h))]
    · unfold ValueSequenceSymmetry.declare ValueSequenceSymmetryObject.construct
      rw [if_pos (Or.inr (Or.inl h))]

theorem declaration_rejects_degenerate_shape_witness :
    (([] : List IntVar) = [] ∧ ([] : List Int) = [] ∧ (IntSet.mk []).vals = [] ∧
      (0 : Int) < 1) ∧
    (VariableSymmetry.declare [] = Except.error InvalidGroupShape.mk ∧
      VariableSequenceSymmetry.declare [] 2 = Except.error InvalidGroupShape.mk) ∧
    (ValueSymmetry.declare [] = Except.error InvalidGroupShape.mk ∧
      ValueSequenceSymmetry.declare [] 2 = Except.error InvalidGroupShape.mk) ∧
    ValueSymmetryOfSet.declare ⟨[]⟩ = Except.error InvalidGroupShape.mk ∧
    (VariableSequenceSymmetry.declare [⟨0, [1]⟩, ⟨1, [1]⟩] 0 =
        Except.error InvalidGroupShape.mk ∧
      ValueSequenceSymmetry.declare [10, 20] 0 = Except.error InvalidGroupShape.mk) :=
  ⟨⟨rfl, rfl, rfl, by decide⟩,
   (declaration_rejects_degenerate_shape [] [] ⟨[]⟩ 2).1 rfl,
   (declaration_rejects_degenerate_shape [] [] ⟨[]⟩ 2).2.1 rfl,
   (declaration_rejects_degenerate_shape [] [] ⟨[]⟩ 2).2.2.1 rfl,
   (declaration_rejects_degenerate_shape [⟨0, [1]⟩, ⟨1, [1]⟩] [10, 20] ⟨[]⟩ 0).2.2.2
     (by decide)⟩

theorem IntVar.min_le_max_of_mem (v : IntVar) (w : Int) (hw : w ∈ v.dom) :
    v.min ≤ w ∧ w ≤ v.max := by
  unfold IntVar.min IntVar.max
  cases hd : v.dom with
  | nil => rw [hd] at hw; exact absurd hw (List.not_mem_nil _)
  | cons d ds =>
    rw [hd] at hw
    obtain ⟨h1, h2⟩ := foldl_min_le ds d
    obtain ⟨h3, h4⟩ := foldl_max_ge ds d
    rcases List.mem_cons.1 hw with rfl | hmem
    · exact ⟨h1, h3⟩
    · exact ⟨h2 w hmem, h4 w hmem⟩

theorem foldl_min_vars (rest : List IntVar) (init : Int) :
    rest.foldl (fun m v => if v.min < m then v.min else m) init ≤ init ∧
    (∀ v ∈ rest, rest.foldl (fun m v => if v.min < m then v.min else m) init ≤ v.min) ∧
    (rest.foldl (fun m v => if v.min < m then v.min else m) init = init ∨
      ∃ v ∈ rest, rest.foldl (fun m v => if v.min < m then v.min else m) init = v.min) := by
  induction rest generalizing init with
  | nil => simp
  | cons a t ih =>
    simp only [List.foldl_cons, List.mem_cons, forall_eq_or_imp, exists_eq_or_imp]
    split_ifs with hc
    · obtain ⟨h1, h2, h3⟩ := ih a.min
      refine ⟨by omega, ⟨h1, h2⟩, ?_⟩
      rcases h3 with h3 | h3
      · exact Or.inr (Or.inl h3)
      · exact Or.inr (Or.inr h3)
    · obtain ⟨h1, h2, h3⟩ := ih init
      refine ⟨h1, ⟨by omega, h2⟩, ?_⟩
      rcases h3 with h3 | h3
      · exact Or.inl h3
      · exact Or.inr (Or.inr h3)

theorem foldl_max_vars (rest : List IntVar) (init : Int) :
    init ≤ rest.foldl (fun m v => if m < v.max then v.max else m) init ∧
    (∀ v ∈ rest, v.max ≤ rest.foldl (fun m v => if m < v.max then v.max else m) init) ∧
    (rest.foldl (fun m v => if m < v.max then v.max else m) init = init ∨
      ∃ v ∈ rest, rest.foldl (fun m v => if m < v.max then v.max else m) init = v.max) := by
  induction rest generalizing init with
  | nil => simp
  | cons a t ih =>
    simp only [List.foldl_cons, List.mem_cons, forall_eq_or_imp, exists_eq_or_imp]
    split_ifs with hc
    · obtain ⟨h1, h2, h3⟩ := ih a.max
      refine ⟨by omega, ⟨h1, h2⟩, ?_⟩
      rcases h3 with h3 | h3
      · exact Or.inr (Or.inl h3)
      · exact Or.inr (Or.inr h3)
    · obtain ⟨h1, h2, h3⟩ := ih init
      refine ⟨h1, ⟨by omega, h2⟩, ?_⟩
      rcases h3 with h3 | h3
      · exact Or.inl h3
      · exact Or.inr (Or.inr h3)

theorem IntSet.mem_ofRange (n m w : Int) : w ∈ (IntSet.ofRange n m).vals ↔ n ≤ w ∧ w ≤ m := by
  simp only [IntSet.ofRange, List.mem_map, List.mem_range]
  constructor
  · rintro ⟨j, hj, rfl⟩
    omega
  · rintro ⟨h1, h2⟩
    exact ⟨(w - n).toNat, by omega, by omega⟩

/-- Claim C18: for a non-empty list of integer variables, `values_interchange` declares
the value group of the set of the contiguous integers from `lo` to `hi`, where `lo` is
the least of the variables' domain minima and `hi` the greatest of their domain maxima;
the group holds every value of the domain of every listed variable. -/
theorem values_interchange_range (vars : List IntVar) (hne : vars ≠ []) :
    ∃ lo hi, values_interchange vars =
        some (SymmetryObject.ValueSymmetryObject (IntSet.ofRange lo hi)) ∧
      (∃ v ∈ vars, lo = v.min) ∧ (∀ v ∈ vars, lo ≤ v.min) ∧
      (∃ v ∈ vars, hi = v.max) ∧ (∀ v ∈ vars, v.max ≤ hi) ∧
      (∀ w, w ∈ (IntSet.ofRange lo hi).vals ↔ lo ≤ w ∧ w ≤ hi) ∧
      (∀ v ∈ vars, ∀ w ∈ v.dom, w ∈ (IntSet.ofRange lo hi).vals) := by
  cases vars with
  | nil => exact absurd rfl hne
  | cons first rest =>
    obtain ⟨a1, a2, a3⟩ := foldl_min_vars rest first.min
    obtain ⟨b1, b2, b3⟩ := foldl_max_vars rest first.max
    refine ⟨_, _, rfl, ?_, ?_, ?_, ?_, IntSet.mem_ofRange _ _, ?_⟩
    · rcases a3 with h | ⟨v, hv, h⟩
      · exact ⟨first, List.mem_cons_self _ _, h⟩
      · exact ⟨v, List.mem_cons_of_mem _ hv, h⟩
    · intro v hv
      rcases List.mem_cons.1 hv with rfl | hv
      · exact a1
      · exact a2 v hv
    · rcases b3 with h | ⟨v, hv, h⟩
      · exact ⟨first, List.mem_cons_self _ _, h⟩
      · exact ⟨v, List.mem_cons_of_mem _ hv, h⟩
    · intro v hv
      rcases List.mem_cons.1 hv with rfl | hv
      · exact b1
      · exact b2 v hv
    · intro v hv w hw
      obtain ⟨c1, c2⟩ := v.min_le_max_of_mem w hw
      rw [IntSet.mem_ofRange]
      rcases List.mem_cons.1 hv with rfl | hv
      · exact ⟨le_trans a1 c1, le_trans c2 b1⟩
      · exact ⟨le_trans (a2 v hv) c1, le_trans c2 (b2 v hv)⟩

theorem values_interchange_range_witness :
    ([⟨0, [3, 5]⟩, ⟨1, [1, 4]⟩] : List IntVar) ≠ [] ∧
    ∃ lo hi, values_interchange [⟨0, [3, 5]⟩, ⟨1, [1, 4]⟩] =
        some (SymmetryObject.ValueSymmetryObject (IntSet.ofRange lo hi)) ∧
      (∃ v ∈ ([⟨0, [3, 5]⟩, ⟨1, [1, 4]⟩] : List IntVar), lo = v.min) ∧
      (∀ v ∈ ([⟨0, [3, 5]⟩, ⟨1, [1, 4]⟩] : List IntVar), lo ≤ v.min) ∧
      (∃ v ∈ ([⟨0, [3, 5]⟩, ⟨1, [1, 4]⟩] : List IntVar), hi = v.max) ∧
      (∀ v ∈ ([⟨0, [3, 5]⟩, ⟨1, [1, 4]⟩] : List IntVar), v.max ≤ hi) ∧
      (∀ w, w ∈ (IntSet.ofRange lo hi).vals ↔ lo ≤ w ∧ w ≤ hi) ∧
      (∀ v ∈ ([⟨0, [3, 5]⟩, ⟨1, [1, 4]⟩] : List IntVar), ∀ w ∈ v.dom,
        w ∈ (IntSet.ofRange lo hi).vals) :=
  ⟨by decide, values_interchange_range [⟨0, [3, 5]⟩, ⟨1, [1, 4]⟩] (by decide)⟩

theorem selectVars_spec (vars : List IntVar) (indices : List Int)
    (h : ∀ i ∈ indices, 0 ≤ i ∧ i < (vars.length : Int)) :
    ∃ xs, selectVars vars indices = some xs ∧ xs.length = indices.length ∧
      (∀ (k : Nat) (i : Int), indices[k]? = some i →
        ∃ v, vars[i.toNat]? = some v ∧ xs[k]? = some v) ∧
      (∀ v ∈ xs, ∃ i ∈ indices, vars[i.toNat]? = some v) := by
  induction indices with
  | nil => exact ⟨[], rfl, rfl, by simp, by simp⟩
  | cons a t ih =>
    obtain ⟨xs, hxs, hlen, hget, hmem⟩ := ih (fun i hi => h i (List.mem_cons_of_mem _ hi))
    obtain ⟨h0, h1⟩ := h a (List.mem_cons_self _ _)
    have hlt : a.toNat < vars.length := by omega
    refine ⟨vars[a.toNat] :: xs, ?_, by simp [hlen], ?_, ?_⟩
    · simp only [selectVars, if_neg (not_lt.2 h0), List.getElem?_eq_getElem hlt, hxs]
    · intro k i hk
      cases k with
      | zero =>
        simp only [List.getElem?_cons_zero, Option.some.injEq] at hk
        subst hk
        exact ⟨vars[a.toNat], List.getElem?_eq_getElem hlt, by simp⟩
      | succ k =>
        simp only [List.getElem?_cons_succ] at hk ⊢
        exact hget k i hk
    · intro v hv
      rcases List.mem_cons.1 hv with rfl | hv
      · exact ⟨a, List.mem_cons_self _ _, List.getElem?_eq_getElem hlt⟩
      · obtain ⟨i, hi, hvi⟩ := hmem v hv
        exact ⟨i, List.mem_cons_of_mem _ hi, hvi⟩

/-- Claim C19: for a variable list `vars` and an index list `indices` whose entries are
valid indices of `vars`, `variables_indices_interchange` declares the variable group whose
member list has the length of `indices` and whose `i`-th member is `vars[indices[i]]`;
every member is a variable at a listed index, so (the variables being pairwise distinct) a
variable whose index is not listed is not a member. -/
theorem variables_indices_interchange_members (vars : List IntVar) (indices : List Int)
    (h : ∀ i ∈ indices, 0 ≤ i ∧ i < (vars.length : Int)) :
    ∃ ms, variables_indices_interchange vars indices =
        some (SymmetryObject.VariableSymmetryObject ms) ∧
      ms.length = indices.length ∧
      (∀ (k : Nat) (i : Int), indices[k]? = some i →
        ∃ v, vars[i.toNat]? = some v ∧ ms[k]? = some v.varimp) ∧
      (∀ m ∈ ms, ∃ i ∈ indices, ∃ v, vars[i.toNat]? = some v ∧ v.varimp = m) ∧
      ((vars.map IntVar.varimp).Nodup → ∀ (j : Nat) (v : IntVar), vars[j]? = some v →
        (j : Int) ∉ indices → v.varimp ∉ ms) := by
  obtain ⟨xs, hxs, hlen, hget, hmem⟩ := selectVars_spec vars indices h
  have hm : ∀ m ∈ xs.map IntVar.varimp,
      ∃ i ∈ indices, ∃ v, vars[i.toNat]? = some v ∧ v.varimp = m := by
    intro m hm
    obtain ⟨v, hv, rfl⟩ := List.mem_map.1 hm
    obtain ⟨i, hi, hvi⟩ := hmem v hv
    exact ⟨i, hi, v, hvi, rfl⟩
  refine ⟨xs.map IntVar.varimp, ?_, by rw [List.length_map, hlen], ?_, hm, ?_⟩
  · simp only [variables_indices_interchange, hxs, Option.map_some', VariableSymmetry]
  · intro k i hk
    obtain ⟨v, hv, hxk⟩ := hget k i hk
    exact ⟨v, hv, by rw [List.getElem?_map, hxk]; rfl⟩
  · intro hnd j v hj hnot hin
    obtain ⟨i, hi, v', hv', heq⟩ := hm _ hin
    obtain ⟨h0, _⟩ := h i hi
    have h1 : (vars.map IntVar.varimp)[i.toNat]? = some v.varimp := by
      rw [List.getElem?_map, hv', Option.map_some', heq]
    have h2 : (vars.map IntVar.varimp)[j]? = some v.varimp := by
      rw [List.getElem?_map, hj, Option.map_some']
    have hlt : i.toNat < (vars.map IntVar.varimp).length := (List.getElem?_eq_some.1 h1).1
    have := List.getElem?_inj hlt hnd (h1.trans h2.symm)
    apply hnot
    have hij : (j : Int) = i := by omega
    rw [hij]; exact hi

theorem variables_indices_interchange_members_witness :
    (∀ i ∈ ([2, 0] : List Int),
      0 ≤ i ∧ i < (([⟨7, [1]⟩, ⟨8, [1]⟩, ⟨9, [1]⟩] : List IntVar).length : Int)) ∧
    variables_indices_interchange [⟨7, [1]⟩, ⟨8, [1]⟩, ⟨9, [1]⟩] [2, 0] =
      some (SymmetryObject.VariableSymmetryObject [9, 7]) ∧
    ∃ ms, variables_indices_interchange [⟨7, [1]⟩, ⟨8, [1]⟩, ⟨9, [1]⟩] [2, 0] =
        some (SymmetryObject.VariableSymmetryObject ms) ∧
      ms.length = ([2, 0] : List Int).length :=
  ⟨by decide, rfl,
   (variables_indices_interchange_members [⟨7, [1]⟩, ⟨8, [1]⟩, ⟨9, [1]⟩] [2, 0]
      (by decide)).imp (fun _ h => ⟨h.1, h.2.1⟩)⟩

/-! ## Properties: reference counting of the handle -/

theorem live_set_null (hs : List SymmetryHandle) (i : Nat) (h : SymmetryHandle)
    (hi : hs[i]? = some h) (href : h.ref.isSome = true) :
    ((hs.set i ⟨none⟩).filter (fun h => h.ref.isSome)).length + 1 =
      (hs.filter (fun h => h.ref.isSome)).length := by
  induction hs generalizing i with
  | nil => simp at hi
  | cons a t ih =>
    cases i with
    | zero =>
      simp only [List.getElem?_cons_zero, Option.some.injEq] at hi
      subst hi
      simp [List.filter_cons, href]
    | succ i =>
      simp only [List.getElem?_cons_succ] at hi
      have := ih i hi
      simp only [List.set_cons_succ, List.filter_cons]
      by_cases ha : a.ref.isSome = true
      · simp only [ha, if_true, List.length_cons]; omega
      · simp only [ha, Bool.false_eq_true, if_false]; exact this

theorem HandleState.step_invariant (st : HandleState) (op : HandleOp)
    (hinv : (st.obj.deleted = 0 ∧ st.obj.nrefs = (st.live : Int) ∧ 1 ≤ st.live) ∨
      (st.obj.deleted = 1 ∧ st.live = 0)) :
    ∃ st', st.step op = some st' ∧
      ((st'.obj.deleted = 0 ∧ st'.obj.nrefs = (st'.live : Int) ∧ 1 ≤ st'.live) ∨
        (st'.obj.deleted = 1 ∧ st'.live = 0)) := by
  have hlive_pos : ∀ (i : Nat) (h : SymmetryHandle), st.handles[i]? = some h →
      h.ref.isSome = true → 1 ≤ st.live := by
    intro i h hi href
    have hmem : h ∈ st.handles.filter (fun h => h.ref.isSome) :=
      List.mem_filter.2 ⟨List.getElem?_mem hi, href⟩
    exact List.length_pos_of_mem hmem
  cases op with
  | copy i =>
    cases hi : st.handles[i]? with
    | none => exact ⟨st, by simp only [HandleState.step, hi], hinv⟩
    | some h =>
      cases href : h.ref with
      | none =>
        refine ⟨{ st with handles := st.handles ++ [h] },
          by simp only [HandleState.step, hi, href], ?_⟩
        have : ({ st with handles := st.handles ++ [h] } : HandleState).live = st.live := by
          simp [HandleState.live, List.filter_append, List.filter_cons, href]
        simpa only [this] using hinv
      | some u =>
        have hpos := hlive_pos i h hi (by rw [href]; rfl)
        rcases hinv with ⟨hd, hn, _⟩ | ⟨_, h0⟩
        · have hd' : ¬ (st.obj.deleted ≠ 0) := by simp [hd]
          refine ⟨{ handles := st.handles ++ [h],
                    obj := { st.obj with nrefs := st.obj.nrefs + 1 } },
            by simp only [HandleState.step, hi, href, SymmetryHandle.increment, if_neg hd'],
            Or.inl ⟨hd, ?_, ?_⟩⟩
          · simp [HandleState.live, List.filter_append, List.filter_cons, href] at hn ⊢
            omega
          · simp [HandleState.live, List.filter_append, List.filter_cons, href]
        · omega
  | drop i =>
    cases hi : st.handles[i]? with
    | none => exact ⟨st, by simp only [HandleState.step, hi], hinv⟩
    | some h =>
      cases href : h.ref with
      | none => exact ⟨st, by simp only [HandleState.step, hi, href], hinv⟩
      | some u =>
        have hpos := hlive_pos i h hi (by rw [href]; rfl)
        have hset := live_set_null st.handles i h hi (by rw [href]; rfl)
        rcases hinv with ⟨hd, hn, _⟩ | ⟨_, h0⟩
        · have hd' : ¬ (st.obj.deleted ≠ 0) := by simp [hd]
          by_cases hz : st.obj.nrefs - 1 = 0
          · refine ⟨{ handles := st.handles.set i ⟨none⟩,
                      obj := { nrefs := st.obj.nrefs - 1, deleted := st.obj.deleted + 1 } },
              by simp only [HandleState.step, hi, href, SymmetryHandle.decrement, if_neg hd',
                if_pos hz],
              Or.inr ⟨by simp [hd], ?_⟩⟩
            simp only [HandleState.live] at hn hset ⊢
            omega
          · refine ⟨{ handles := st.handles.set i ⟨none⟩,
                      obj := { st.obj with nrefs := st.obj.nrefs - 1 } },
              by simp only [HandleState.step, hi, href, SymmetryHandle.decrement, if_neg hd',
                if_neg hz],
              Or.inl ⟨hd, ?_, ?_⟩⟩
            · simp only [HandleState.live] at hn hset ⊢
              omega
            · simp only [HandleState.live] at hn hset ⊢
              omega
        · omega

theorem HandleState.run_invariant (ops : List HandleOp) (st : HandleState)
    (hinv : (st.obj.deleted = 0 ∧ st.obj.nrefs = (st.live : Int) ∧ 1 ≤ st.live) ∨
      (st.obj.deleted = 1 ∧ st.live = 0)) :
    ∃ st', st.run ops = some st' ∧
      ((st'.obj.deleted = 0 ∧ st'.obj.nrefs = (st'.live : Int) ∧ 1 ≤ st'.live) ∨
        (st'.obj.deleted = 1 ∧ st'.live = 0)) := by
  induction ops generalizing st with
  | nil => exact ⟨st, rfl, hinv⟩
  | cons op ops ih =>
    obtain ⟨st1, h1, hinv1⟩ := st.step_invariant op hinv
    obtain ⟨st2, h2, hinv2⟩ := ih st1 hinv1
    exact ⟨st2, by simp only [HandleState.run, h1, h2], hinv2⟩

/-- Claim C20: `increment` raises the counter of the shared object by one; `decrement`
lowers it by one, deletes the object if and only if the counter reaches zero, and leaves
the handle's `ref` null.  After any sequence of copies and drops of handles that starts
from one handle (counter 1), every step being a defined call, the object has been
deleted at most once, it has been deleted exactly when no handle refers to it any more,
and while it is not deleted the counter is the number of handles that refer to it. -/
theorem symmetryHandle_refcount (n : Int) (ops : List HandleOp) :
    SymmetryHandle.increment ⟨some ()⟩ ⟨n, 0⟩ = some ⟨n + 1, 0⟩ ∧
    SymmetryHandle.decrement ⟨some ()⟩ ⟨n, 0⟩ =
      some (⟨none⟩, ⟨n - 1, if n - 1 = 0 then 1 else 0⟩) ∧
    ∃ st, HandleState.run ⟨[⟨some ()⟩], ⟨1, 0⟩⟩ ops = some st ∧
      st.obj.deleted ≤ 1 ∧
      (st.obj.deleted = 1 ↔ st.live = 0) ∧
      (st.obj.deleted = 0 → st.obj.nrefs = (st.live : Int)) := by
  refine ⟨rfl, ?_, ?_⟩
  · simp only [SymmetryHandle.decrement]
    by_cases hz : n - 1 = 0 <;> simp [hz]
  · obtain ⟨st, hrun, hinv⟩ := HandleState.run_invariant ops ⟨[⟨some ()⟩], ⟨1, 0⟩⟩
      (Or.inl ⟨rfl, by simp [HandleState.live], by simp [HandleState.live]⟩)
    refine ⟨st, hrun, ?_, ?_, ?_⟩
    · rcases hinv with ⟨h, _, _⟩ | ⟨h, _⟩ <;> omega
    · rcases hinv with ⟨h, _, h1⟩ | ⟨h, h0⟩
      · constructor <;> intro h' <;> omega
      · exact ⟨fun _ => h0, fun _ => h⟩
    · intro hd
      rcases hinv with ⟨_, hn, _⟩ | ⟨h, _⟩
      · exact hn
      · omega

/-! ## Properties: the two view specialisations -/

theorem resolve_location (w w' : String) (variableMap : VariableMap)
    (xs : List VarImpBase) :
    resolve w variableMap xs =
      match resolve w' variableMap xs with
      | Except.error _ => Except.error ⟨w⟩
      | Except.ok ps => Except.ok ps := by
  induction xs with
  | nil => rfl
  | cons a t ih =>
    simp only [resolve]
    cases variableMap a with
    | none => rfl
    | some index =>
      simp only
      rw [ih]
      cases resolve w' variableMap t <;> rfl

/-- Claim C21: for every declaration and variable map, `createIntSym` and `createBoolSym`
end with the exception together, return a runtime together, and then return the same
runtime data; and for the variable group, the value group and the value sequence
runtimes the `IntView` and the `BoolView` version of `symmetric` return the same literal
sequence on the same runtime data and literal. -/
theorem int_bool_specialisations_agree (obj : SymmetryObject) (variableMap : VariableMap)
    (vs : VariableSymmetryImp) (ws : ValueSymmetryImp) (qs : ValueSequenceSymmetryImp)
    (l : Literal) (x : ViewArray) :
    ((∃ e, createIntSym obj variableMap = some (Except.error e)) ↔
      (∃ e, createBoolSym obj variableMap = some (Except.error e))) ∧
    (∀ rt, createIntSym obj variableMap = some (Except.ok rt) ↔
      createBoolSym obj variableMap = some (Except.ok rt)) ∧
    (createIntSym obj variableMap = none ↔ createBoolSym obj variableMap = none) ∧
    vs.symmetric l x = vs.symmetricBool l x ∧
    ws.symmetric l x = ws.symmetricBool l x ∧
    qs.symmetric l x = qs.symmetricBool l x := by
  refine ⟨?_, ?_, ?_, rfl, rfl, rfl⟩
  · cases obj with
    | VariableSymmetryObject xs =>
      simp only [createIntSym, createBoolSym]
      rw [resolve_location "VariableSymmetryObject::createInt"
        "VariableSymmetryObject::createBool" variableMap xs]
      cases resolve "VariableSymmetryObject::createBool" variableMap xs with
      | error e => simp
      | ok ps => cases BitSetOffset.ofArray ps <;> simp
    | ValueSymmetryObject values => exact Iff.rfl
    | VariableSequenceSymmetryObject xs ss =>
      simp only [createIntSym, createBoolSym]
      rw [resolve_location "VariableSequenceSymmetryObject::createInt"
        "VariableSequenceSymmetryObject::createBool" variableMap xs]
      cases resolve "VariableSequenceSymmetryObject::createBool" variableMap xs with
      | error e => simp
      | ok ps => cases VariableSequenceSymmetryImp.create ps (toU32 ss) <;> simp
    | ValueSequenceSymmetryObject values ss => exact Iff.rfl
  · intro rt
    cases obj with
    | VariableSymmetryObject xs =>
      simp only [createIntSym, createBoolSym]
      rw [resolve_location "VariableSymmetryObject::createInt"
        "VariableSymmetryObject::createBool" variableMap xs]
      cases resolve "VariableSymmetryObject::createBool" variableMap xs with
      | error e => simp
      | ok ps => exact Iff.rfl
    | ValueSymmetryObject values => exact Iff.rfl
    | VariableSequenceSymmetryObject xs ss =>
      simp only [createIntSym, createBoolSym]
      rw [resolve_location "VariableSequenceSymmetryObject::createInt"
        "VariableSequenceSymmetryObject::createBool" variableMap xs]
      cases resolve "VariableSequenceSymmetryObject::createBool" variableMap xs with
      | error e => simp
      | ok ps => exact Iff.rfl
    | ValueSequenceSymmetryObject values ss => exact Iff.rfl
  · cases obj with
    | VariableSymmetryObject xs =>
      simp only [createIntSym, createBoolSym]
      rw [resolve_location "VariableSymmetryObject::createInt"
        "VariableSymmetryObject::createBool" variableMap xs]
      cases resolve "VariableSymmetryObject::createBool" variableMap xs with
      | error e => simp
      | ok ps => exact Iff.rfl
    | ValueSymmetryObject values => exact Iff.rfl
    | VariableSequenceSymmetryObject xs ss =>
      simp only [createIntSym, createBoolSym]
      rw [resolve_location "VariableSequenceSymmetryObject::createInt"
        "VariableSequenceSymmetryObject::createBool" variableMap xs]
      cases resolve "VariableSequenceSymmetryObject::createBool" variableMap xs with
      | error e => simp
      | ok ps => exact Iff.rfl
    | ValueSequenceSymmetryObject values ss => exact Iff.rfl

/-! ## Properties: `findVar` -/

/-- Claim C23: for a value array of length `n`, a sequence length of at least 1 and an
integer `v`, `findVar` returns `(i / seq_size, i % seq_size)` for the least index `i`
with `values[i] = v` (so the offset is below `seq_size` and
`values[seq0*seq_size + off0] = v`), and it returns `(-1, -1)` if and only if `v` occurs
at no index; it always returns. -/
theorem findVar_first_occurrence (values : List Int) (n seq_size : Nat) (v : Int)
    (hss : 1 ≤ seq_size) (hn : n = values.length) :
    (∀ i : Nat, values[i]? = some v → (∀ j, j < i → values[j]? ≠ some v) →
      findVar values n seq_size v =
        some (((i / seq_size : Nat) : Int), ((i % seq_size : Nat) : Int)) ∧
      i % seq_size < seq_size ∧
      values[(i / seq_size) * seq_size + i % seq_size]? = some v) ∧
    (findVar values n seq_size v = some (-1, -1) ↔ v ∉ values) ∧
    (∃ r, findVar values n seq_size v = some r) := by
  refine ⟨?_, ?_, ?_⟩
  · intro i hv hfirst
    refine ⟨findVar_found values n seq_size v hss hn i hv hfirst,
      Nat.mod_lt _ (by omega), ?_⟩
    rw [Nat.mul_comm, Nat.div_add_mod]
    exact hv
  · constructor
    · intro h hmem
      obtain ⟨i0, hv, hfirst⟩ := exists_first_index values v hmem
      rw [findVar_found values n seq_size v hss hn i0 hv hfirst] at h
      simp only [Option.some.injEq, Prod.mk.injEq] at h
      have h0 : (0 : Int) ≤ ((i0 / seq_size : Nat) : Int) := Int.natCast_nonneg _
      omega
    · exact findVar_absent values n seq_size v hn
  · by_cases hmem : v ∈ values
    · obtain ⟨i0, hv, hfirst⟩ := exists_first_index values v hmem
      exact ⟨_, findVar_found values n seq_size v hss hn i0 hv hfirst⟩
    · exact ⟨_, findVar_absent values n seq_size v hn hmem⟩

theorem findVar_first_occurrence_witness :
    ((1 : Nat) ≤ 2 ∧ (4 : Nat) = ([10, 20, 30, 20] : List Int).length ∧
      ([10, 20, 30, 20] : List Int)[1]? = some 20 ∧
      (∀ j, j < 1 → ([10, 20, 30, 20] : List Int)[j]? ≠ some 20)) ∧
    (findVar [10, 20, 30, 20] 4 2 20 = some (((1 / 2 : Nat) : Int), ((1 % 2 : Nat) : Int)) ∧
      1 % 2 < 2 ∧ ([10, 20, 30, 20] : List Int)[(1 / 2) * 2 + 1 % 2]? = some 20) :=
  ⟨⟨by decide, by decide, by decide, by decide⟩,
   (findVar_first_occurrence [10, 20, 30, 20] 4 2 20 (by decide) (by decide)).1 1
     (by decide) (by decide)⟩

/-! ## Properties: the orbit of a static symmetry -/

/-- Claim C27: for a variable group runtime and for a value group runtime, every literal
`l` and every literal `l'` of `symmetric(l)`, `symmetric(l')` is the sequence
`symmetric(l)`. -/
theorem static_symmetric_orbit (vs : VariableSymmetryImp) (ws : ValueSymmetryImp)
    (l : Literal) (x : ViewArray) :
    (∀ res, vs.symmetric l x = some res → ∀ l' ∈ res, vs.symmetric l' x = some res) ∧
    (∀ res, ws.symmetric l x = some res → ∀ l' ∈ res, ws.symmetric l' x = some res) ∧
    (∃ res, vs.symmetric l x = some res) ∧ (∃ res, ws.symmetric l x = some res) := by
  refine ⟨?_, ?_, vs.symmetric_isSome l x, ws.symmetric_isSome_value l x⟩
  · intro res h l' hl'
    by_cases hm : vs.indices.member l.var
    · rw [vs.symmetric_of_member_var l x hm, Option.some.injEq] at h
      subst h
      obtain ⟨m, hmv, rfl⟩ := List.mem_map.1 hl'
      exact vs.symmetric_of_member_var ⟨m, l.value⟩ x ((vs.indices.mem_vals m).1 hmv)
    · rw [vs.symmetric_of_not_member_var l x hm, Option.some.injEq] at h
      subst h
      exact absurd hl' (List.not_mem_nil _)
  · intro res h l' hl'
    by_cases hm : ws.values.member l.value
    · rw [ws.symmetric_of_member_value l x hm, Option.some.injEq] at h
      subst h
      obtain ⟨m, hmv, rfl⟩ := List.mem_map.1 hl'
      exact ws.symmetric_of_member_value ⟨l.var, m⟩ x ((ws.values.mem_vals m).1 hmv)
    · rw [ws.symmetric_of_not_member_value l x hm, Option.some.injEq] at h
      subst h
      exact absurd hl' (List.not_mem_nil _)

theorem static_symmetric_orbit_witness :
    ((VariableSymmetryImp.mk ⟨3, [true, false, true]⟩).symmetric ⟨5, 7⟩ [] =
        some [⟨3, 7⟩, ⟨5, 7⟩] ∧ (⟨3, 7⟩ : Literal) ∈ [(⟨3, 7⟩ : Literal), ⟨5, 7⟩]) ∧
    (VariableSymmetryImp.mk ⟨3, [true, false, true]⟩).symmetric ⟨3, 7⟩ [] =
      some [⟨3, 7⟩, ⟨5, 7⟩] :=
  ⟨⟨rfl, by decide⟩,
   (static_symmetric_orbit ⟨⟨3, [true, false, true]⟩⟩ ⟨⟨3, [true, false, true]⟩⟩ ⟨5, 7⟩
      []).1 _ rfl ⟨3, 7⟩ (by decide)⟩

/-! ## Properties: trace filters -/

theorem and_one_shiftLeft_ne_zero_iff (w k : Nat) :
    w &&& (1 <<< k) ≠ 0 ↔ w.testBit k = true := by
  rw [Nat.one_shiftLeft]
  constructor
  · intro h
    by_contra hb
    apply h
    apply Nat.eq_of_testBit_eq
    intro j
    rw [Nat.testBit_and, Nat.testBit_two_pow, Nat.zero_testBit]
    by_cases hkj : k = j
    · subst hkj; simp [hb]
    · simp [hkj]
  · intro hb h
    have := congrArg (fun m => Nat.testBit m k) h
    simp only [Nat.testBit_and, Nat.testBit_two_pow_self, hb, Nat.zero_testBit,
      Bool.and_self] at this
    exact absurd this (by simp)

theorem Filter.accepts_iff (inGroup : Group → Group → Bool) (code : What → Nat)
    (f : Filter) (ei : ExecInfo) :
    f.accepts inGroup code ei = true ↔
      f.what.testBit (code ei.what) = true ∧
      (ei = ExecInfo.other ∨
        ∃ g, (ei = ExecInfo.propagator g ∨ ei = ExecInfo.brancher g ∨ ei = ExecInfo.post g) ∧
          inGroup f.g g ≠ f.neg) := by
  unfold Filter.accepts
  by_cases hb : f.what &&& (1 <<< code ei.what) ≠ 0
  · rw [if_pos hb]
    have hb' := (and_one_shiftLeft_ne_zero_iff _ _).1 hb
    cases ei <;> simp [hb']
  · rw [if_neg hb]
    have hb' : ¬ (f.what.testBit (code ei.what) = true) :=
      fun h => hb ((and_one_shiftLeft_ne_zero_iff _ _).2 h)
    simp [hb']

theorem TFO.scan_iff (inGroup : Group → Group → Bool) (code : What → Nat) (ei : ExecInfo)
    (fs : List Filter) :
    TFO.scan inGroup code ei fs = true ↔ ∃ f ∈ fs, f.accepts inGroup code ei = true := by
  induction fs with
  | nil => simp [TFO.scan]
  | cons a t ih =>
    simp only [TFO.scan, List.mem_cons, exists_eq_or_imp]
    by_cases ha : a.accepts inGroup code ei = true
    · simp [ha]
    · simp only [ha, Bool.false_eq_true, if_false, false_or]
      exact ih

theorem TFO.call_iff (inGroup : Group → Group → Bool) (code : What → Nat) (o : TFO)
    (ei : ExecInfo) :
    o.call inGroup code ei = true ↔
      o.f = [] ∨ ∃ f ∈ o.f, f.accepts inGroup code ei = true := by
  unfold TFO.call TFO.n
  by_cases h : o.f.length = 0
  · simp [h, List.length_eq_zero.1 h]
  · have hne : o.f ≠ [] := fun hnil => h (by rw [hnil]; rfl)
    rw [if_neg h, TFO.scan_iff]
    simp only [List.mem_reverse, hne, false_or]

/-- Claim C22: the decision of a trace filter object on an execution information `ei` is
`true` when the object holds no filter entry; otherwise it is `true` if and only if some
entry `f` has the bit of the kind of `ei` set in `f.what` and either `ei` is of kind
`OTHER`, or `ei` is a propagator, brancher or post information whose group `g` satisfies
`f.g.in(g) != f.neg`.  The decision is the same for every order of the entries. -/
theorem tfo_decision (inGroup : Group → Group → Bool) (code : What → Nat) (o : TFO)
    (ei : ExecInfo) :
    (o.f = [] → o.call inGroup code ei = true) ∧
    (o.f ≠ [] →
      (o.call inGroup code ei = true ↔
        ∃ f ∈ o.f, f.what.testBit (code ei.what) = true ∧
          (ei = ExecInfo.other ∨
            ∃ g, (ei = ExecInfo.propagator g ∨ ei = ExecInfo.brancher g ∨
                ei = ExecInfo.post g) ∧ inGroup f.g g ≠ f.neg))) ∧
    (∀ f : Filter, f.what &&& (1 <<< code ei.what) ≠ 0 ↔
      f.what.testBit (code ei.what) = true) ∧
    (∀ o' : TFO, o.f.Perm o'.f → o'.call inGroup code ei = o.call inGroup code ei) := by
  refine ⟨?_, ?_, fun f => and_one_shiftLeft_ne_zero_iff _ _, ?_⟩
  · intro h
    exact (TFO.call_iff inGroup code o ei).2 (Or.inl h)
  · intro h
    rw [TFO.call_iff]
    simp only [h, false_or, Filter.accepts_iff]
  · intro o' hperm
    have hiff : o'.call inGroup code ei = true ↔ o.call inGroup code ei = true := by
      rw [TFO.call_iff, TFO.call_iff]
      constructor
      · rintro (h | ⟨f, hf, ha⟩)
        · exact Or.inl (List.perm_nil.1 (h ▸ hperm))
        · exact Or.inr ⟨f, hperm.mem_iff.2 hf, ha⟩
      · rintro (h | ⟨f, hf, ha⟩)
        · exact Or.inl (List.nil_perm.1 (h ▸ hperm))
        · exact Or.inr ⟨f, hperm.mem_iff.1 hf, ha⟩
    cases h1 : o'.call inGroup code ei <;> cases h2 : o.call inGroup code ei <;> simp_all

theorem tfo_decision_witness :
    ((TFO.mk [⟨⟨1⟩, false, 1⟩, ⟨⟨2⟩, true, 2⟩]).f ≠ [] ∧
      (TFO.mk []).f = []) ∧
    ((TFO.mk [⟨⟨1⟩, false, 1⟩, ⟨⟨2⟩, true, 2⟩]).call (fun a b => decide (a = b))
        (fun w => match w with
          | What.PROPAGATOR => 0 | What.BRANCHER => 1 | What.POST => 2 | What.OTHER => 3)
        (ExecInfo.brancher ⟨5⟩) = true ↔
      ∃ f ∈ (TFO.mk [⟨⟨1⟩, false, 1⟩, ⟨⟨2⟩, true, 2⟩]).f,
        f.what.testBit ((fun w => match w with
          | What.PROPAGATOR => 0 | What.BRANCHER => 1 | What.POST => 2 | What.OTHER => 3)
          (ExecInfo.brancher ⟨5⟩).what) = true ∧
        (ExecInfo.brancher ⟨5⟩ = ExecInfo.other ∨
          ∃ g, (ExecInfo.brancher ⟨5⟩ = ExecInfo.propagator g ∨
              ExecInfo.brancher ⟨5⟩ = ExecInfo.brancher g ∨
              ExecInfo.brancher ⟨5⟩ = ExecInfo.post g) ∧
            (fun a b => decide (a = b)) f.g g ≠ f.neg)) ∧
    (TFO.mk []).call (fun a b => decide (a = b))
        (fun w => match w with
          | What.PROPAGATOR => 0 | What.BRANCHER => 1 | What.POST => 2 | What.OTHER => 3)
        (ExecInfo.brancher ⟨5⟩) = true :=
  ⟨⟨by decide, rfl⟩,
   (tfo_decision (fun a b => decide (a = b))
      (fun w => match w with
        | What.PROPAGATOR => 0 | What.BRANCHER => 1 | What.POST => 2 | What.OTHER => 3)
      ⟨[⟨⟨1⟩, false, 1⟩, ⟨⟨2⟩, true, 2⟩]⟩ (ExecInfo.brancher ⟨5⟩)).2.1 (by decide),
   (tfo_decision (fun a b => decide (a = b))
      (fun w => match w with
        | What.PROPAGATOR => 0 | What.BRANCHER => 1 | What.POST => 2 | What.OTHER => 3)
      ⟨[]⟩ (ExecInfo.brancher ⟨5⟩)).1 rfl⟩

theorem shiftLeft_and_shiftLeft_ne_zero_iff (a b : Nat) :
    (1 <<< a) &&& (1 <<< b) ≠ 0 ↔ a = b := by
  rw [and_one_shiftLeft_ne_zero_iff, Nat.one_shiftLeft, Nat.testBit_two_pow]
  simp

/-- Claim C24: a trace filter object initialised with a propagator group `g` holds one
entry for `g`, not negated, that considers propagator executions only: it accepts a
propagator execution if and only if `g.in` holds of the propagator's group, and it
rejects every brancher execution, every post execution and every execution of kind
`OTHER`.  One initialised with a brancher group `g` accepts a brancher execution if and
only if `g.in` holds of its group and rejects the other kinds.  The enumerators of
`ExecInfo::What` have pairwise different values. -/
theorem tfo_of_group (inGroup : Group → Group → Bool) (code : What → Nat)
    (hcode : Function.Injective code) (g g' : Group) :
    (TFO.ofPropagatorGroup code g).f =
      [{ g := g, neg := false, what := 1 <<< code What.PROPAGATOR }] ∧
    (TFO.ofPropagatorGroup code g).call inGroup code (ExecInfo.propagator g') =
      inGroup g g' ∧
    (TFO.ofPropagatorGroup code g).call inGroup code (ExecInfo.brancher g') = false ∧
    (TFO.ofPropagatorGroup code g).call inGroup code (ExecInfo.post g') = false ∧
    (TFO.ofPropagatorGroup code g).call inGroup code ExecInfo.other = false ∧
    (TFO.ofBrancherGroup code g).f =
      [{ g := g, neg := false, what := 1 <<< code What.BRANCHER }] ∧
    (TFO.ofBrancherGroup code g).call inGroup code (ExecInfo.brancher g') =
      inGroup g g' ∧
    (TFO.ofBrancherGroup code g).call inGroup code (ExecInfo.propagator g') = false ∧
    (TFO.ofBrancherGroup code g).call inGroup code (ExecInfo.post g') = false ∧
    (TFO.ofBrancherGroup code g).call inGroup code ExecInfo.other = false := by
  have hne : ∀ a b : What, a ≠ b → ¬ ((1 <<< code a) &&& (1 <<< code b) ≠ 0) := by
    intro a b hab h
    exact hab (hcode ((shiftLeft_and_shiftLeft_ne_zero_iff _ _).1 h))
  have heq : ∀ a : What, (1 <<< code a) &&& (1 <<< code a) ≠ 0 :=
    fun a => (shiftLeft_and_shiftLeft_ne_zero_iff _ _).2 rfl
  refine ⟨rfl, ?_, ?_, ?_, ?_, rfl, ?_, ?_, ?_, ?_⟩
  · simp only [TFO.call, TFO.n, TFO.ofPropagatorGroup, List.length_singleton,
      List.reverse_singleton, TFO.scan, Filter.accepts, ExecInfo.what,
      if_pos (heq What.PROPAGATOR)]
    cases inGroup g g' <;> simp
  · simp [TFO.call, TFO.n, TFO.ofPropagatorGroup, TFO.scan, Filter.accepts, ExecInfo.what,
      hne What.PROPAGATOR What.BRANCHER (by decide)]
  · simp [TFO.call, TFO.n, TFO.ofPropagatorGroup, TFO.scan, Filter.accepts, ExecInfo.what,
      hne What.PROPAGATOR What.POST (by decide)]
  · simp [TFO.call, TFO.n, TFO.ofPropagatorGroup, TFO.scan, Filter.accepts, ExecInfo.what,
      hne What.PROPAGATOR What.OTHER (by decide)]
  · simp only [TFO.call, TFO.n, TFO.ofBrancherGroup, List.length_singleton,
      List.reverse_singleton, TFO.scan, Filter.accepts, ExecInfo.what,
      if_pos (heq What.BRANCHER)]
    cases inGroup g g' <;> simp
  · simp [TFO.call, TFO.n, TFO.ofBrancherGroup, TFO.scan, Filter.accepts, ExecInfo.what,
      hne What.BRANCHER What.PROPAGATOR (by decide)]
  · simp [TFO.call, TFO.n, TFO.ofBrancherGroup, TFO.scan, Filter.accepts, ExecInfo.what,
      hne What.BRANCHER What.POST (by decide)]
  · simp [TFO.call, TFO.n, TFO.ofBrancherGroup, TFO.scan, Filter.accepts, ExecInfo.what,
      hne What.BRANCHER What.OTHER (by decide)]

theorem tfo_of_group_witness :
    Function.Injective (fun w : What => match w with
      | What.PROPAGATOR => 0 | What.BRANCHER => 1 | What.POST => 2 | What.OTHER => 3) ∧
    (TFO.ofPropagatorGroup (fun w => match w with
        | What.PROPAGATOR => 0 | What.BRANCHER => 1 | What.POST => 2 | What.OTHER => 3)
        ⟨4⟩).call (fun a b => decide (a = b)) (fun w => match w with
        | What.PROPAGATOR => 0 | What.BRANCHER => 1 | What.POST => 2 | What.OTHER => 3)
        (ExecInfo.propagator ⟨4⟩) = (fun a b => decide (a = b)) (⟨4⟩ : Group) (⟨4⟩ : Group) ∧
    (TFO.ofPropagatorGroup (fun w => match w with
        | What.PROPAGATOR => 0 | What.BRANCHER => 1 | What.POST => 2 | What.OTHER => 3)
        ⟨4⟩).call (fun a b => decide (a = b)) (fun w => match w with
        | What.PROPAGATOR => 0 | What.BRANCHER => 1 | What.POST => 2 | What.OTHER => 3)
        (ExecInfo.brancher ⟨4⟩) = false :=
  ⟨fun a b h => by cases a <;> cases b <;> first | rfl | exact absurd h (by decide),
   (tfo_of_group (fun a b => decide (a = b)) (fun w => match w with
      | What.PROPAGATOR => 0 | What.BRANCHER => 1 | What.POST => 2 | What.OTHER => 3)
      (fun a b h => by cases a <;> cases b <;> first | rfl | exact absurd h (by decide))
      ⟨4⟩ ⟨4⟩).2.1,
   (tfo_of_group (fun a b => decide (a = b)) (fun w => match w with
      | What.PROPAGATOR => 0 | What.BRANCHER => 1 | What.POST => 2 | What.OTHER => 3)
      (fun a b h => by cases a <;> cases b <;> first | rfl | exact absurd h (by decide))
      ⟨4⟩ ⟨4⟩).2.2.1⟩

/-! ## Properties: the FlatZinc registry -/

theorem Registry.addAll_none {S Arg Ann R : Type} (adds : List (String × (S → ConExpr Arg → Ann → R)))
    (reg : Registry S Arg Ann R) (k : String) :
    (reg.addAll adds).r k = none ↔ reg.r k = none ∧ ∀ a ∈ adds, a.1 ≠ k := by
  induction adds generalizing reg with
  | nil => simp [Registry.addAll]
  | cons a t ih =>
    obtain ⟨id, p⟩ := a
    simp only [Registry.addAll, ih, Registry.add, List.mem_cons, forall_eq_or_imp]
    by_cases hk : k = id
    · simp only [if_pos hk]
      constructor
      · rintro ⟨h1, _⟩
        exact absurd h1 (by simp)
      · rintro ⟨_, h2, _⟩
        exact absurd hk.symm h2
    · simp only [if_neg hk]
      constructor
      · rintro ⟨h1, h2⟩
        exact ⟨h1, fun h => hk h.symm, h2⟩
      · rintro ⟨h1, _, h2⟩
        exact ⟨h1, h2⟩

theorem Registry.addAll_keep {S Arg Ann R : Type}
    (adds : List (String × (S → ConExpr Arg → Ann → R)))
    (reg : Registry S Arg Ann R) (k : String) (h : ∀ a ∈ adds, a.1 ≠ k) :
    (reg.addAll adds).r k = reg.r k := by
  induction adds generalizing reg with
  | nil => rfl
  | cons a t ih =>
    obtain ⟨id, p⟩ := a
    simp only [Registry.addAll]
    rw [ih _ (fun a ha => h a (List.mem_cons_of_mem _ ha))]
    have hk : k ≠ id := fun hk => h (id, p) (List.mem_cons_self _ _) hk.symm
    simp only [Registry.add, if_neg hk]

theorem Registry.addAll_append {S Arg Ann R : Type}
    (pre rest : List (String × (S → ConExpr Arg → Ann → R)))
    (reg : Registry S Arg Ann R) :
    reg.addAll (pre ++ rest) = (reg.addAll pre).addAll rest := by
  induction pre generalizing reg with
  | nil => rfl
  | cons a t ih =>
    obtain ⟨id, p⟩ := a
    rw [List.cons_append]
    simp only [Registry.addAll]
    exact ih _

/-- Claim C28: after any sequence of registrations, `Registry::post` ends with the
FlatZinc error whose message is `Constraint <id> not found` if and only if no poster has
been added under the identifier of the constraint expression; otherwise it runs one
poster, the one most recently added under that identifier, on the same space, expression
and annotation.  `Registry::add` replaces the poster of its identifier and leaves the
poster of every other identifier unchanged. -/
theorem registry_post_latest {S Arg Ann R : Type}
    (adds : List (String × (S → ConExpr Arg → Ann → R))) (s : S) (ce : ConExpr Arg)
    (ann : Ann) :
    ((Registry.init.addAll adds).post s ce ann =
        Except.error ⟨"Registry", "Constraint " ++ ce.id ++ " not found"⟩ ↔
      ∀ a ∈ adds, a.1 ≠ ce.id) ∧
    (∀ e, (Registry.init.addAll adds).post s ce ann = Except.error e →
      e = ⟨"Registry", "Constraint " ++ ce.id ++ " not found"⟩ ∧ ∀ a ∈ adds, a.1 ≠ ce.id) ∧
    (∀ pre rest p, adds = pre ++ (ce.id, p) :: rest → (∀ a ∈ rest, a.1 ≠ ce.id) →
      (Registry.init.addAll adds).post s ce ann = Except.ok (p s ce ann)) ∧
    (∀ (reg : Registry S Arg Ann R) (id : String) (p : S → ConExpr Arg → Ann → R),
      (reg.add id p).r id = some p ∧ ∀ id', id' ≠ id → (reg.add id p).r id' = reg.r id') := by
  have hnone := Registry.addAll_none adds (Registry.init : Registry S Arg Ann R) ce.id
  refine ⟨?_, ?_, ?_, ?_⟩
  · unfold Registry.post
    cases hr : (Registry.init.addAll adds).r ce.id with
    | none =>
      simp only [true_iff]
      exact (hnone.1 hr).2
    | some p =>
      simp only [reduceCtorEq, false_iff]
      intro h
      rw [hnone.2 ⟨rfl, h⟩] at hr
      exact absurd hr (by simp)
  · intro e he
    unfold Registry.post at he
    cases hr : (Registry.init.addAll adds).r ce.id with
    | none =>
      rw [hr] at he
      simp only [Except.error.injEq] at he
      exact ⟨he.symm, (hnone.1 hr).2⟩
    | some p =>
      rw [hr] at he
      simp at he
  · intro pre rest p hadds hrest
    unfold Registry.post
    rw [hadds, Registry.addAll_append]
    simp only [Registry.addAll]
    rw [Registry.addAll_keep rest _ ce.id hrest]
    simp [Registry.add]
  · intro reg id p
    refine ⟨by simp [Registry.add], ?_⟩
    intro id' hid
    simp [Registry.add, hid]

theorem registry_post_latest_witness :
    (([("int_eq", fun (s : Nat) (_ : ConExpr Nat) (_ : Nat) => s + 1),
        ("int_ne", fun s _ _ => s + 2), ("int_eq", fun s _ _ => s + 3)] :
        List (String × (Nat → ConExpr Nat → Nat → Nat))) =
      [("int_eq", fun (s : Nat) (_ : ConExpr Nat) (_ : Nat) => s + 1),
        ("int_ne", fun s _ _ => s + 2)] ++
        ((⟨"int_eq", []⟩ : ConExpr Nat).id, fun s _ _ => s + 3) :: [] ∧
      ∀ a ∈ ([] : List (String × (Nat → ConExpr Nat → Nat → Nat))),
        a.1 ≠ (⟨"int_eq", []⟩ : ConExpr Nat).id) ∧
    (Registry.init.addAll
        [("int_eq", fun (s : Nat) (_ : ConExpr Nat) (_ : Nat) => s + 1),
          ("int_ne", fun s _ _ => s + 2), ("int_eq", fun s _ _ => s + 3)]).post 10
        ⟨"int_eq", []⟩ 0 = Except.ok 13 :=
  ⟨⟨rfl, by simp⟩,
   (registry_post_latest
      [("int_eq", fun (s : Nat) (_ : ConExpr Nat) (_ : Nat) => s + 1),
        ("int_ne", fun s _ _ => s + 2), ("int_eq", fun s _ _ => s + 3)] 10
      ⟨"int_eq", []⟩ 0).2.2.1
      [("int_eq", fun (s : Nat) (_ : ConExpr Nat) (_ : Nat) => s + 1),
        ("int_ne", fun s _ _ => s + 2)] [] (fun s _ _ => s + 3) rfl (by simp)⟩

theorem neg_holds (r : IntRelType) (a b : Int) : (neg r).holds a b ↔ ¬ r.holds a b := by
  cases r <;> simp only [neg, IntRelType.holds] <;> omega

theorem swap_holds (r : IntRelType) (a b : Int) : (swap r).holds b a ↔ r.holds a b := by
  cases r <;> simp only [swap, IntRelType.holds] <;> omega

theorem swap_neg (r : IntRelType) : swap (neg r) = neg (swap r) := by
  cases r <;> rfl

theorem p_int_CMP_shape (r : IntRelType) (ce : List Node) (q : Posted)
    (h : p_int_CMP r ce = some q) :
    ∃ x y, (q = Posted.rel x r y ∧ ∀ r', p_int_CMP r' ce = some (Posted.rel x r' y)) ∨
      (q = Posted.rel x (swap r) y ∧
        ∀ r', p_int_CMP r' ce = some (Posted.rel x (swap r') y)) := by
  unfold p_int_CMP at h
  cases h0 : ce[0]? with
  | none => simp [h0] at h
  | some c0 =>
    cases h1 : ce[1]? with
    | none => simp [h0, h1] at h
    | some c1 =>
      simp only [h0, h1] at h
      by_cases hv0 : c0.isIntVar = true
      · simp only [hv0, if_true] at h
        by_cases hv1 : c1.isIntVar = true
        · simp only [hv1, if_true] at h
          cases hx : getIntVar c0 with
          | none => simp [hx] at h
          | some x =>
            cases hy : getIntVar c1 with
            | none => simp [hx, hy] at h
            | some y =>
              simp only [hx, hy, Option.some.injEq] at h
              refine ⟨x, y, Or.inl ⟨h.symm, ?_⟩⟩
              intro r'
              simp only [p_int_CMP, h0, h1, hv0, hv1, if_true, hx, hy]
        · simp only [hv1, Bool.false_eq_true, if_false] at h
          cases hx : getIntVar c0 with
          | none => simp [hx] at h
          | some x =>
            cases hy : c1.getInt with
            | none => simp [hx, hy] at h
            | some c =>
              simp only [hx, hy, Option.some.injEq] at h
              refine ⟨x, IntTerm.const c, Or.inl ⟨h.symm, ?_⟩⟩
              intro r'
              simp only [p_int_CMP, h0, h1, hv0, hv1, if_true, Bool.false_eq_true, if_false,
                hx, hy]
      · simp only [hv0, Bool.false_eq_true, if_false] at h
        cases hx : getIntVar c1 with
        | none => simp [hx] at h
        | some x =>
          cases hy : c0.getInt with
          | none => simp [hx, hy] at h
          | some c =>
            simp only [hx, hy, Option.some.injEq] at h
            refine ⟨x, IntTerm.const c, Or.inr ⟨h.symm, ?_⟩⟩
            intro r'
            simp only [p_int_CMP, h0, h1, hv0, Bool.false_eq_true, if_false, hx, hy]

theorem p_int_CMP_reif_false (r : IntRelType) (ce : List Node)
    (h : ce[2]? = some (Node.bool false)) : p_int_CMP_reif r ce = p_int_CMP (neg r) ce := by
  simp only [p_int_CMP_reif, h]

/-- Claim C29: the relation type that `p_int_CMP_reif` hands on when the reification
argument is the constant `false` is the negation of the requested one: for each of the
six relation types `r` and all integers `a` and `b`, `a neg(r) b` holds if and only if
`a r b` does not, and `neg(neg(r)) = r`; the constraint posted for the constant `false`
holds exactly when the constraint posted without reification does not. -/
theorem neg_posts_negation (r : IntRelType) (a b : Int) :
    ((neg r).holds a b ↔ ¬ r.holds a b) ∧
    neg (neg r) = r ∧
    (∀ ce : List Node, ce[2]? = some (Node.bool false) →
      p_int_CMP_reif r ce = p_int_CMP (neg r) ce) ∧
    (∀ (ce : List Node) (q : Posted), ce[2]? = some (Node.bool false) →
      p_int_CMP r ce = some q →
      ∃ p, p_int_CMP_reif r ce = some p ∧
        ∀ (iv : Nat → Int) (bv : Nat → Bool), p.holds iv bv ↔ ¬ q.holds iv bv) := by
  refine ⟨neg_holds r a b, by cases r <;> rfl, p_int_CMP_reif_false r, ?_⟩
  intro ce q h2 hq
  rw [p_int_CMP_reif_false r ce h2]
  obtain ⟨x, y, ⟨hq', hall⟩ | ⟨hq', hall⟩⟩ := p_int_CMP_shape r ce q hq
  · refine ⟨_, hall (neg r), ?_⟩
    intro iv bv
    rw [hq']
    simp only [Posted.holds]
    exact neg_holds r _ _
  · refine ⟨_, hall (neg r), ?_⟩
    intro iv bv
    rw [hq']
    simp only [Posted.holds, swap_neg]
    exact neg_holds (swap r) _ _

theorem neg_posts_negation_witness :
    (([Node.int 3, Node.intVar 0, Node.bool false] : List Node)[2]? =
        some (Node.bool false) ∧
      p_int_CMP IntRelType.IRT_LQ [Node.int 3, Node.intVar 0, Node.bool false] =
        some (Posted.rel (IntTerm.var 0) IntRelType.IRT_GQ (IntTerm.const 3))) ∧
    p_int_CMP_reif IntRelType.IRT_LQ [Node.int 3, Node.intVar 0, Node.bool false] =
      p_int_CMP (neg IntRelType.IRT_LQ) [Node.int 3, Node.intVar 0, Node.bool false] ∧
    p_int_CMP_reif IntRelType.IRT_LQ [Node.int 3, Node.intVar 0, Node.bool false] =
      some (Posted.rel (IntTerm.var 0) IntRelType.IRT_LE (IntTerm.const 3)) :=
  ⟨⟨rfl, rfl⟩,
   (neg_posts_negation IntRelType.IRT_LQ 0 0).2.2.1
     [Node.int 3, Node.intVar 0, Node.bool false] rfl,
   rfl⟩

/-- Claim C30: when the first argument of an integer comparison is a constant `c` and the
second a variable `x`, `p_int_CMP` posts `x swap(r) c`, which holds exactly when `c r x`
does: for each of the six relation types `r` and all integers `a` and `b`, `b swap(r) a`
holds if and only if `a r b` holds; `swap(swap(r)) = r`, and `swap(neg(r)) =
neg(swap(r))`. -/
theorem swap_posts_converse (r : IntRelType) (a b : Int) :
    ((swap r).holds b a ↔ r.holds a b) ∧
    swap (swap r) = r ∧
    swap (neg r) = neg (swap r) ∧
    (∀ (c : Int) (x : Nat) (rest : List Node),
      p_int_CMP r (Node.int c :: Node.intVar x :: rest) =
        some (Posted.rel (IntTerm.var x) (swap r) (IntTerm.const c)) ∧
      ∀ (iv : Nat → Int) (bv : Nat → Bool),
        (Posted.rel (IntTerm.var x) (swap r) (IntTerm.const c)).holds iv bv ↔
          r.holds c (iv x)) := by
  refine ⟨swap_holds r a b, by cases r <;> rfl, swap_neg r, ?_⟩
  intro c x rest
  refine ⟨by simp [p_int_CMP, Node.isIntVar, getIntVar, Node.getInt], ?_⟩
  intro iv bv
  simp only [Posted.holds, IntTerm.eval]
  exact swap_holds r c (iv x)

/-! ## Properties: the image relation of the variable sequence symmetry -/

theorem VariableSequenceSymmetryImp.mem_images (s : VariableSequenceSymmetryImp)
    (l : Literal) (x : ViewArray) (seq0 off0 : Nat) (lit : Literal) :
    lit ∈ s.images l x seq0 off0 ↔
      ∃ seq, seq < s.n_seqs ∧ s.partner x seq0 off0 seq = true ∧
        lit = ⟨(s.posAt seq off0 : Int), l.value⟩ := by
  simp only [VariableSequenceSymmetryImp.images, List.mem_map, List.mem_filter,
    List.mem_range]
  constructor
  · rintro ⟨seq, ⟨h1, h2⟩, h3⟩
    exact ⟨seq, h1, h2, h3.symm⟩
  · rintro ⟨seq, h1, h2, h3⟩
    exact ⟨seq, ⟨h1, h2⟩, h3.symm⟩

theorem VariableSequenceSymmetryImp.symmetric_images_of_mem
    (s : VariableSequenceSymmetryImp) (l : Literal) (x : ViewArray) (hss : 1 ≤ s.seq_size)
    (hlen : s.indices.length = s.n_seqs * s.seq_size)
    (hsz : s.indices.length < 2147483648)
    (hx : ∀ q ∈ s.indices, q < x.length)
    (hlk : ∀ (v : Nat) (p : Int), s.lookup[v]? = some p → p ≠ -1 →
      ∃ i : Nat, p = (i : Int) ∧ s.indices[i]? = some v)
    (res : List Literal) (h : s.symmetric l x = some res) (lit : Literal)
    (hlit : lit ∈ res) :
    ∃ v p : Nat, l.var = (v : Int) ∧ v < s.lookup_size ∧ s.lookup[v]? = some (p : Int) ∧
      s.indices[p]? = some v ∧ res = s.images l x (p / s.seq_size) (p % s.seq_size) := by
  have hnil : s.symmetric l x = some [] → False := by
    intro h'
    rw [h', Option.some.injEq] at h
    rw [← h] at hlit
    exact absurd hlit (List.not_mem_nil _)
  by_cases h1 : l.var < (s.lookup_size : Int)
  · by_cases h2 : l.var < 0
    · simp [VariableSequenceSymmetryImp.symmetric, h1, h2] at h
    · have hvar : l.var = ((l.var.toNat : Nat) : Int) := by omega
      have hv : l.var.toNat < s.lookup_size := by omega
      cases hlook : s.lookup[l.var.toNat]? with
      | none => simp [VariableSequenceSymmetryImp.symmetric, h1, h2, hlook] at h
      | some posIt =>
        by_cases h3 : posIt = -1
        · exact absurd (s.symmetric_of_no_lookup l x
            (Or.inr ⟨_, hvar, hv, by rw [hlook, h3]⟩)) hnil
        · obtain ⟨i, hi, hidx⟩ := hlk _ _ hlook h3
          have hilt : i < s.indices.length := (List.getElem?_eq_some.1 hidx).1
          have hfound := s.symmetric_of_lookup l x _ i hss hlen hsz hx hvar hv
            (by rw [hlook, hi]) hilt
          rw [hfound, Option.some.injEq] at h
          exact ⟨_, i, hvar, hv, by rw [hlook, hi], hidx, h.symm⟩
  · exact absurd (s.symmetric_of_no_lookup l x (Or.inl (by omega))) hnil

theorem VariableSequenceSymmetryImp.posAt_block (s : VariableSequenceSymmetryImp)
    (p v : Nat) (hp : s.indices[p]? = some v) :
    s.posAt (p / s.seq_size) (p % s.seq_size) = v := by
  unfold VariableSequenceSymmetryImp.posAt
  rw [Nat.mul_comm, Nat.div_add_mod, List.getD_eq_getElem?_getD, hp]
  rfl

theorem getD_eq_none_of_lt (x : ViewArray) (q : Nat) (hq : q < x.length)
    (h : x.getD q none = none) : x[q]? = some none := by
  rw [List.getD_eq_getElem _ _ hq] at h
  rw [List.getElem?_eq_getElem hq, h]

/-- Claim C25: for a variable sequence runtime whose lookup maps each position to an index
that holds that position, every live variable array `x` (that holds the positions of the
runtime) and every literal `l`: if the variable of the literal is assigned,
`symmetric(l, x)` is empty; and in every result, the variable of `l` and the variable of
each emitted literal are both unassigned. -/
theorem variableSequence_assigned_source_empty (s : VariableSequenceSymmetryImp)
    (l : Literal) (x : ViewArray) (hss : 1 ≤ s.seq_size)
    (hlen : s.indices.length = s.n_seqs * s.seq_size)
    (hsz : s.indices.length < 2147483648)
    (hx : ∀ q ∈ s.indices, q < x.length)
    (hlksz : s.lookup.length = s.lookup_size)
    (hlk : ∀ (v : Nat) (p : Int), s.lookup[v]? = some p → p ≠ -1 →
      ∃ i : Nat, p = (i : Int) ∧ s.indices[i]? = some v) :
    (∀ (v : Nat) (a : Int), l.var = (v : Int) → x[v]? = some (some a) →
      s.symmetric l x = some []) ∧
    (∀ res, s.symmetric l x = some res → ∀ lit ∈ res,
      ∃ v w : Nat, l.var = (v : Int) ∧ lit.var = (w : Int) ∧
        x[v]? = some none ∧ x[w]? = some none) := by
  have part2 : ∀ res, s.symmetric l x = some res → ∀ lit ∈ res,
      ∃ v w : Nat, l.var = (v : Int) ∧ lit.var = (w : Int) ∧
        x[v]? = some none ∧ x[w]? = some none := by
    intro res h lit hlit
    obtain ⟨v, p, hvar, _, _, hidx, hres⟩ :=
      s.symmetric_images_of_mem l x hss hlen hsz hx hlk res h lit hlit
    rw [hres] at hlit
    obtain ⟨seq, hseq, hpart, hliteq⟩ := (s.mem_images l x _ _ lit).1 hlit
    obtain ⟨_, hcand, hall⟩ := (s.partner_iff x _ _ seq).1 hpart
    have hoff : p % s.seq_size < s.seq_size := Nat.mod_lt _ (by omega)
    have hsrc := hall (p % s.seq_size) hoff
    rw [s.posAt_block p v hidx] at hsrc
    have hv_none : x.getD v none = none := by
      rcases hsrc with ⟨h1, _⟩ | ⟨a, _, h2⟩
      · exact h1
      · rw [hcand] at h2; exact absurd h2 (by simp)
    have hvlt : v < x.length := hx v (List.getElem?_mem hidx)
    have hwidx : seq * s.seq_size + p % s.seq_size < s.indices.length := by
      have := block_index_lt s.n_seqs s.seq_size seq (p % s.seq_size + 1) hseq (by omega)
      omega
    have hwlt : s.posAt seq (p % s.seq_size) < x.length := by
      rw [VariableSequenceSymmetryImp.posAt, List.getD_eq_getElem _ _ hwidx]
      exact hx _ (List.getElem_mem hwidx)
    exact ⟨v, s.posAt seq (p % s.seq_size), hvar, by rw [hliteq],
      getD_eq_none_of_lt x v hvlt hv_none, getD_eq_none_of_lt x _ hwlt hcand⟩
  refine ⟨?_, part2⟩
  intro v a hvar hxa
  have hlkr : ∀ (v : Nat) (p : Int), s.lookup[v]? = some p →
      p = -1 ∨ ∃ i : Nat, p = (i : Int) ∧ i < s.indices.length := by
    intro v p hp
    by_cases h3 : p = -1
    · exact Or.inl h3
    · obtain ⟨i, hi, hidx⟩ := hlk v p hp h3
      exact Or.inr ⟨i, hi, (List.getElem?_eq_some.1 hidx).1⟩
  obtain ⟨res, hres⟩ := s.symmetric_isSome_of_nonneg l x hss hlen hsz hx hlksz hlkr
    (by rw [hvar]; omega)
  cases res with
  | nil => exact hres
  | cons lit rest =>
    obtain ⟨v', _, hvar', _, hnone, _⟩ := part2 _ hres lit (List.mem_cons_self _ _)
    have : v' = v := by
      have := hvar.symm.trans hvar'
      omega
    rw [this, hxa] at hnone
    exact absurd hnone (by simp)

theorem variableSequence_assigned_source_empty_witness :
    ((1 : Nat) ≤
        (VariableSequenceSymmetryImp.mk [4, 1, 0, 3, 5, 2] 2 3 [2, 1, 5, 3, 0, 4] 6).seq_size ∧
      ([some 8, none, none, none, some 8, none] : ViewArray)[4]? = some (some 8)) ∧
    (VariableSequenceSymmetryImp.mk [4, 1, 0, 3, 5, 2] 2 3 [2, 1, 5, 3, 0, 4] 6).symmetric
      ⟨((4 : Nat) : Int), 9⟩ [some 8, none, none, none, some 8, none] = some [] :=
  ⟨⟨by decide, rfl⟩,
   (variableSequence_assigned_source_empty
      ⟨[4, 1, 0, 3, 5, 2], 2, 3, [2, 1, 5, 3, 0, 4], 6⟩ ⟨((4 : Nat) : Int), 9⟩
      [some 8, none, none, none, some 8, none] (by decide) (by decide) (by decide)
      (by decide) (by decide)
      (by
        intro v p h hp
        rcases v with _ | _ | _ | _ | _ | _ | v <;> simp at h <;> subst h <;>
          first
          | exact ⟨0, rfl, rfl⟩ | exact ⟨1, rfl, rfl⟩ | exact ⟨2, rfl, rfl⟩
          | exact ⟨3, rfl, rfl⟩ | exact ⟨4, rfl, rfl⟩ | exact ⟨5, rfl, rfl⟩)).1 4 8 rfl rfl⟩

/-- Claim C26: for a variable sequence runtime over pairwise distinct positions whose
lookup is the exact inverse of the position array, every live variable array `x` (that
holds the positions of the runtime), all positions `v` and `w` and every value `k`: if
the literal `(w, k)` is in `symmetric((v, k), x)`, then the literal `(v, k)` is in
`symmetric((w, k), x)`. -/
theorem variableSequence_image_symmetric (s : VariableSequenceSymmetryImp) (x : ViewArray)
    (v w k : Int) (hss : 1 ≤ s.seq_size)
    (hlen : s.indices.length = s.n_seqs * s.seq_size)
    (hsz : s.indices.length < 2147483648)
    (hx : ∀ q ∈ s.indices, q < x.length)
    (hinv : ∀ (j q : Nat), s.indices[j]? = some q →
      q < s.lookup_size ∧ s.lookup[q]? = some (j : Int))
    (hlk : ∀ (q : Nat) (p : Int), s.lookup[q]? = some p → p ≠ -1 →
      ∃ i : Nat, p = (i : Int) ∧ s.indices[i]? = some q)
    (res : List Literal) (h : s.symmetric ⟨v, k⟩ x = some res)
    (hmem : (⟨w, k⟩ : Literal) ∈ res) :
    ∃ res', s.symmetric ⟨w, k⟩ x = some res' ∧ (⟨v, k⟩ : Literal) ∈ res' := by
  obtain ⟨v', p, hvar, _, _, hidx, hres⟩ :=
    s.symmetric_images_of_mem ⟨v, k⟩ x hss hlen hsz hx hlk res h ⟨w, k⟩ hmem
  simp only at hvar
  rw [hres] at hmem
  obtain ⟨seq, hseq, hpart, hliteq⟩ := (s.mem_images ⟨v, k⟩ x _ _ ⟨w, k⟩).1 hmem
  obtain ⟨hne, hcand, hall⟩ := (s.partner_iff x _ _ seq).1 hpart
  have hoff : p % s.seq_size < s.seq_size := Nat.mod_lt _ (by omega)
  have hplt : p < s.indices.length := (List.getElem?_eq_some.1 hidx).1
  have hseq0 : p / s.seq_size < s.n_seqs := by
    rw [hlen, Nat.mul_comm] at hplt
    exact Nat.div_lt_of_lt_mul hplt
  have hw : w = ((s.posAt seq (p % s.seq_size) : Nat) : Int) := by
    have := congrArg Literal.var hliteq
    simpa using this
  have hwidx : seq * s.seq_size + p % s.seq_size < s.indices.length := by
    have := block_index_lt s.n_seqs s.seq_size seq (p % s.seq_size + 1) hseq (by omega)
    omega
  have hwget : s.indices[seq * s.seq_size + p % s.seq_size]? =
      some (s.posAt seq (p % s.seq_size)) := by
    rw [VariableSequenceSymmetryImp.posAt, List.getD_eq_getElem _ _ hwidx,
      List.getElem?_eq_getElem hwidx]
  obtain ⟨hwlt, hwlk⟩ := hinv _ _ hwget
  have hfound := s.symmetric_of_lookup ⟨w, k⟩ x _ _ hss hlen hsz hx hw hwlt hwlk hwidx
  rw [block_div_eq seq s.seq_size _ hoff, Nat.add_comm, Nat.add_mul_mod_self_right,
    Nat.mod_eq_of_lt hoff] at hfound
  have hsrc := hall (p % s.seq_size) hoff
  have hpos0 := s.posAt_block p v' hidx
  rw [hpos0] at hsrc
  have hv_none : x.getD v' none = none := by
    rcases hsrc with ⟨h1, _⟩ | ⟨a, _, h2⟩
    · exact h1
    · rw [hcand] at h2; exact absurd h2 (by simp)
  refine ⟨_, hfound, (s.mem_images ⟨w, k⟩ x _ _ ⟨v, k⟩).2
    ⟨p / s.seq_size, hseq0, ?_, by rw [hpos0, hvar]⟩⟩
  rw [s.partner_iff]
  refine ⟨fun h' => hne h'.symm, by rw [hpos0]; exact hv_none, ?_⟩
  intro i hi
  rcases hall i hi with ⟨h1, h2⟩ | ⟨a, h1, h2⟩
  · exact Or.inl ⟨h2, h1⟩
  · exact Or.inr ⟨a, h2, h1⟩

theorem variableSequence_image_symmetric_witness :
    ((VariableSequenceSymmetryImp.mk [4, 1, 0, 3, 5, 2] 2 3 [2, 1, 5, 3, 0, 4] 6).symmetric
        ⟨1, 9⟩ [some 8, none, none, none, some 8, none] = some [⟨3, 9⟩] ∧
      (⟨3, 9⟩ : Literal) ∈ [(⟨3, 9⟩ : Literal)]) ∧
    ∃ res', (VariableSequenceSymmetryImp.mk [4, 1, 0, 3, 5, 2] 2 3
        [2, 1, 5, 3, 0, 4] 6).symmetric ⟨3, 9⟩ [some 8, none, none, none, some 8, none] =
          some res' ∧ (⟨1, 9⟩ : Literal) ∈ res' :=
  ⟨⟨rfl, by decide⟩,
   variableSequence_image_symmetric ⟨[4, 1, 0, 3, 5, 2], 2, 3, [2, 1, 5, 3, 0, 4], 6⟩
     [some 8, none, none, none, some 8, none] 1 3 9 (by decide) (by decide) (by decide)
     (by decide)
     (by
        intro j q h
        rcases j with _ | _ | _ | _ | _ | _ | j <;> simp at h <;> subst h <;>
          exact ⟨by decide, rfl⟩)
     (by
        intro q p h hp
        rcases q with _ | _ | _ | _ | _ | _ | q <;> simp at h <;> subst h <;>
          first
          | exact ⟨0, rfl, rfl⟩ | exact ⟨1, rfl, rfl⟩ | exact ⟨2, rfl, rfl⟩
          | exact ⟨3, rfl, rfl⟩ | exact ⟨4, rfl, rfl⟩ | exact ⟨5, rfl, rfl⟩)
     [⟨3, 9⟩] rfl (by decide)⟩

end Gecode
